import Mathlib

/-!
# Verification of the Group-Balancer balanced-partition search engine

This file is a shallow embedding, in Lean 4, of the heuristic search engine of
the Group-Balancer repository (`modules/algorithms.py` together with
`modules/parallel_engine.py`), and proofs of the behavioural properties the
specification claims about it.

Modelling conventions, chosen once and used throughout:

* Scores are embedded as exact rationals (`ℚ`); the Python code uses floats,
  and every claim under study is about order/structure, not float rounding.
* `np.std` (the population standard deviation of the per-group averages) is
  represented by its *square*: `calculate_std_dev_sq` returns the population
  variance (and the square `999999^2` of the source's `999999.0` sentinel for
  the all-empty edge case).  Every comparison the engine performs on standard
  deviations (`<` against another standard deviation or against the `99999.0`
  shared sentinel) is equivalent to the same comparison of the squares, since
  `Real.sqrt` is monotone; theorems additionally restate conclusions through
  `Real.sqrt` where the claim speaks of the standard deviation itself.
* Randomness is made explicit: `random.shuffle` results are passed in as list
  parameters (constrained to be permutations at use sites), `random.choice` /
  `random.randint` / `random.sample` draws are passed as numbers (taken `%`
  the relevant length, so every concrete draw of the source is representable),
  and the Metropolis comparison `random.random() > exp(-diff*100/T)` is passed
  as the Boolean `coin` (its relationship to the uniform draw is stated in the
  theorems about the acceptance step).
* Python dict-shaped records become fixed-shape structures.  Lists of mutable
  group dicts become `List Group` with explicit functional updates; the group
  `id` fields (distinct by construction) play the role the dict identities
  play in the source.
* Fallible code returns `Option`: `generate_random_state` returns `none`
  exactly where the Python raises (`ZeroDivisionError` for `num_groups = 0`,
  `IndexError` for `random.choice([])`).
-/

namespace GroupBalancer

/-- A participant record: the `Name` and `Score` columns of one row
(`modules/config.py` fixes the column names). -/
structure Person where
  name : String
  score : ℚ
deriving DecidableEq, Inhabited

/-- `config.ADVANTAGE_CHAR = '*'`: a participant is advantaged ("star") when
the name ends with the marker (`str(p[COL_NAME]).endswith(ADVANTAGE_CHAR)`,
i.e. the last character of the name is `'*'`). -/
def is_star (p : Person) : Bool := p.name.data.getLast? == some '*'

/-- One group dict: `{'id': i+1, 'members': [...], 'current_sum': s, 'avg': a}`. -/
structure Group where
  id : ℕ
  members : List Person
  current_sum : ℚ
  avg : ℚ
deriving DecidableEq, Inhabited

/-- Sum of the scores of a member list (`sum(float(m[COL_SCORE]) for m in ...)`). -/
def group_sum (ms : List Person) : ℚ := (ms.map Person.score).sum

/-- Recompute the cached fields of one group from its members
(the body of the loop of `recalculate_sums`). -/
def recalc_one (g : Group) : Group :=
  let s := group_sum g.members
  let c := g.members.length
  { g with current_sum := s, avg := if 0 < c then s / c else 0 }

/-- `recalculate_sums`: paranoid recomputation of every group's cached sum and
average from its current members. -/
def recalculate_sums (gs : List Group) : List Group := gs.map recalc_one

/-- `deep_copy_groups`: an independent copy followed by `recalculate_sums`.
Copying is the identity for Lean values, so only the recomputation remains. -/
def deep_copy_groups (gs : List Group) : List Group := recalculate_sums gs

/-- The per-group averages that `calculate_std_dev` collects: `s/c` for every
group with at least one member. -/
def group_avgs (gs : List Group) : List ℚ :=
  (gs.filter (fun g => 0 < g.members.length)).map
    (fun g => group_sum g.members / g.members.length)

/-- Arithmetic mean of a list of rationals (`0` on the empty list, matching
`x/0 = 0` in `ℚ`; the caller guards emptiness). -/
def rat_mean (l : List ℚ) : ℚ := l.sum / l.length

/-- Population variance of a list of rationals: `np.std(l)^2`. -/
def pop_var (l : List ℚ) : ℚ :=
  ((l.map (fun a => (a - rat_mean l) ^ 2)).sum) / l.length

/-- The square of `calculate_std_dev`: `np.std(avgs)^2` over the averages of
the nonempty groups, and `999999.0^2` (the square of the source's sentinel)
when every group is empty.  `calculate_std_dev gs = Real.sqrt (this)`, and all
comparisons the engine makes between standard deviations transfer to the
squares because `Real.sqrt` is monotone on nonnegatives. -/
def calculate_std_dev_sq (gs : List Group) : ℚ :=
  let avgs := group_avgs gs
  if avgs.isEmpty then 999999 ^ 2 else pop_var avgs

/-- The multiset of all members over all groups of a state. -/
def members_all (gs : List Group) : Multiset Person :=
  (gs.map (fun g => (g.members : Multiset Person))).sum

/-- Number of advantaged members of a group. -/
def star_count (g : Group) : ℕ := (g.members.filter (fun p => is_star p)).length

/-- Total number of placed people (`sum(len(g['members']) for g in groups)`). -/
def sizes_sum (gs : List Group) : ℕ := (gs.map (fun g => g.members.length)).sum

-- ### Initial-state generator (`generate_random_state`, lines 37-68)

/-- Lines 40-41: the star/normal split.  `stars` is the advantaged sublist when
`respect_stars` (otherwise `[]`), `normals` is every participant not occurring
in `stars` (Python's `p not in stars` membership test). -/
def star_split (participants : List Person) (respect_stars : Bool) :
    List Person × List Person :=
  let stars := if respect_stars then participants.filter (fun p => is_star p) else []
  let normals := participants.filter (fun p => decide (p ∉ stars))
  (stars, normals)

/-- The fresh groups `[{'id': i+1, 'members': [], 'current_sum': 0} for i in range(n)]`
(the `avg` key does not exist until the first recomputation; it is embedded
as `0`). -/
def init_groups (num_groups : ℕ) : List Group :=
  (List.range num_groups).map (fun i => { id := i + 1, members := [], current_sum := 0, avg := 0 })

/-- Append a person to the members of the group at position `t`. -/
def append_at (gs : List Group) (t : ℕ) (p : Person) : List Group :=
  match gs[t]? with
  | none => gs
  | some g => gs.set t { g with members := g.members ++ [p] }

/-- Lines 57-60: round-robin star seeding, `groups[i % num_groups].append(s)`
for the `i`-th star (the running index `i` is the second argument). -/
def seed_stars (num_groups : ℕ) : List Group → ℕ → List Person → List Group
  | gs, _, [] => gs
  | gs, i, s :: rest => seed_stars num_groups (append_at gs (i % num_groups) s) (i + 1) rest

/-- The `needed` quantity of `is_safe` (line 52): how many more members the
*other* groups (those with a different `id`) need to reach `min_size`.
Natural subtraction is exactly Python's `max(0, min_size - len)`. -/
def needed_for (gs : List Group) (gid : ℕ) (min_size : ℕ) : ℕ :=
  ((gs.filter (fun og => og.id ≠ gid)).map
    (fun og => min_size - og.members.length)).sum

/-- Lines 50-53, `is_safe(g, pool_rem)`: the group is below `max_size` and
placing here still leaves the pool able to fill every other group to
`min_size`.  The comparison `(pool_rem - 1) >= needed` is over `ℤ`, as in
Python. -/
def is_safe (gs : List Group) (g : Group) (pool_rem : ℕ) (min_size max_size : ℕ) : Bool :=
  if max_size ≤ g.members.length then false
  else decide ((pool_rem : ℤ) - 1 ≥ (needed_for gs g.id min_size : ℤ))

/-- `is_safe` read off a position of the group list. -/
def is_safe_at (gs : List Group) (t : ℕ) (pool_rem : ℕ) (min_size max_size : ℕ) : Bool :=
  match gs[t]? with
  | none => false
  | some g => is_safe gs g pool_rem min_size max_size

/-- Lines 62-66: place each normal into a uniformly chosen group from
`valid if valid else groups`.  `random.choice` is modelled by the draw
`choice k` taken modulo the number of candidates (`k` counts placement steps);
the candidates are group *positions* (group ids are distinct, so choosing a
position is choosing a dict).  An empty candidate list (only possible when
`groups == []`) yields `none`, Python's `IndexError` from `random.choice([])`. -/
def place_normals (min_size max_size : ℕ) (choice : ℕ → ℕ) :
    List Group → ℕ → ℕ → List Person → Option (List Group)
  | gs, _, _, [] => some gs
  | gs, pool, k, n :: rest =>
    let validIdx := (List.range gs.length).filter
      (fun t => is_safe_at gs t pool min_size max_size)
    let cands := if validIdx.isEmpty then List.range gs.length else validIdx
    match cands[choice k % cands.length]? with
    | none => none
    | some t =>
      match gs[t]? with
      | none => none
      | some g =>
        place_normals min_size max_size choice
          (gs.set t { g with members := g.members ++ [n] }) (pool - 1) (k + 1) rest

/-- `generate_random_state(participants, num_groups, respect_stars)`.

The two `random.shuffle` calls are modelled by the parameters `stars` and
`normals`: at every use site they are constrained to be permutations of the
two components of `star_split participants respect_stars`.  `num_groups = 0`
returns `none`: the Python raises `ZeroDivisionError` at
`min_size = total // num_groups` (there is no group-count validation in the
source). -/
def generate_random_state (participants : List Person) (num_groups : ℕ)
    (respect_stars : Bool) (stars normals : List Person) (choice : ℕ → ℕ) :
    Option (List Group) :=
  if num_groups = 0 then none
  else
    let total := participants.length
    let min_size := total / num_groups
    let max_size := min_size + 1
    let gs0 := init_groups num_groups
    let pool0 := stars.length + normals.length
    let gs1 := if respect_stars then seed_stars num_groups gs0 0 stars else gs0
    let pool1 := if respect_stars then pool0 - stars.length else pool0
    (place_normals min_size max_size choice gs1 pool1 0 normals).map recalculate_sums

-- ### Annealing worker (`run_simulated_annealing`, lines 125-226)

/-- The private loop state of one annealing worker: the mutated `current`
state, the tracked `best` copy and its objective, and the temperature.
(`iters_since_improvement` is carried by the source but never read; it is
omitted.)  `best_sq` stores the square of `best_std`, per the file-wide
convention. -/
structure SAState where
  current : List Group
  best : List Group
  best_sq : ℚ
  T : ℚ
deriving DecidableEq

/-- Lines 222-224: geometric cooling `T *= 0.9999` with reheating to
`T_MAX = 1000` once `T` drops below `T_MIN = 0.001`. -/
def cool (T : ℚ) : ℚ :=
  let T' := T * (9999 / 10000)
  if T' < 1 / 1000 then 1000 else T'

/-- One iteration's random draws: which move, the two sampled group positions
(`random.sample(current_groups, 2)` — always distinct and in range in the
source; out-of-range or equal positions are embedded as no-ops), the member
draws, and the Metropolis comparison outcome `coin`
(`coin = true` ↔ `not (random.random() > exp(-diff*100/T))`, i.e. the
worsening move is kept). -/
inductive MoveChoice where
  | swap (i j k1 k2 : ℕ) (coin : Bool)
  | transfer (i j k : ℕ) (coin : Bool)
deriving DecidableEq

/-- The swap arm, lines 159-185.  `k1`/`k2` are the `random.randint` draws,
reduced modulo the member counts. -/
def try_swap (respect_stars : Bool) (i j k1 k2 : ℕ) (coin : Bool) (st : SAState) : SAState :=
  match st.current[i]?, st.current[j]? with
  | some g1, some g2 =>
    if i = j then st
    else if g1.members.isEmpty ∨ g2.members.isEmpty then st
    else
      let idx1 := k1 % g1.members.length
      let idx2 := k2 % g2.members.length
      let m1 := g1.members.getD idx1 default
      let m2 := g2.members.getD idx2 default
      if respect_stars ∧ is_star m1 ≠ is_star m2 then st
      else
        let g1' := recalc_one { g1 with members := g1.members.set idx1 m2 }
        let g2' := recalc_one { g2 with members := g2.members.set idx2 m1 }
        let cur' := (st.current.set i g1').set j g2'
        let curr_sq := calculate_std_dev_sq cur'
        if curr_sq < st.best_sq then
          { current := cur', best := deep_copy_groups cur', best_sq := curr_sq, T := cool st.T }
        else if coin then
          { st with current := cur', T := cool st.T }
        else
          let g1r := recalc_one { g1' with members := g1'.members.set idx1 m1 }
          let g2r := recalc_one { g2' with members := g2'.members.set idx2 m2 }
          { st with current := (cur'.set i g1r).set j g2r, T := cool st.T }
  | _, _ => st

/-- The transfer arm, lines 188-220.  A transfer is legal only from a group at
`max_size` to one at `min_size`; when constrained, a star may not move into a
group already holding a star.  On rejection the member is popped off the end
of the destination and appended back to the source. -/
def try_transfer (min_size max_size : ℕ) (respect_stars : Bool) (i j k : ℕ) (coin : Bool)
    (st : SAState) : SAState :=
  match st.current[i]?, st.current[j]? with
  | some g1, some g2 =>
    if i = j then st
    else
      let pick : Option (ℕ × Group × ℕ × Group) :=
        if g1.members.length = max_size ∧ g2.members.length = min_size then some (i, g1, j, g2)
        else if g2.members.length = max_size ∧ g1.members.length = min_size then some (j, g2, i, g1)
        else none
      match pick with
      | none => { st with T := cool st.T }
      | some (si, src, di, dst) =>
        let idx := k % src.members.length
        let item := src.members.getD idx default
        if respect_stars ∧ is_star item ∧ 0 < star_count dst then
          { st with T := cool st.T }
        else
          let src' := recalc_one { src with members := src.members.eraseIdx idx }
          let dst' := recalc_one { dst with members := dst.members ++ [item] }
          let cur' := (st.current.set si src').set di dst'
          let curr_sq := calculate_std_dev_sq cur'
          if curr_sq < st.best_sq then
            { current := cur', best := deep_copy_groups cur', best_sq := curr_sq, T := cool st.T }
          else if coin then
            { st with current := cur', T := cool st.T }
          else
            let dstr := recalc_one { dst' with members := dst'.members.dropLast }
            let srcr := recalc_one { src' with members := src'.members ++ [item] }
            { st with current := (cur'.set di dstr).set si srcr, T := cool st.T }
  | _, _ => st

/-- One iteration of the `while` loop of `run_simulated_annealing` (the move
attempt and the temperature update; the time/stop checks select how many
iterations run and are modelled by the length of the move list). -/
def sa_step (min_size max_size : ℕ) (respect_stars : Bool) (mv : MoveChoice)
    (st : SAState) : SAState :=
  match mv with
  | .swap i j k1 k2 coin => try_swap respect_stars i j k1 k2 coin st
  | .transfer i j k coin => try_transfer min_size max_size respect_stars i j k coin st

-- ### Shared best state (`update_global_state`, `parallel_engine`)

/-- The manager namespace of `solve_both_scenarios_parallel` (lines 39-43):
the constrained (`a`) and unconstrained (`b`) best scores and states.
Scores store the square of the standard deviation, per the file-wide
convention; the `99999.0` init becomes `99999^2`. -/
structure SharedNS where
  best_a_score : ℚ
  best_a_groups : Option (List Group)
  best_b_score : ℚ
  best_b_groups : Option (List Group)
deriving DecidableEq

/-- Lines 40-43: the coordinator's fresh shared namespace. -/
def init_ns : SharedNS :=
  { best_a_score := 99999 ^ 2, best_a_groups := none
    best_b_score := 99999 ^ 2, best_b_groups := none }

/-- `update_global_state` (lines 110-123): a constrained publish offers the
result to the constrained slot, and *every* publish offers it to the
unconstrained slot.  The lock-protected double check collapses to a single
compare-and-set in this sequential model of one interleaving. -/
def update_global_state (local_groups : List Group) (local_sq : ℚ)
    (is_constrained : Bool) (ns : SharedNS) : SharedNS :=
  let ns1 :=
    if is_constrained ∧ local_sq < ns.best_a_score then
      { ns with best_a_score := local_sq, best_a_groups := some local_groups }
    else ns
  if local_sq < ns1.best_b_score then
    { ns1 with best_b_score := local_sq, best_b_groups := some local_groups }
  else ns1

/-- One loop iteration together with its publish: `update_global_state` is
called exactly when the move improved on `best_std` (lines 174-177, 208-211),
i.e. exactly when the step strictly lowered `best_sq`. -/
def sa_step_ns (min_size max_size : ℕ) (respect_stars : Bool) (mv : MoveChoice)
    (p : SAState × SharedNS) : SAState × SharedNS :=
  let st' := sa_step min_size max_size respect_stars mv p.1
  if st'.best_sq < p.1.best_sq then
    (st', update_global_state st'.best st'.best_sq respect_stars p.2)
  else (st', p.2)

/-- `run_simulated_annealing` (lines 125-226) for a given sequence of random
draws: initialise `best` as a deep copy of the seed, publish it, and fold the
loop over the moves.  The wall-clock/stop-event exit is modelled by the move
list being an arbitrary finite sequence.  Returns the final loop state and
shared namespace; the worker's return value is the `best`/`best_sq` pair of
the former. -/
def run_simulated_annealing (groups : List Group) (respect_stars : Bool)
    (ns : SharedNS) (moves : List MoveChoice) : SAState × SharedNS :=
  let best0 := deep_copy_groups groups
  let best_sq0 := calculate_std_dev_sq best0
  let ns0 := update_global_state best0 best_sq0 respect_stars ns
  let total_people := sizes_sum groups
  let min_size := total_people / groups.length
  let max_size := min_size + 1
  let st0 : SAState := { current := deep_copy_groups groups, best := best0
                         best_sq := best_sq0, T := 1000 }
  moves.foldl (fun p mv => sa_step_ns min_size max_size respect_stars mv p) (st0, ns0)

/-- The tentatively swapped state of the swap arm (lines 167-172): members at
the two drawn positions exchanged and both groups recalculated. -/
def swap_applied (i j k1 k2 : ℕ) (g1 g2 : Group) (cur : List Group) : List Group :=
  let idx1 := k1 % g1.members.length
  let idx2 := k2 % g2.members.length
  let m1 := g1.members.getD idx1 default
  let m2 := g2.members.getD idx2 default
  (cur.set i (recalc_one { g1 with members := g1.members.set idx1 m2 })).set j
    (recalc_one { g2 with members := g2.members.set idx2 m1 })

/-- The tentatively transferred state of the transfer arm (lines 200-204):
the drawn member removed from the source, appended to the destination, both
groups recalculated. -/
def transfer_applied (si di idx : ℕ) (src dst : Group) (cur : List Group) : List Group :=
  let item := src.members.getD idx default
  (cur.set si (recalc_one { src with members := src.members.eraseIdx idx })).set di
    (recalc_one { dst with members := dst.members ++ [item] })

-- ### Coordinator (`solve_both_scenarios_parallel`)

/-- Line 29: worker count for the constrained variant,
`max(1, total_cores // 2)`. -/
def cores_constrained (total_cores : ℕ) : ℕ := max 1 (total_cores / 2)

/-- Line 30: worker count for the unconstrained variant,
`max(1, total_cores - cores_constrained)`. -/
def cores_unconstrained (total_cores : ℕ) : ℕ :=
  max 1 (total_cores - cores_constrained total_cores)

/-- Lines 102-111: the final harvest reads the two shared slots, replacing a
never-written `None` by `[]`. -/
def harvest (ns : SharedNS) : List Group × ℚ × List Group × ℚ :=
  (ns.best_a_groups.getD [], ns.best_a_score, ns.best_b_groups.getD [], ns.best_b_score)

-- ### The specification's "targeted-extremes swap" (§4.3)

/-- The recomputed average of a group (0 when empty). -/
def avg_of (g : Group) : ℚ :=
  if 0 < g.members.length then group_sum g.members / g.members.length else 0

/-- Stable insertion of a group into a list sorted by descending average. -/
def insert_desc (g : Group) : List Group → List Group
  | [] => [g]
  | h :: t => if avg_of h < avg_of g then g :: h :: t else h :: insert_desc g t

/-- Stable sort of groups by descending average ("order groups by descending
`average`"). -/
def sort_desc : List Group → List Group
  | [] => []
  | h :: t => insert_desc h (sort_desc t)

/-- Candidate exchanges of the specification's targeted-extremes swap: for the
3 highest- and 3 lowest-average groups, high/low pairs with average gap
≥ 0.01, member pairs with the high member's score strictly above the low
member's (equal advantaged status when constrained), keyed by the
sum-of-squares of the two hypothetical new averages; only exchanges improving
that sum-of-squares by more than 1e-6 qualify.

This routine follows the SPEC's §4.3 description; the repository source
contains no such routine (its search loop swaps uniformly at random), which
is what the claim about it turns on. -/
def targeted_swap_candidates (gs : List Group) (respect_stars : Bool) :
    List (ℚ × ((Group × Person) × (Group × Person))) :=
  let sorted := sort_desc gs
  let highs := sorted.take 3
  let lows := sorted.reverse.take 3
  highs.flatMap (fun h =>
    lows.flatMap (fun l =>
      if h = l then []
      else if avg_of h - avg_of l < 1 / 100 then []
      else
        h.members.flatMap (fun hm =>
          l.members.filterMap (fun lm =>
            if hm.score > lm.score ∧ (respect_stars → is_star hm = is_star lm) then
              let new_h := (group_sum h.members - hm.score + lm.score) / h.members.length
              let new_l := (group_sum l.members - lm.score + hm.score) / l.members.length
              let new_sse := new_h ^ 2 + new_l ^ 2
              if avg_of h ^ 2 + avg_of l ^ 2 - new_sse > 1 / 1000000 then
                some (new_sse, ((h, hm), (l, lm)))
              else none
            else none))))

/-- The single best exchange of the specification's targeted-extremes swap
(`none` = report failure / no-op).  Spec-modelled, see
`targeted_swap_candidates`. -/
def targeted_swap_spec (gs : List Group) (respect_stars : Bool) :
    Option ((Group × Person) × (Group × Person)) :=
  (targeted_swap_candidates gs respect_stars).foldl
    (fun acc c =>
      match acc with
      | none => some c
      | some b => if c.1 < b.1 then some c else some b) none
    |>.map (fun c => c.2)

-- star_len: advantaged-member count of a member list

/-- Number of advantaged persons in a member list (`star_count` unfolded). -/
def star_len (l : List Person) : ℕ := (l.filter (fun p => is_star p)).length

@[simp] theorem recalc_one_members (g : Group) : (recalc_one g).members = g.members := rfl

@[simp] theorem recalc_one_id (g : Group) : (recalc_one g).id = g.id := rfl

@[simp] theorem star_count_recalc (g : Group) : star_count (recalc_one g) = star_count g := rfl

-- ### What a single loop iteration can do to the current state

/-- Shape of `current` across one iteration: unchanged, or the two sampled
groups `i ≠ j` replaced in place such that their combined member multiset is
conserved, in one of three recorded ways: per-group member multisets
conserved (rejected moves, after the exact revert); a kept swap (per-group
sizes conserved, and per-group star counts conserved when constrained); or a
kept transfer from a `max_size` group to a `min_size` group (which, when
constrained, either moves a non-star or moves a star into a previously
star-free group). -/
def step_shape (min_size max_size : ℕ) (rs : Bool) (cur cur' : List Group) : Prop :=
  cur' = cur ∨
  ∃ i j gi gj gi' gj', i ≠ j ∧ cur[i]? = some gi ∧ cur[j]? = some gj ∧
    cur' = (cur.set i gi').set j gj' ∧
    (↑gi'.members + ↑gj'.members : Multiset Person) = ↑gi.members + ↑gj.members ∧
    (((↑gi'.members : Multiset Person) = ↑gi.members ∧
        (↑gj'.members : Multiset Person) = ↑gj.members) ∨
     (gi'.members.length = gi.members.length ∧ gj'.members.length = gj.members.length ∧
       (rs = true → star_count gi' = star_count gi ∧ star_count gj' = star_count gj)) ∨
     (gi.members.length = max_size ∧ gj.members.length = min_size ∧
       gi'.members.length + 1 = gi.members.length ∧
       gj'.members.length = gj.members.length + 1 ∧
       (rs = true →
         (star_count gi' = star_count gi ∧ star_count gj' = star_count gj) ∨
         (star_count gj = 0 ∧ star_count gi = star_count gi' + 1 ∧ star_count gj' = 1))))

-- ### What a single loop iteration can do to the tracked best

/-- Shape of the best-tracking fields across one iteration: the tracked
objective never increases, it changes only when strictly improved (in which
case the new best is a deep copy of the new current state), and otherwise the
best state is untouched. -/
def best_shape (st st' : SAState) : Prop :=
  st'.best_sq ≤ st.best_sq ∧ (st'.best_sq = st.best_sq → st'.best = st.best) ∧
    (st'.best = st.best ∨ st'.best = deep_copy_groups st'.current)

/-- Size balance: all group sizes stay within `{q, q+1}` (with `q = N / G`)
and the total stays `N`, across every loop iteration run with
`min_size = N / G` and `max_size = min_size + 1`. -/
def size_profile (N G : ℕ) (gs : List Group) : Prop :=
  gs.length = G ∧ sizes_sum gs = N ∧
    ∀ g ∈ gs, N / G ≤ g.members.length ∧ g.members.length ≤ N / G + 1

/-- Star balance: pairwise, advantaged counts differ by at most one.  This is
conserved by every constrained loop iteration. -/
def star_profile (gs : List Group) : Prop :=
  ∀ g ∈ gs, ∀ g' ∈ gs, star_count g ≤ star_count g' + 1

-- ### Positional accounting for the generator

/-- Member count of the group at position `n` (0 when out of range). -/
def len_at (gs : List Group) (n : ℕ) : ℕ := (gs.getD n default).members.length

/-- Star count of the group at position `n` (0 when out of range). -/
def star_at (gs : List Group) (n : ℕ) : ℕ := star_count (gs.getD n default)

-- ### The feasibility guard of the placement loop

/-- Total deficit against `min_size` (`ms`) over all groups. -/
def Dsum (ms : ℕ) (gs : List Group) : ℕ :=
  (gs.map (fun g => ms - g.members.length)).sum

/-- The run-long state invariant of one worker: `current` and `best` are both
exact partitions of the input with balanced sizes (and, when constrained,
balanced star counts). -/
def full_inv (P : Multiset Person) (N G : ℕ) (rs : Bool) (st : SAState) : Prop :=
  members_all st.current = P ∧ size_profile N G st.current ∧
    members_all st.best = P ∧ size_profile N G st.best ∧
    (rs = true → star_profile st.current ∧ star_profile st.best)

/-- Validity invariant of the shared namespace: each slot is either untouched
(`none`, score still the `99999.0` sentinel) or holds a valid published
grouping. -/
def ns_inv (P : Multiset Person) (N G : ℕ) (ns : SharedNS) : Prop :=
  (ns.best_a_groups = none → ns.best_a_score = 99999 ^ 2) ∧
  (∀ gs, ns.best_a_groups = some gs →
    members_all gs = P ∧ size_profile N G gs) ∧
  (ns.best_b_groups = none → ns.best_b_score = 99999 ^ 2) ∧
  (∀ gs, ns.best_b_groups = some gs →
    members_all gs = P ∧ size_profile N G gs)

/-- A whole sequence of publishes, folded over the shared namespace. -/
def publish_fold (pubs : List (List Group × ℚ × Bool)) (ns : SharedNS) : SharedNS :=
  pubs.foldl (fun ns p => update_global_state p.1 p.2.1 p.2.2 ns) ns

-- ### Worker-local fold invariants (no shared-state hypotheses)

/-- Partition-and-count invariant of the loop state. -/
def pc_inv (P : Multiset Person) (G : ℕ) (st : SAState) : Prop :=
  members_all st.current = P ∧ st.current.length = G ∧
    members_all st.best = P ∧ st.best.length = G

/-- Size-balance invariant of the loop state. -/
def sz_inv (P : Multiset Person) (N G : ℕ) (st : SAState) : Prop :=
  members_all st.current = P ∧ size_profile N G st.current ∧
    members_all st.best = P ∧ size_profile N G st.best

/-- Star-balance invariant of the loop state (constrained variant). -/
def stb_inv (st : SAState) : Prop :=
  star_profile st.current ∧ star_profile st.best

-- ### Theorems

-- ### List and multiset surgery lemmas

theorem coe_set_add_getD {α : Type} [DecidableEq α] :
    ∀ (l : List α) (k : ℕ) (b d : α), k < l.length →
      (↑(l.set k b) : Multiset α) + {l.getD k d} = ↑l + {b}
  | [], k, b, d, h => by simp at h
  | a :: l, 0, b, d, _ => by
      simp only [List.set, List.getD_cons_zero]
      rw [← Multiset.cons_coe, ← Multiset.cons_coe]
      rw [← Multiset.singleton_add, ← Multiset.singleton_add]
      abel
  | a :: l, k + 1, b, d, h => by
      simp only [List.set, List.getD_cons_succ]
      rw [← Multiset.cons_coe, ← Multiset.cons_coe]
      rw [Multiset.cons_add, Multiset.cons_add]
      congr 1
      exact coe_set_add_getD l k b d (by simpa using h)

theorem getD_cons_eraseIdx {α : Type} [DecidableEq α] :
    ∀ (l : List α) (k : ℕ) (d : α), k < l.length →
      (l.getD k d) ::ₘ (↑(l.eraseIdx k) : Multiset α) = ↑l
  | [], k, d, h => by simp at h
  | a :: l, 0, d, _ => by simp [List.eraseIdx]
  | a :: l, k + 1, d, h => by
      simp only [List.eraseIdx, List.getD_cons_succ]
      rw [← Multiset.cons_coe, ← Multiset.cons_coe]
      rw [Multiset.cons_swap]
      congr 1
      exact getD_cons_eraseIdx l k d (by simpa using h)

theorem set_getD_self {α : Type} :
    ∀ (l : List α) (k : ℕ) (d : α), l.set k (l.getD k d) = l
  | [], _, _ => by simp
  | a :: l, 0, d => by simp
  | a :: l, k + 1, d => by
      simp only [List.set, List.getD_cons_succ]
      rw [set_getD_self l k d]

theorem members_all_nil : members_all [] = 0 := rfl

theorem members_all_cons (g : Group) (gs : List Group) :
    members_all (g :: gs) = ↑g.members + members_all gs := by
  simp [members_all]

theorem members_all_set :
    ∀ (gs : List Group) (k : ℕ) (g : Group), k < gs.length →
      members_all (gs.set k g) + ↑((gs.getD k default).members) =
        members_all gs + ↑g.members
  | [], k, g, h => by simp at h
  | a :: gs, 0, g, _ => by
      simp only [List.set, List.getD_cons_zero, members_all_cons]
      abel
  | a :: gs, k + 1, g, h => by
      have ih := members_all_set gs k g (by simpa using h)
      simp only [List.set, List.getD_cons_succ, members_all_cons]
      rw [add_assoc, add_assoc, ih]

theorem sizes_sum_set :
    ∀ (gs : List Group) (k : ℕ) (g : Group), k < gs.length →
      sizes_sum (gs.set k g) + (gs.getD k default).members.length =
        sizes_sum gs + g.members.length
  | [], k, g, h => by simp at h
  | a :: gs, 0, g, _ => by simp [sizes_sum]; omega
  | a :: gs, k + 1, g, h => by
      have ih := sizes_sum_set gs k g (by simpa using h)
      simp [sizes_sum] at ih ⊢
      omega

theorem length_members_eq_card (l : List Person) :
    l.length = Multiset.card (↑l : Multiset Person) := by simp

theorem star_count_congr (g g' : Group)
    (h : (↑g.members : Multiset Person) = ↑g'.members) :
    star_count g = star_count g' := by
  have hp : g.members.Perm g'.members := Multiset.coe_eq_coe.mp h
  exact (hp.filter _).length_eq

theorem star_count_eq_star_len (g : Group) : star_count g = star_len g.members := rfl

theorem star_len_append_star (l : List Person) (p : Person) (hp : is_star p = true) :
    star_len (l ++ [p]) = star_len l + 1 := by
  simp [star_len, List.filter_append, List.filter_cons, hp]

theorem star_len_append_not (l : List Person) (p : Person) (hp : is_star p = false) :
    star_len (l ++ [p]) = star_len l := by
  simp [star_len, List.filter_append, List.filter_cons, hp]

theorem star_len_set_eq :
    ∀ (l : List Person) (k : ℕ) (b : Person), k < l.length →
      is_star b = is_star (l.getD k default) → star_len (l.set k b) = star_len l
  | [], k, b, h, _ => by simp at h
  | a :: l, 0, b, _, hb => by
      simp only [List.getD_cons_zero] at hb
      simp only [star_len, List.set, List.filter_cons, hb]
      split <;> simp
  | a :: l, k + 1, b, h, hb => by
      have ih := star_len_set_eq l k b (by simpa using h) (by simpa using hb)
      simp only [star_len] at ih
      simp only [List.set, star_len, List.filter_cons]
      split <;> (try simp only [List.length_cons]) <;> omega

theorem star_len_eraseIdx_star :
    ∀ (l : List Person) (k : ℕ), k < l.length →
      is_star (l.getD k default) = true → star_len (l.eraseIdx k) + 1 = star_len l
  | [], k, h, _ => by simp at h
  | a :: l, 0, _, hs => by
      simp only [List.getD_cons_zero] at hs
      simp [star_len, List.eraseIdx, List.filter_cons, hs]
  | a :: l, k + 1, h, hs => by
      have ih := star_len_eraseIdx_star l k (by simpa using h) (by simpa using hs)
      simp only [star_len] at ih
      simp only [List.eraseIdx, star_len, List.filter_cons]
      split <;> (try simp only [List.length_cons]) <;> omega

theorem star_len_eraseIdx_not :
    ∀ (l : List Person) (k : ℕ), k < l.length →
      is_star (l.getD k default) = false → star_len (l.eraseIdx k) = star_len l
  | [], k, h, _ => by simp at h
  | a :: l, 0, _, hs => by
      simp only [List.getD_cons_zero] at hs
      simp [star_len, List.eraseIdx, List.filter_cons, hs]
  | a :: l, k + 1, h, hs => by
      have ih := star_len_eraseIdx_not l k (by simpa using h) (by simpa using hs)
      simp only [star_len] at ih
      simp only [List.eraseIdx, star_len, List.filter_cons]
      split <;> (try simp only [List.length_cons]) <;> omega

theorem getD_mem_of_lt (l : List Person) (k : ℕ) (h : k < l.length) :
    l.getD k default ∈ l := by
  rw [List.getD_eq_getElem l default h]
  exact List.getElem_mem h

theorem try_swap_shape (min_size max_size : ℕ) (rs : Bool) (i j k1 k2 : ℕ) (coin : Bool)
    (st : SAState) :
    step_shape min_size max_size rs st.current (try_swap rs i j k1 k2 coin st).current := by
  rcases h1 : st.current[i]? with _ | g1
  · left; simp [try_swap, h1]
  rcases h2 : st.current[j]? with _ | g2
  · left; simp [try_swap, h1, h2]
  by_cases hij : i = j
  · left; simp only [try_swap, h1, h2]; rw [if_pos hij]
  by_cases hemp : g1.members.isEmpty ∨ g2.members.isEmpty
  · left; simp only [try_swap, h1, h2]; rw [if_neg hij, if_pos hemp]
  by_cases hstat : rs ∧ is_star (g1.members.getD (k1 % g1.members.length) default) ≠
      is_star (g2.members.getD (k2 % g2.members.length) default)
  · left; simp only [try_swap, h1, h2]; rw [if_neg hij, if_neg hemp, if_pos hstat]
  have hpos1 : 0 < g1.members.length := by
    cases hl : g1.members with
    | nil => exact absurd (Or.inl (by simp [hl])) hemp
    | cons a l => simp [hl]
  have hpos2 : 0 < g2.members.length := by
    cases hl : g2.members with
    | nil => exact absurd (Or.inr (by simp [hl])) hemp
    | cons a l => simp [hl]
  have hlen1 : k1 % g1.members.length < g1.members.length := Nat.mod_lt _ hpos1
  have hlen2 : k2 % g2.members.length < g2.members.length := Nat.mod_lt _ hpos2
  simp only [try_swap, h1, h2]
  rw [if_neg hij, if_neg hemp, if_neg hstat]
  set idx1 := k1 % g1.members.length with hidx1
  set idx2 := k2 % g2.members.length with hidx2
  set m1 := g1.members.getD idx1 default with hm1
  set m2 := g2.members.getD idx2 default with hm2
  set g1a := recalc_one { g1 with members := g1.members.set idx1 m2 } with hg1a
  set g2a := recalc_one { g2 with members := g2.members.set idx2 m1 } with hg2a
  set cur' := (st.current.set i g1a).set j g2a with hcur'
  have hmix : (↑g1a.members + ↑g2a.members : Multiset Person) =
      ↑g1.members + ↑g2.members := by
    have A := coe_set_add_getD g1.members idx1 m2 default hlen1
    have B := coe_set_add_getD g2.members idx2 m1 default hlen2
    rw [← hm1] at A
    rw [← hm2] at B
    have h4 : ((↑(g1.members.set idx1 m2) : Multiset Person) +
        (↑(g2.members.set idx2 m1) : Multiset Person)) + ({m1} + {m2}) =
        ((↑g1.members : Multiset Person) + ↑g2.members) + ({m1} + {m2}) := by
      rw [show ((↑g1.members : Multiset Person) + ↑g2.members) + ({m1} + {m2}) =
        (↑g1.members + {m2}) + (↑g2.members + {m1}) by abel]
      rw [← A, ← B]; abel
    have h5 := add_right_cancel h4
    simpa [hg1a, hg2a] using h5
  have hkept : step_shape min_size max_size rs st.current cur' := by
    right
    refine ⟨i, j, g1, g2, g1a, g2a, hij, h1, h2, rfl, hmix, Or.inr (Or.inl ?_)⟩
    refine ⟨by simp [hg1a], by simp [hg2a], ?_⟩
    intro hrs
    have hs12 : is_star m1 = is_star m2 := by
      by_contra hne
      exact hstat ⟨by simp [hrs], hne⟩
    constructor
    · rw [star_count_eq_star_len, star_count_eq_star_len]
      simp only [hg1a, recalc_one_members]
      exact star_len_set_eq g1.members idx1 m2 hlen1 (by rw [← hm1, hs12])
    · rw [star_count_eq_star_len, star_count_eq_star_len]
      simp only [hg2a, recalc_one_members]
      exact star_len_set_eq g2.members idx2 m1 hlen2 (by rw [← hm2, ← hs12])
  by_cases himp : calculate_std_dev_sq cur' < st.best_sq
  · rw [if_pos himp]
    exact hkept
  rw [if_neg himp]
  by_cases hcoin : coin = true
  · rw [if_pos hcoin]
    exact hkept
  rw [if_neg hcoin]
  -- the revert branch restores both member lists exactly
  have e1 : g1a.members.set idx1 m1 = g1.members := by
    have : g1a.members = g1.members.set idx1 m2 := by simp [hg1a]
    rw [this, List.set_set, hm1, set_getD_self]
  have e2 : g2a.members.set idx2 m2 = g2.members := by
    have : g2a.members = g2.members.set idx2 m1 := by simp [hg2a]
    rw [this, List.set_set, hm2, set_getD_self]
  have hcollapse : (cur'.set i (recalc_one { g1a with members := g1a.members.set idx1 m1 })).set j
      (recalc_one { g2a with members := g2a.members.set idx2 m2 }) =
      (st.current.set i (recalc_one { g1a with members := g1a.members.set idx1 m1 })).set j
      (recalc_one { g2a with members := g2a.members.set idx2 m2 }) := by
    rw [hcur']
    apply List.ext_getElem?
    intro n
    by_cases hni : i = n <;> by_cases hnj : j = n
    · exact absurd (hni.trans hnj.symm) hij
    · simp [List.getElem?_set, hni, hnj]
    · simp [List.getElem?_set, hni, hnj]
    · simp [List.getElem?_set, hni, hnj]
  right
  refine ⟨i, j, g1, g2, recalc_one { g1a with members := g1a.members.set idx1 m1 },
    recalc_one { g2a with members := g2a.members.set idx2 m2 }, hij, h1, h2, hcollapse, ?_, Or.inl ?_⟩
  · simp only [recalc_one_members, e1, e2]
  · simp [e1, e2]

theorem coe_append_one (l : List Person) (p : Person) :
    ((l ++ [p] : List Person) : Multiset Person) = ↑l + {p} := by
  rw [← Multiset.coe_add]
  simp

theorem coe_erase_append (l : List Person) (idx : ℕ) (p : Person)
    (h : (p ::ₘ ↑(l.eraseIdx idx) : Multiset Person) = ↑l) :
    ((l.eraseIdx idx ++ [p] : List Person) : Multiset Person) = ↑l := by
  rw [coe_append_one, ← h, ← Multiset.singleton_add]
  exact add_comm _ _

theorem try_transfer_shape (min_size max_size : ℕ) (hms : max_size = min_size + 1)
    (rs : Bool) (i j k : ℕ) (coin : Bool) (st : SAState) :
    step_shape min_size max_size rs st.current
      (try_transfer min_size max_size rs i j k coin st).current := by
  rcases h1 : st.current[i]? with _ | g1
  · left; simp [try_transfer, h1]
  rcases h2 : st.current[j]? with _ | g2
  · left; simp [try_transfer, h1, h2]
  by_cases hij : i = j
  · left; simp only [try_transfer, h1, h2]; rw [if_pos hij]
  by_cases hA : g1.members.length = max_size ∧ g2.members.length = min_size
  case neg =>
    by_cases hB : g2.members.length = max_size ∧ g1.members.length = min_size
    case neg =>
      left; simp only [try_transfer, h1, h2]
      rw [if_neg hij, if_neg hA, if_neg hB]
    case pos =>
      -- src is g2 at position j, dst is g1 at position i
      have hpos : 0 < g2.members.length := by omega
      have hlen : k % g2.members.length < g2.members.length := Nat.mod_lt _ hpos
      simp only [try_transfer, h1, h2]
      rw [if_neg hij, if_neg hA, if_pos hB]
      dsimp only
      set idx := k % g2.members.length with hidx
      set item := g2.members.getD idx default with hitem
      by_cases hblock : rs ∧ is_star item ∧ 0 < star_count g1
      · left; rw [if_pos hblock]
      rw [if_neg hblock]
      set srcm := recalc_one { g2 with members := g2.members.eraseIdx idx } with hsrcm
      set dstm := recalc_one { g1 with members := g1.members ++ [item] } with hdstm
      set cur' := (st.current.set j srcm).set i dstm with hcur'
      have herase : (item ::ₘ ↑(g2.members.eraseIdx idx) : Multiset Person) = ↑g2.members := by
        rw [hitem]; exact getD_cons_eraseIdx g2.members idx default hlen
      have hlenerase : (g2.members.eraseIdx idx).length + 1 = g2.members.length := by
        have := congrArg Multiset.card herase
        simpa using this
      have hmix : (↑srcm.members + ↑dstm.members : Multiset Person) =
          ↑g2.members + ↑g1.members := by
        simp only [hsrcm, hdstm, recalc_one_members]
        rw [coe_append_one]
        calc (↑(g2.members.eraseIdx idx) : Multiset Person) + (↑g1.members + {item})
            = (item ::ₘ ↑(g2.members.eraseIdx idx)) + ↑g1.members := by
              rw [← Multiset.singleton_add]; abel
          _ = ↑g2.members + ↑g1.members := by rw [herase]
      have hstars : rs = true →
          (star_count srcm = star_count g2 ∧ star_count dstm = star_count g1) ∨
          (star_count g1 = 0 ∧ star_count g2 = star_count srcm + 1 ∧ star_count dstm = 1) := by
        intro hrs
        by_cases hstar : is_star item
        · right
          have hd0 : star_count g1 = 0 := by
            by_contra hne
            exact hblock ⟨by simp [hrs], hstar, Nat.pos_of_ne_zero hne⟩
          refine ⟨hd0, ?_, ?_⟩
          · rw [star_count_eq_star_len, star_count_eq_star_len]
            simp only [hsrcm, recalc_one_members]
            exact (star_len_eraseIdx_star g2.members idx hlen (by rw [← hitem]; exact hstar)).symm
          · rw [star_count_eq_star_len]
            simp only [hdstm, recalc_one_members]
            rw [star_len_append_star _ _ hstar]
            rw [← star_count_eq_star_len, hd0]
        · left
          constructor
          · rw [star_count_eq_star_len, star_count_eq_star_len]
            simp only [hsrcm, recalc_one_members]
            exact star_len_eraseIdx_not g2.members idx hlen
              (by rw [← hitem]; exact Bool.of_not_eq_true hstar)
          · rw [star_count_eq_star_len, star_count_eq_star_len]
            simp only [hdstm, recalc_one_members]
            exact star_len_append_not _ _ (Bool.of_not_eq_true hstar)
      have hkept : step_shape min_size max_size rs st.current cur' := by
        right
        refine ⟨j, i, g2, g1, srcm, dstm, fun h => hij h.symm, h2, h1, rfl, hmix,
          Or.inr (Or.inr ?_)⟩
        refine ⟨hB.1, hB.2, ?_, ?_, hstars⟩
        · simp only [hsrcm, recalc_one_members]; omega
        · simp only [hdstm, recalc_one_members, List.length_append]; simp
      by_cases himp : calculate_std_dev_sq cur' < st.best_sq
      · rw [if_pos himp]; exact hkept
      rw [if_neg himp]
      by_cases hcoin : coin = true
      · rw [if_pos hcoin]; exact hkept
      rw [if_neg hcoin]
      have edst : dstm.members.dropLast = g1.members := by
        simp only [hdstm, recalc_one_members]
        exact List.dropLast_concat
      have esrc : (↑(srcm.members ++ [item]) : Multiset Person) = ↑g2.members := by
        simp only [hsrcm, recalc_one_members]
        exact coe_erase_append g2.members idx item herase
      right
      refine ⟨j, i, g2, g1,
        recalc_one { srcm with members := srcm.members ++ [item] },
        recalc_one { dstm with members := dstm.members.dropLast },
        fun h => hij h.symm, h2, h1, ?_, ?_, Or.inl ?_⟩
      · rw [hcur']
        apply List.ext_getElem?
        intro n
        by_cases hni : i = n <;> by_cases hnj : j = n
        · exact absurd (hni.trans hnj.symm) hij
        · simp [List.getElem?_set, hni, hnj]
        · simp [List.getElem?_set, hni, hnj]
        · simp [List.getElem?_set, hni, hnj]
      · simp only [recalc_one_members, edst, esrc]
      · simp [edst, esrc]
  case pos =>
    -- src is g1 at position i, dst is g2 at position j
    have hpos : 0 < g1.members.length := by omega
    have hlen : k % g1.members.length < g1.members.length := Nat.mod_lt _ hpos
    simp only [try_transfer, h1, h2]
    rw [if_neg hij, if_pos hA]
    dsimp only
    set idx := k % g1.members.length with hidx
    set item := g1.members.getD idx default with hitem
    by_cases hblock : rs ∧ is_star item ∧ 0 < star_count g2
    · left; rw [if_pos hblock]
    rw [if_neg hblock]
    set srcm := recalc_one { g1 with members := g1.members.eraseIdx idx } with hsrcm
    set dstm := recalc_one { g2 with members := g2.members ++ [item] } with hdstm
    set cur' := (st.current.set i srcm).set j dstm with hcur'
    have herase : (item ::ₘ ↑(g1.members.eraseIdx idx) : Multiset Person) = ↑g1.members := by
      rw [hitem]; exact getD_cons_eraseIdx g1.members idx default hlen
    have hlenerase : (g1.members.eraseIdx idx).length + 1 = g1.members.length := by
      have := congrArg Multiset.card herase
      simpa using this
    have hmix : (↑srcm.members + ↑dstm.members : Multiset Person) =
        ↑g1.members + ↑g2.members := by
      simp only [hsrcm, hdstm, recalc_one_members]
      rw [coe_append_one]
      calc (↑(g1.members.eraseIdx idx) : Multiset Person) + (↑g2.members + {item})
          = (item ::ₘ ↑(g1.members.eraseIdx idx)) + ↑g2.members := by
            rw [← Multiset.singleton_add]; abel
        _ = ↑g1.members + ↑g2.members := by rw [herase]
    have hstars : rs = true →
        (star_count srcm = star_count g1 ∧ star_count dstm = star_count g2) ∨
        (star_count g2 = 0 ∧ star_count g1 = star_count srcm + 1 ∧ star_count dstm = 1) := by
      intro hrs
      by_cases hstar : is_star item
      · right
        have hd0 : star_count g2 = 0 := by
          by_contra hne
          exact hblock ⟨by simp [hrs], hstar, Nat.pos_of_ne_zero hne⟩
        refine ⟨hd0, ?_, ?_⟩
        · rw [star_count_eq_star_len, star_count_eq_star_len]
          simp only [hsrcm, recalc_one_members]
          exact (star_len_eraseIdx_star g1.members idx hlen (by rw [← hitem]; exact hstar)).symm
        · rw [star_count_eq_star_len]
          simp only [hdstm, recalc_one_members]
          rw [star_len_append_star _ _ hstar]
          rw [← star_count_eq_star_len, hd0]
      · left
        constructor
        · rw [star_count_eq_star_len, star_count_eq_star_len]
          simp only [hsrcm, recalc_one_members]
          exact star_len_eraseIdx_not g1.members idx hlen
            (by rw [← hitem]; exact Bool.of_not_eq_true hstar)
        · rw [star_count_eq_star_len, star_count_eq_star_len]
          simp only [hdstm, recalc_one_members]
          exact star_len_append_not _ _ (Bool.of_not_eq_true hstar)
    have hkept : step_shape min_size max_size rs st.current cur' := by
      right
      refine ⟨i, j, g1, g2, srcm, dstm, hij, h1, h2, rfl, hmix, Or.inr (Or.inr ?_)⟩
      refine ⟨hA.1, hA.2, ?_, ?_, hstars⟩
      · simp only [hsrcm, recalc_one_members]; omega
      · simp only [hdstm, recalc_one_members, List.length_append]; simp
    by_cases himp : calculate_std_dev_sq cur' < st.best_sq
    · rw [if_pos himp]; exact hkept
    rw [if_neg himp]
    by_cases hcoin : coin = true
    · rw [if_pos hcoin]; exact hkept
    rw [if_neg hcoin]
    have edst : dstm.members.dropLast = g2.members := by
      simp only [hdstm, recalc_one_members]
      exact List.dropLast_concat
    have esrc : (↑(srcm.members ++ [item]) : Multiset Person) = ↑g1.members := by
      simp only [hsrcm, recalc_one_members]
      exact coe_erase_append g1.members idx item herase
    right
    refine ⟨i, j, g1, g2,
      recalc_one { srcm with members := srcm.members ++ [item] },
      recalc_one { dstm with members := dstm.members.dropLast },
      hij, h1, h2, ?_, ?_, Or.inl ?_⟩
    · rw [hcur']
      apply List.ext_getElem?
      intro n
      by_cases hni : i = n <;> by_cases hnj : j = n
      · exact absurd (hni.trans hnj.symm) hij
      · simp [List.getElem?_set, hni, hnj]
      · simp [List.getElem?_set, hni, hnj]
      · simp [List.getElem?_set, hni, hnj]
    · simp only [recalc_one_members, edst, esrc]
    · simp [edst, esrc]

theorem best_shape_refl (st : SAState) : best_shape st st :=
  ⟨le_refl _, fun _ => rfl, Or.inl rfl⟩

theorem best_shape_same (st : SAState) (cur : List Group) (T : ℚ) :
    best_shape st { st with current := cur, T := T } :=
  ⟨le_refl _, fun _ => rfl, Or.inl rfl⟩

theorem try_swap_best (rs : Bool) (i j k1 k2 : ℕ) (coin : Bool) (st : SAState) :
    best_shape st (try_swap rs i j k1 k2 coin st) := by
  rcases h1 : st.current[i]? with _ | g1
  · simp only [try_swap, h1]; exact best_shape_refl st
  rcases h2 : st.current[j]? with _ | g2
  · simp only [try_swap, h1, h2]; exact best_shape_refl st
  simp only [try_swap, h1, h2]
  by_cases hij : i = j
  · rw [if_pos hij]; exact best_shape_refl st
  rw [if_neg hij]
  by_cases hemp : g1.members.isEmpty ∨ g2.members.isEmpty
  · rw [if_pos hemp]; exact best_shape_refl st
  rw [if_neg hemp]
  by_cases hstat : rs ∧ is_star (g1.members.getD (k1 % g1.members.length) default) ≠
      is_star (g2.members.getD (k2 % g2.members.length) default)
  · rw [if_pos hstat]; exact best_shape_refl st
  rw [if_neg hstat]
  by_cases himp : calculate_std_dev_sq
      ((st.current.set i (recalc_one { g1 with
          members := g1.members.set (k1 % g1.members.length)
            (g2.members.getD (k2 % g2.members.length) default) })).set j
        (recalc_one { g2 with
          members := g2.members.set (k2 % g2.members.length)
            (g1.members.getD (k1 % g1.members.length) default) })) < st.best_sq
  · rw [if_pos himp]
    exact ⟨le_of_lt himp, fun h => absurd h (ne_of_lt himp), Or.inr rfl⟩
  rw [if_neg himp]
  by_cases hcoin : coin = true
  · rw [if_pos hcoin]; exact best_shape_same st _ _
  rw [if_neg hcoin]
  exact best_shape_same st _ _

theorem try_transfer_best (min_size max_size : ℕ) (rs : Bool) (i j k : ℕ) (coin : Bool)
    (st : SAState) :
    best_shape st (try_transfer min_size max_size rs i j k coin st) := by
  rcases h1 : st.current[i]? with _ | g1
  · simp only [try_transfer, h1]; exact best_shape_refl st
  rcases h2 : st.current[j]? with _ | g2
  · simp only [try_transfer, h1, h2]; exact best_shape_refl st
  simp only [try_transfer, h1, h2]
  by_cases hij : i = j
  · rw [if_pos hij]; exact best_shape_refl st
  rw [if_neg hij]
  by_cases hA : g1.members.length = max_size ∧ g2.members.length = min_size
  case pos =>
    rw [if_pos hA]
    dsimp only
    by_cases hblock : rs ∧ is_star (g1.members.getD (k % g1.members.length) default) ∧
        0 < star_count g2
    · rw [if_pos hblock]; exact best_shape_same st _ _
    rw [if_neg hblock]
    by_cases himp : calculate_std_dev_sq
        ((st.current.set i (recalc_one { g1 with
            members := g1.members.eraseIdx (k % g1.members.length) })).set j
          (recalc_one { g2 with
            members := g2.members ++ [g1.members.getD (k % g1.members.length) default] })) <
        st.best_sq
    · rw [if_pos himp]
      exact ⟨le_of_lt himp, fun h => absurd h (ne_of_lt himp), Or.inr rfl⟩
    rw [if_neg himp]
    by_cases hcoin : coin = true
    · rw [if_pos hcoin]; exact best_shape_same st _ _
    rw [if_neg hcoin]
    exact best_shape_same st _ _
  case neg =>
    rw [if_neg hA]
    by_cases hB : g2.members.length = max_size ∧ g1.members.length = min_size
    case neg =>
      rw [if_neg hB]; exact best_shape_same st _ _
    case pos =>
      rw [if_pos hB]
      dsimp only
      by_cases hblock : rs ∧ is_star (g2.members.getD (k % g2.members.length) default) ∧
          0 < star_count g1
      · rw [if_pos hblock]; exact best_shape_same st _ _
      rw [if_neg hblock]
      by_cases himp : calculate_std_dev_sq
          ((st.current.set j (recalc_one { g2 with
              members := g2.members.eraseIdx (k % g2.members.length) })).set i
            (recalc_one { g1 with
              members := g1.members ++ [g2.members.getD (k % g2.members.length) default] })) <
          st.best_sq
      · rw [if_pos himp]
        exact ⟨le_of_lt himp, fun h => absurd h (ne_of_lt himp), Or.inr rfl⟩
      rw [if_neg himp]
      by_cases hcoin : coin = true
      · rw [if_pos hcoin]; exact best_shape_same st _ _
      rw [if_neg hcoin]
      exact best_shape_same st _ _

/-- Combined step lemma: one iteration's effect on `current` and on the
best-tracking fields. -/
theorem sa_step_shape (min_size max_size : ℕ) (hms : max_size = min_size + 1)
    (rs : Bool) (mv : MoveChoice) (st : SAState) :
    step_shape min_size max_size rs st.current (sa_step min_size max_size rs mv st).current ∧
      best_shape st (sa_step min_size max_size rs mv st) := by
  cases mv with
  | swap i j k1 k2 coin =>
      exact ⟨try_swap_shape min_size max_size rs i j k1 k2 coin st,
        try_swap_best rs i j k1 k2 coin st⟩
  | transfer i j k coin =>
      exact ⟨try_transfer_shape min_size max_size hms rs i j k coin st,
        try_transfer_best min_size max_size rs i j k coin st⟩

-- ### Invariant preservation across one iteration

theorem sizes_sum_eq_card (gs : List Group) :
    sizes_sum gs = Multiset.card (members_all gs) := by
  induction gs with
  | nil => rfl
  | cons g gs ih => simp [sizes_sum, members_all_cons] at ih ⊢; omega

theorem mem_len_of_getElem? {gs : List Group} {n : ℕ} {g : Group}
    (h : gs[n]? = some g) : g ∈ gs ∧ n < gs.length := by
  constructor
  · exact List.getElem?_mem h
  · by_contra hn
    rw [List.getElem?_eq_none (by omega)] at h
    exact Option.noConfusion h

theorem getD_of_getElem? {gs : List Group} {n : ℕ} {g : Group}
    (h : gs[n]? = some g) : gs.getD n default = g := by
  rw [List.getD_eq_getElem?_getD, h]
  rfl

/-- The total member multiset is conserved by every loop iteration. -/
theorem step_shape_members {min_size max_size : ℕ} {rs : Bool} {cur cur' : List Group}
    (h : step_shape min_size max_size rs cur cur') :
    members_all cur' = members_all cur := by
  rcases h with h | ⟨i, j, gi, gj, gi', gj', hij, h1, h2, heq, hmix, _⟩
  · rw [h]
  obtain ⟨hgi, hilt⟩ := mem_len_of_getElem? h1
  obtain ⟨hgj, hjlt⟩ := mem_len_of_getElem? h2
  have hjlt' : j < (cur.set i gi').length := by simpa using hjlt
  have e1 : members_all (cur.set i gi') + ↑((cur.getD i default).members) =
      members_all cur + ↑gi'.members := members_all_set cur i gi' hilt
  have e2 : members_all ((cur.set i gi').set j gj') + ↑(((cur.set i gi').getD j default).members) =
      members_all (cur.set i gi') + ↑gj'.members := members_all_set _ j gj' hjlt'
  rw [getD_of_getElem? h1] at e1
  have hgetj : (cur.set i gi').getD j default = gj := by
    rw [List.getD_eq_getElem?_getD, List.getElem?_set_ne hij, h2]
    rfl
  rw [hgetj] at e2
  rw [heq]
  have key : members_all ((cur.set i gi').set j gj') + (↑gj.members + ↑gi.members) =
      members_all cur + (↑gj.members + ↑gi.members) := by
    calc members_all ((cur.set i gi').set j gj') + (↑gj.members + ↑gi.members)
        = (members_all ((cur.set i gi').set j gj') + ↑gj.members) + ↑gi.members := by abel
      _ = (members_all (cur.set i gi') + ↑gj'.members) + ↑gi.members := by rw [e2]
      _ = (members_all (cur.set i gi') + ↑gi.members) + ↑gj'.members := by abel
      _ = (members_all cur + ↑gi'.members) + ↑gj'.members := by rw [e1]
      _ = members_all cur + (↑gi'.members + ↑gj'.members) := by abel
      _ = members_all cur + (↑gi.members + ↑gj.members) := by rw [hmix]
      _ = members_all cur + (↑gj.members + ↑gi.members) := by abel
  exact add_right_cancel key

/-- The group count is conserved by every loop iteration. -/
theorem step_shape_length {min_size max_size : ℕ} {rs : Bool} {cur cur' : List Group}
    (h : step_shape min_size max_size rs cur cur') : cur'.length = cur.length := by
  rcases h with h | ⟨i, j, gi, gj, gi', gj', hij, h1, h2, heq, _, _⟩
  · rw [h]
  rw [heq]; simp

theorem step_shape_size_profile {N G : ℕ} {rs : Bool} {cur cur' : List Group}
    (h : step_shape (N / G) (N / G + 1) rs cur cur')
    (hp : size_profile N G cur) : size_profile N G cur' := by
  obtain ⟨hlen, hsum, hbound⟩ := hp
  refine ⟨(step_shape_length h).trans hlen, ?_, ?_⟩
  · rw [sizes_sum_eq_card, step_shape_members h, ← sizes_sum_eq_card]
    exact hsum
  rcases h with h | ⟨i, j, gi, gj, gi', gj', hij, h1, h2, heq, hmix, hcase⟩
  · rw [h]; exact hbound
  obtain ⟨hgi, hilt⟩ := mem_len_of_getElem? h1
  obtain ⟨hgj, hjlt⟩ := mem_len_of_getElem? h2
  have hlen_i' : gi'.members.length = gi.members.length ∨
      (gi'.members.length = N / G ∧ gj'.members.length = N / G + 1) := by
    rcases hcase with ⟨hmi, hmj⟩ | ⟨hli, hlj, _⟩ | ⟨hgi_max, hgj_min, hci, hcj, _⟩
    · left
      have := congrArg Multiset.card hmi
      simpa using this
    · left; exact hli
    · right; omega
  intro g hg
  rw [heq] at hg
  rcases List.mem_or_eq_of_mem_set hg with hg' | rfl
  · rcases List.mem_or_eq_of_mem_set hg' with hg'' | rfl
    · exact hbound g hg''
    · -- g = gi'
      rcases hlen_i' with he | ⟨he, _⟩
      · rw [he]; exact hbound gi hgi
      · rw [he]; omega
  · -- g = gj'
    rcases hcase with ⟨hmi, hmj⟩ | ⟨hli, hlj, _⟩ | ⟨hgi_max, hgj_min, hci, hcj, _⟩
    · have := congrArg Multiset.card hmj
      simp at this
      rw [this]; exact hbound gj hgj
    · rw [hlj]; exact hbound gj hgj
    · omega

theorem step_shape_star_profile {min_size max_size : ℕ} {cur cur' : List Group}
    (h : step_shape min_size max_size true cur cur')
    (hp : star_profile cur) : star_profile cur' := by
  rcases h with h | ⟨i, j, gi, gj, gi', gj', hij, h1, h2, heq, hmix, hcase⟩
  · rw [h]; exact hp
  obtain ⟨hgi, hilt⟩ := mem_len_of_getElem? h1
  obtain ⟨hgj, hjlt⟩ := mem_len_of_getElem? h2
  have hcounts : (star_count gi' = star_count gi ∧ star_count gj' = star_count gj) ∨
      (star_count gj = 0 ∧ star_count gi = star_count gi' + 1 ∧ star_count gj' = 1) := by
    rcases hcase with ⟨hmi, hmj⟩ | ⟨_, _, hsc⟩ | ⟨_, _, _, _, hsc⟩
    · left; exact ⟨star_count_congr _ _ hmi, star_count_congr _ _ hmj⟩
    · left; exact hsc rfl
    · exact hsc rfl
  have mem_char : ∀ g ∈ cur', g ∈ cur ∨ g = gi' ∨ g = gj' := by
    intro g hg
    rw [heq] at hg
    rcases List.mem_or_eq_of_mem_set hg with hg' | rfl
    · rcases List.mem_or_eq_of_mem_set hg' with hg'' | rfl
      · exact Or.inl hg''
      · exact Or.inr (Or.inl rfl)
    · exact Or.inr (Or.inr rfl)
  rcases hcounts with ⟨hi', hj'⟩ | ⟨hj0, hisucc, hj1⟩
  · -- all counts unchanged
    intro g hg g' hg'
    have cg : star_count g = star_count g ∨ True := Or.inr trivial
    have val : ∀ x, x ∈ cur' → ∃ y ∈ cur, star_count x = star_count y := by
      intro x hx
      rcases mem_char x hx with hx' | rfl | rfl
      · exact ⟨x, hx', rfl⟩
      · exact ⟨gi, hgi, hi'⟩
      · exact ⟨gj, hgj, hj'⟩
    obtain ⟨y, hy, hyc⟩ := val g hg
    obtain ⟨y', hy', hyc'⟩ := val g' hg'
    rw [hyc, hyc']
    exact hp y hy y' hy'
  · -- a star moved into a previously star-free group: all counts are ≤ 1
    have hall : ∀ g ∈ cur, star_count g ≤ 1 := by
      intro g hg
      have := hp g hg gj hgj
      omega
    have hgi1 : star_count gi = 1 := by
      have := hall gi hgi
      omega
    have hbound' : ∀ g ∈ cur', star_count g ≤ 1 := by
      intro g hg
      rcases mem_char g hg with hg' | rfl | rfl
      · exact hall g hg'
      · omega
      · omega
    intro g hg g' hg'
    have := hbound' g hg
    omega

/-- Generic position-update accounting for a `ℕ`-valued group weight. -/
theorem fsum_set (f : Group → ℕ) :
    ∀ (gs : List Group) (k : ℕ) (g : Group), k < gs.length →
      ((gs.set k g).map f).sum + f (gs.getD k default) = (gs.map f).sum + f g
  | [], k, g, h => by simp at h
  | a :: gs, 0, g, _ => by simp [List.set]; omega
  | a :: gs, k + 1, g, h => by
      have ih := fsum_set f gs k g (by simpa using h)
      simp only [List.set, List.getD_cons_succ, List.map_cons, List.sum_cons]
      omega

theorem getD_set_self {gs : List Group} {t : ℕ} {g : Group} (h : t < gs.length) :
    (gs.set t g).getD t default = g := by
  rw [List.getD_eq_getElem?_getD, List.getElem?_set_self (by simpa using h)]
  rfl

theorem getD_set_ne {gs : List Group} {t n : ℕ} {g : Group} (h : t ≠ n) :
    (gs.set t g).getD n default = gs.getD n default := by
  rw [List.getD_eq_getElem?_getD, List.getElem?_set_ne h, ← List.getD_eq_getElem?_getD]

theorem len_at_set (gs : List Group) (t n : ℕ) (g : Group) (h : t < gs.length) :
    len_at (gs.set t g) n = if t = n then g.members.length else len_at gs n := by
  unfold len_at
  by_cases htn : t = n
  · subst htn
    rw [getD_set_self h, if_pos rfl]
  · rw [getD_set_ne htn, if_neg htn]

theorem star_at_set (gs : List Group) (t n : ℕ) (g : Group) (h : t < gs.length) :
    star_at (gs.set t g) n = if t = n then star_count g else star_at gs n := by
  unfold star_at
  by_cases htn : t = n
  · subst htn
    rw [getD_set_self h, if_pos rfl]
  · rw [getD_set_ne htn, if_neg htn]

theorem append_at_length (gs : List Group) (t : ℕ) (p : Person) :
    (append_at gs t p).length = gs.length := by
  unfold append_at
  rcases h : gs[t]? with _ | g <;> simp

theorem append_at_members_all (gs : List Group) (t : ℕ) (p : Person) (h : t < gs.length) :
    members_all (append_at gs t p) = members_all gs + {p} := by
  rcases hg : gs[t]? with _ | g
  · exact absurd hg (by simp [List.getElem?_eq_some]; omega)
  unfold append_at
  rw [hg]
  have e := members_all_set gs t { g with members := g.members ++ [p] } h
  rw [getD_of_getElem? hg] at e
  have e2 : (↑(g.members ++ [p]) : Multiset Person) = ↑g.members + {p} := coe_append_one _ _
  have key : members_all (gs.set t { g with members := g.members ++ [p] }) + ↑g.members =
      (members_all gs + {p}) + ↑g.members := by
    rw [e]
    simp only [e2]
    abel
  exact add_right_cancel key

theorem append_at_len_at (gs : List Group) (t n : ℕ) (p : Person) (h : t < gs.length) :
    len_at (append_at gs t p) n = len_at gs n + (if t = n then 1 else 0) := by
  rcases hg : gs[t]? with _ | g
  · exact absurd hg (by simp [List.getElem?_eq_some]; omega)
  unfold append_at
  rw [hg]
  rw [len_at_set _ _ _ _ h]
  by_cases htn : t = n
  · subst htn
    rw [if_pos rfl, if_pos rfl]
    unfold len_at
    rw [getD_of_getElem? hg]
    simp
  · rw [if_neg htn, if_neg htn]
    simp

theorem append_at_star_at (gs : List Group) (t n : ℕ) (p : Person) (h : t < gs.length) :
    star_at (append_at gs t p) n =
      star_at gs n + (if t = n ∧ is_star p then 1 else 0) := by
  rcases hg : gs[t]? with _ | g
  · exact absurd hg (by simp [List.getElem?_eq_some]; omega)
  unfold append_at
  rw [hg]
  rw [star_at_set _ _ _ _ h]
  by_cases htn : t = n
  · subst htn
    rw [if_pos rfl]
    have hbase : star_at gs t = star_count g := by
      unfold star_at
      rw [getD_of_getElem? hg]
    by_cases hp : is_star p
    · rw [if_pos ⟨rfl, hp⟩, hbase]
      rw [star_count_eq_star_len, star_count_eq_star_len]
      exact star_len_append_star _ _ hp
    · rw [if_neg (fun hc => hp hc.2), hbase]
      rw [star_count_eq_star_len, star_count_eq_star_len]
      rw [star_len_append_not _ _ (Bool.of_not_eq_true hp)]
      omega
  · rw [if_neg htn, if_neg (fun hc => htn hc.1)]
    simp

theorem append_at_ids (gs : List Group) (t : ℕ) (p : Person) :
    (append_at gs t p).map Group.id = gs.map Group.id := by
  unfold append_at
  rcases hg : gs[t]? with _ | g
  · rfl
  apply List.ext_getElem?
  intro n
  simp only [List.getElem?_map]
  by_cases htn : t = n
  · subst htn
    rw [List.getElem?_set_self (by rcases mem_len_of_getElem? hg with ⟨_, h⟩; simpa using h)]
    rw [hg]
    rfl
  · rw [List.getElem?_set_ne htn]

theorem append_at_sizes_sum (gs : List Group) (t : ℕ) (p : Person) (h : t < gs.length) :
    sizes_sum (append_at gs t p) = sizes_sum gs + 1 := by
  have := congrArg Multiset.card (append_at_members_all gs t p h)
  simpa [← sizes_sum_eq_card] using this

-- ### Round-robin star seeding

theorem seed_stars_length (G : ℕ) :
    ∀ (stars : List Person) (gs : List Group) (k : ℕ),
      (seed_stars G gs k stars).length = gs.length
  | [], gs, k => rfl
  | st :: rest, gs, k => by
      rw [seed_stars, seed_stars_length G rest _ (k + 1), append_at_length]

theorem seed_stars_ids (G : ℕ) :
    ∀ (stars : List Person) (gs : List Group) (k : ℕ),
      (seed_stars G gs k stars).map Group.id = gs.map Group.id
  | [], gs, k => rfl
  | st :: rest, gs, k => by
      rw [seed_stars, seed_stars_ids G rest _ (k + 1), append_at_ids]

theorem seed_stars_members_all (G : ℕ) (hG : 0 < G) :
    ∀ (stars : List Person) (gs : List Group) (k : ℕ), gs.length = G →
      members_all (seed_stars G gs k stars) = members_all gs + ↑stars
  | [], gs, k, _ => by simp [seed_stars, members_all]
  | st :: rest, gs, k, hlen => by
      rw [seed_stars]
      rw [seed_stars_members_all G hG rest _ (k + 1)
        (by rw [append_at_length]; exact hlen)]
      rw [append_at_members_all gs _ st (by rw [hlen]; exact Nat.mod_lt _ hG)]
      rw [show ((st :: rest : List Person) : Multiset Person) = {st} + ↑rest by
        rw [← Multiset.cons_coe, ← Multiset.singleton_add]]
      abel

theorem seed_stars_len_at (G : ℕ) (hG : 0 < G) :
    ∀ (stars : List Person) (gs : List Group) (k n : ℕ), gs.length = G →
      len_at (seed_stars G gs k stars) n =
        len_at gs n + (List.range stars.length).countP (fun t => (k + t) % G = n)
  | [], gs, k, n, _ => by simp [seed_stars]
  | st :: rest, gs, k, n, hlen => by
      rw [seed_stars]
      rw [seed_stars_len_at G hG rest _ (k + 1) n (by rw [append_at_length]; exact hlen)]
      rw [append_at_len_at gs _ n st (by rw [hlen]; exact Nat.mod_lt _ hG)]
      have hshift : (List.range (st :: rest).length).countP (fun t => (k + t) % G = n) =
          (if k % G = n then 1 else 0) +
            (List.range rest.length).countP (fun t => (k + 1 + t) % G = n) := by
        rw [List.length_cons, List.range_succ_eq_map, List.countP_cons, List.countP_map]
        have hc : (List.range rest.length).countP
            ((fun t => decide ((k + t) % G = n)) ∘ Nat.succ) =
            (List.range rest.length).countP (fun t => decide ((k + 1 + t) % G = n)) := by
          apply List.countP_congr
          intro t _
          have harg : k + Nat.succ t = k + 1 + t := by omega
          simp [Function.comp, harg]
        rw [hc]
        by_cases hkn : k % G = n
        · simp [hkn]
          omega
        · simp [hkn]
      rw [hshift]
      omega

theorem seed_stars_star_at (G : ℕ) (hG : 0 < G) :
    ∀ (stars : List Person) (gs : List Group) (k n : ℕ), gs.length = G →
      (∀ p ∈ stars, is_star p = true) →
      star_at (seed_stars G gs k stars) n =
        star_at gs n + (List.range stars.length).countP (fun t => (k + t) % G = n)
  | [], gs, k, n, _, _ => by simp [seed_stars]
  | st :: rest, gs, k, n, hlen, hstars => by
      rw [seed_stars]
      rw [seed_stars_star_at G hG rest _ (k + 1) n (by rw [append_at_length]; exact hlen)
        (fun p hp => hstars p (List.mem_cons_of_mem _ hp))]
      rw [append_at_star_at gs _ n st (by rw [hlen]; exact Nat.mod_lt _ hG)]
      have hst : is_star st = true := hstars st (List.mem_cons_self st rest)
      have hshift : (List.range (st :: rest).length).countP (fun t => (k + t) % G = n) =
          (if k % G = n then 1 else 0) +
            (List.range rest.length).countP (fun t => (k + 1 + t) % G = n) := by
        rw [List.length_cons, List.range_succ_eq_map, List.countP_cons, List.countP_map]
        have hc : (List.range rest.length).countP
            ((fun t => decide ((k + t) % G = n)) ∘ Nat.succ) =
            (List.range rest.length).countP (fun t => decide ((k + 1 + t) % G = n)) := by
          apply List.countP_congr
          intro t _
          have harg : k + Nat.succ t = k + 1 + t := by omega
          simp [Function.comp, harg]
        rw [hc]
        by_cases hkn : k % G = n
        · simp [hkn]
          omega
        · simp [hkn]
      rw [hshift]
      have : (if k % G = n ∧ is_star st = true then 1 else 0) =
          (if k % G = n then 1 else 0) := by
        by_cases hkn : k % G = n
        · rw [if_pos ⟨hkn, hst⟩, if_pos hkn]
        · rw [if_neg (fun hc => hkn hc.1), if_neg hkn]
      rw [this]
      omega

/-- Round-robin counting: among `0, …, s-1`, exactly `s / G + 1` values fall
in residue class `n` when `n < s % G`, else `s / G` (for `n < G`). -/
theorem countP_mod_range (G : ℕ) (hG : 0 < G) :
    ∀ (s n : ℕ), n < G →
      (List.range s).countP (fun t => t % G = n) = s / G + (if n < s % G then 1 else 0)
  | 0, n, _ => by simp
  | s + 1, n, hn => by
      have ih := countP_mod_range G hG s n hn
      rw [List.range_succ, List.countP_append, ih]
      have hdm : G * (s / G) + s % G = s := Nat.div_add_mod s G
      have hb : s % G < G := Nat.mod_lt _ hG
      by_cases hbG : s % G + 1 = G
      · have hmul : G * (s / G + 1) = G * (s / G) + G := by ring
        have hs1 : s + 1 = G * (s / G + 1) := by omega
        have h1 : (s + 1) / G = s / G + 1 := by
          rw [hs1, Nat.mul_div_cancel_left _ hG]
        have h2 : (s + 1) % G = 0 := by
          rw [hs1]
          exact Nat.mul_mod_right G _
        rw [h1, h2]
        simp only [List.countP_cons, List.countP_nil]
        by_cases hbn : s % G = n
        · have e1 : (if decide (s % G = n) = true then (1:ℕ) else 0) = 1 := by simp [hbn]
          have e2 : (if n < s % G then (1:ℕ) else 0) = 0 := by rw [if_neg]; omega
          have e3 : (if n < 0 then (1:ℕ) else 0) = 0 := by simp
          omega
        · have e1 : (if decide (s % G = n) = true then (1:ℕ) else 0) = 0 := by simp [hbn]
          have e2 : (if n < s % G then (1:ℕ) else 0) = 1 := by rw [if_pos]; omega
          have e3 : (if n < 0 then (1:ℕ) else 0) = 0 := by simp
          omega
      · have hb1 : s % G + 1 < G := by omega
        have hs1 : s + 1 = (s % G + 1) + G * (s / G) := by omega
        have h1 : (s + 1) / G = s / G := by
          rw [hs1, Nat.add_mul_div_left _ _ hG, Nat.div_eq_of_lt hb1]
          omega
        have h2 : (s + 1) % G = s % G + 1 := by
          rw [hs1, Nat.add_mul_mod_self_left, Nat.mod_eq_of_lt hb1]
        rw [h1, h2]
        simp only [List.countP_cons, List.countP_nil]
        by_cases hbn : s % G = n
        · have e1 : (if decide (s % G = n) = true then (1:ℕ) else 0) = 1 := by simp [hbn]
          have e2 : (if n < s % G then (1:ℕ) else 0) = 0 := by rw [if_neg]; omega
          have e3 : (if n < s % G + 1 then (1:ℕ) else 0) = 1 := by rw [if_pos]; omega
          omega
        · have e1 : (if decide (s % G = n) = true then (1:ℕ) else 0) = 0 := by simp [hbn]
          have e23 : (if n < s % G then (1:ℕ) else 0) = (if n < s % G + 1 then 1 else 0) := by
            by_cases hnb : n < s % G
            · rw [if_pos hnb, if_pos (by omega)]
            · rw [if_neg hnb, if_neg (by omega)]
          omega

theorem needed_for_eq :
    ∀ (gs : List Group) (t : ℕ) (g : Group) (ms : ℕ),
      (gs.map Group.id).Nodup → gs[t]? = some g →
      needed_for gs g.id ms + (ms - g.members.length) = Dsum ms gs
  | [], t, g, ms, _, ht => by simp at ht
  | a :: gs, 0, g, ms, hnd, ht => by
      have hag : a = g := by simpa using ht
      subst hag
      have hne : ∀ x ∈ gs, x.id ≠ a.id := by
        intro x hx
        simp only [List.map_cons, List.nodup_cons] at hnd
        intro hxa
        exact hnd.1 (hxa ▸ List.mem_map_of_mem Group.id hx)
      unfold needed_for Dsum
      rw [List.filter_cons_of_neg (by simp)]
      rw [List.filter_eq_self.mpr (by intro x hx; simpa using hne x hx)]
      simp [Dsum]
      omega
  | a :: gs, t + 1, g, ms, hnd, ht => by
      have ht' : gs[t]? = some g := by simpa using ht
      have hmem : g ∈ gs := List.getElem?_mem ht'
      have hnd' : (gs.map Group.id).Nodup := by
        simp only [List.map_cons, List.nodup_cons] at hnd
        exact hnd.2
      have hane : a.id ≠ g.id := by
        simp only [List.map_cons, List.nodup_cons] at hnd
        intro hag
        exact hnd.1 (hag ▸ List.mem_map_of_mem Group.id hmem)
      have ih := needed_for_eq gs t g ms hnd' ht'
      unfold needed_for Dsum at ih ⊢
      rw [List.filter_cons_of_pos (by simpa using hane)]
      simp only [List.map_cons, List.sum_cons]
      omega

theorem sum_map_ge (c : ℕ) :
    ∀ (gs : List Group) (f : Group → ℕ), (∀ g ∈ gs, c ≤ f g) →
      gs.length * c ≤ (gs.map f).sum
  | [], f, _ => by simp
  | a :: gs, f, h => by
      have ih := sum_map_ge c gs f (fun g hg => h g (List.mem_cons_of_mem _ hg))
      have ha := h a (List.mem_cons_self a gs)
      simp only [List.map_cons, List.sum_cons, List.length_cons]
      calc (gs.length + 1) * c = c + gs.length * c := by ring
        _ ≤ f a + (gs.map f).sum := by omega

theorem Dsum_pos_exists {ms : ℕ} {gs : List Group} (h : Dsum ms gs ≠ 0) :
    ∃ g ∈ gs, g.members.length < ms := by
  by_contra h'
  push_neg at h'
  apply h
  unfold Dsum
  apply List.sum_eq_zero
  intro x hx
  obtain ⟨g, hg, rfl⟩ := List.mem_map.mp hx
  have := h' g hg
  omega

theorem is_safe_at_true {gs : List Group} {t pool ms mx : ℕ} {g : Group}
    (hg : gs[t]? = some g) (hlen : g.members.length < mx)
    (hneed : (pool : ℤ) - 1 ≥ (needed_for gs g.id ms : ℤ)) :
    is_safe_at gs t pool ms mx = true := by
  unfold is_safe_at
  rw [hg]
  dsimp only
  unfold is_safe
  rw [if_neg (by omega)]
  simpa using hneed

theorem is_safe_at_spec {gs : List Group} {t pool ms mx : ℕ}
    (h : is_safe_at gs t pool ms mx = true) :
    ∃ g, gs[t]? = some g ∧ g.members.length < mx ∧
      (pool : ℤ) - 1 ≥ (needed_for gs g.id ms : ℤ) := by
  unfold is_safe_at at h
  rcases hg : gs[t]? with _ | g
  · rw [hg] at h; exact absurd h (by simp)
  rw [hg] at h
  dsimp only at h
  unfold is_safe at h
  by_cases hlen : mx ≤ g.members.length
  · rw [if_pos hlen] at h; exact absurd h (by simp)
  · rw [if_neg hlen] at h
    exact ⟨g, rfl, by omega, by simpa using h⟩

/-- Master specification of the normals-placement loop: under the generator's
invariants the loop never hits the fallback, never fails, fills every group to
at least `min_size` and at most `max_size = min_size + 1`, places every
participant, and (when every placed person is unadvantaged) leaves all star
counts untouched. -/
theorem place_normals_spec (G N ms : ℕ) (hG : 0 < G) (hNle : N ≤ G * (ms + 1))
    (choice : ℕ → ℕ) :
    ∀ (ns : List Person) (gs : List Group) (pool k : ℕ),
      gs.length = G →
      (gs.map Group.id).Nodup →
      pool = ns.length →
      sizes_sum gs + pool = N →
      (∀ g ∈ gs, g.members.length ≤ ms + 1) →
      Dsum ms gs ≤ pool →
      ∃ gs', place_normals ms (ms + 1) choice gs pool k ns = some gs' ∧
        members_all gs' = members_all gs + ↑ns ∧
        gs'.length = G ∧
        gs'.map Group.id = gs.map Group.id ∧
        (∀ g ∈ gs', g.members.length ≤ ms + 1) ∧
        Dsum ms gs' = 0 ∧
        sizes_sum gs' = N ∧
        ((∀ p ∈ ns, is_star p = false) → ∀ n, star_at gs' n = star_at gs n)
  | [], gs, pool, k, hlen, hnd, hpool, hsum, hub, hD => by
      refine ⟨gs, rfl, by simp [members_all], hlen, rfl, hub, ?_, ?_, fun _ _ => rfl⟩
      · simp at hpool
        omega
      · simp at hpool
        omega
  | n :: rest, gs, pool, k, hlen, hnd, hpool, hsum, hub, hD => by
      have hpool1 : pool = rest.length + 1 := by simpa using hpool
      -- the filtered candidate list is never empty
      have hvne : ∃ t, t ∈ (List.range gs.length).filter
          (fun t => is_safe_at gs t pool ms (ms + 1)) := by
        by_cases hDz : Dsum ms gs = 0
        · -- no deficit: some group is still below max_size
          have hex : ∃ g ∈ gs, g.members.length ≤ ms := by
            by_contra h'
            push_neg at h'
            have hge : ∀ g ∈ gs, ms + 1 ≤ g.members.length := fun g hg => h' g hg
            have hlb := sum_map_ge (ms + 1) gs (fun g => g.members.length) hge
            rw [hlen] at hlb
            have hsum2 := hsum
            unfold sizes_sum at hsum2
            omega
          obtain ⟨g, hgmem, hgle⟩ := hex
          obtain ⟨t, ht⟩ := List.mem_iff_getElem?.mp hgmem
          have htlt : t < gs.length := (mem_len_of_getElem? ht).2
          refine ⟨t, List.mem_filter.mpr ⟨List.mem_range.mpr htlt, ?_⟩⟩
          apply is_safe_at_true ht (by omega)
          have hneed := needed_for_eq gs t g ms hnd ht
          have : needed_for gs g.id ms ≤ Dsum ms gs := by omega
          omega
        · -- positive deficit: any deficient group is safe
          obtain ⟨g, hgmem, hglt⟩ := Dsum_pos_exists hDz
          obtain ⟨t, ht⟩ := List.mem_iff_getElem?.mp hgmem
          have htlt : t < gs.length := (mem_len_of_getElem? ht).2
          refine ⟨t, List.mem_filter.mpr ⟨List.mem_range.mpr htlt, ?_⟩⟩
          apply is_safe_at_true ht (by omega)
          have hneed := needed_for_eq gs t g ms hnd ht
          omega
      obtain ⟨t0, ht0⟩ := hvne
      set validIdx := (List.range gs.length).filter
        (fun t => is_safe_at gs t pool ms (ms + 1)) with hvalid
      have hvpos : 0 < validIdx.length :=
        List.length_pos.mpr (fun h => by rw [h] at ht0; exact absurd ht0 (List.not_mem_nil _))
      have hmodlt : choice k % validIdx.length < validIdx.length := Nat.mod_lt _ hvpos
      have hlook : validIdx[choice k % validIdx.length]? =
          some (validIdx[choice k % validIdx.length]) :=
        List.getElem?_eq_getElem hmodlt
      set t' := validIdx[choice k % validIdx.length] with ht'
      have ht'mem : t' ∈ validIdx := List.getElem_mem hmodlt
      have ht'filter := List.mem_filter.mp ht'mem
      have ht'lt : t' < gs.length := List.mem_range.mp ht'filter.1
      obtain ⟨g', hg', hg'len, hg'need⟩ := is_safe_at_spec ht'filter.2
      have hg'le : g'.members.length ≤ ms := by omega
      -- the applied update is `append_at`
      have happ : gs.set t' { g' with members := g'.members ++ [n] } = append_at gs t' n := by
        unfold append_at
        rw [hg']
      -- re-establish the invariants for the recursive call
      have hlen1 : (append_at gs t' n).length = G := by rw [append_at_length]; exact hlen
      have hnd1 : ((append_at gs t' n).map Group.id).Nodup := by
        rw [append_at_ids]; exact hnd
      have hsum1 : sizes_sum (append_at gs t' n) + (pool - 1) = N := by
        rw [append_at_sizes_sum gs t' n ht'lt]
        omega
      have hub1 : ∀ g ∈ append_at gs t' n, g.members.length ≤ ms + 1 := by
        intro g hg
        rw [← happ] at hg
        rcases List.mem_or_eq_of_mem_set hg with hgs | rfl
        · exact hub g hgs
        · simp only [List.length_append, List.length_cons, List.length_nil]
          omega
      have hD1 : Dsum ms (append_at gs t' n) ≤ pool - 1 := by
        have hfs := fsum_set (fun g => ms - g.members.length) gs t'
          { g' with members := g'.members ++ [n] } ht'lt
        rw [getD_of_getElem? hg'] at hfs
        rw [happ] at hfs
        have hneed := needed_for_eq gs t' g' ms hnd hg'
        dsimp only at hfs
        have hlapp : (g'.members ++ [n]).length = g'.members.length + 1 := by simp
        rw [hlapp] at hfs
        unfold Dsum at hneed hD ⊢
        omega
      obtain ⟨gs', hrec, hmem', hlen', hids', hub', hD', hsum', hstar'⟩ :=
        place_normals_spec G N ms hG hNle choice rest (append_at gs t' n) (pool - 1) (k + 1)
          hlen1 hnd1 (by omega) hsum1 hub1 hD1
      refine ⟨gs', ?_, ?_, hlen', ?_, hub', hD', hsum', ?_⟩
      · -- the loop takes exactly this step
        rw [place_normals]
        simp only [← hvalid]
        rw [if_neg (by simpa using List.length_pos.mp hvpos)]
        rw [hlook]
        dsimp only
        rw [hg']
        dsimp only
        rw [happ]
        exact hrec
      · rw [hmem', append_at_members_all gs t' n ht'lt]
        rw [show ((n :: rest : List Person) : Multiset Person) = {n} + ↑rest by
          rw [← Multiset.cons_coe, ← Multiset.singleton_add]]
        abel
      · rw [hids', append_at_ids]
      · intro hns m
        have hn0 : is_star n = false := hns n (List.mem_cons_self n rest)
        have h1 := hstar' (fun p hp => hns p (List.mem_cons_of_mem _ hp)) m
        rw [h1, append_at_star_at gs t' m n ht'lt]
        rw [if_neg (fun hc => by rw [hn0] at hc; exact absurd hc.2 (by simp))]
        omega

-- ### Assembled generator specification

theorem members_all_recalc (gs : List Group) :
    members_all (recalculate_sums gs) = members_all gs := by
  induction gs with
  | nil => rfl
  | cons g gs ih =>
      simp only [recalculate_sums, List.map_cons, members_all_cons] at ih ⊢
      rw [ih]
      rfl

theorem length_recalc (gs : List Group) :
    (recalculate_sums gs).length = gs.length := by
  simp [recalculate_sums]

theorem star_at_recalc (gs : List Group) (n : ℕ) :
    star_at (recalculate_sums gs) n = star_at gs n := by
  unfold star_at recalculate_sums
  rw [List.getD_eq_getElem?_getD, List.getD_eq_getElem?_getD, List.getElem?_map]
  rcases h : gs[n]? with _ | g <;> rfl

theorem mem_recalc {gs : List Group} {g : Group} (h : g ∈ recalculate_sums gs) :
    ∃ g₀ ∈ gs, g.members = g₀.members := by
  obtain ⟨g₀, hg₀, rfl⟩ := List.mem_map.mp h
  exact ⟨g₀, hg₀, rfl⟩

theorem mem_pos_of_mem {gs : List Group} {g : Group} (h : g ∈ gs) :
    ∃ t, t < gs.length ∧ gs[t]? = some g := by
  obtain ⟨t, ht⟩ := List.mem_iff_getElem?.mp h
  exact ⟨t, (mem_len_of_getElem? ht).2, ht⟩

theorem star_count_eq_star_at {gs : List Group} {g : Group} {t : ℕ}
    (h : gs[t]? = some g) : star_count g = star_at gs t := by
  unfold star_at
  rw [getD_of_getElem? h]

theorem len_eq_len_at {gs : List Group} {g : Group} {t : ℕ}
    (h : gs[t]? = some g) : g.members.length = len_at gs t := by
  unfold len_at
  rw [getD_of_getElem? h]

theorem init_groups_length (G : ℕ) : (init_groups G).length = G := by
  simp [init_groups]

theorem init_groups_ids (G : ℕ) : (init_groups G).map Group.id =
    (List.range G).map (fun i => i + 1) := by
  simp [init_groups]

theorem init_groups_ids_nodup (G : ℕ) : ((init_groups G).map Group.id).Nodup := by
  rw [init_groups_ids]
  exact (List.nodup_range G).map (fun a b => by omega)

theorem init_groups_members (G : ℕ) : members_all (init_groups G) = 0 := by
  induction G with
  | zero => rfl
  | succ n ih =>
      unfold init_groups at ih ⊢
      rw [List.range_succ, List.map_append, members_all]
      rw [List.map_append, List.sum_append]
      unfold members_all at ih
      rw [ih]
      simp

theorem len_at_init (G n : ℕ) : len_at (init_groups G) n = 0 := by
  unfold len_at
  rw [List.getD_eq_getElem?_getD]
  rcases h : (init_groups G)[n]? with _ | g
  · rfl
  · have := List.getElem?_mem h
    unfold init_groups at this
    obtain ⟨i, _, rfl⟩ := List.mem_map.mp this
    rfl

theorem star_at_init (G n : ℕ) : star_at (init_groups G) n = 0 := by
  unfold star_at
  rw [List.getD_eq_getElem?_getD]
  rcases h : (init_groups G)[n]? with _ | g
  · rfl
  · have := List.getElem?_mem h
    unfold init_groups at this
    obtain ⟨i, _, rfl⟩ := List.mem_map.mp this
    rfl

theorem sizes_sum_init (G : ℕ) : sizes_sum (init_groups G) = 0 := by
  rw [sizes_sum_eq_card, init_groups_members]
  rfl

/-- The two halves of `star_split` together are a permutation of the input. -/
theorem star_split_perm (P : List Person) (rs : Bool) :
    ((star_split P rs).1 ++ (star_split P rs).2).Perm P := by
  cases rs with
  | false =>
      unfold star_split
      simp only [Bool.false_eq_true, if_false, List.nil_append]
      rw [List.filter_eq_self.mpr (fun x _ => by simp)]
  | true =>
      unfold star_split
      simp only [if_true]
      have hcong : P.filter (fun p => decide (p ∉ P.filter (fun q => is_star q))) =
          P.filter (fun x => !is_star x) := by
        apply List.filter_congr
        intro x hx
        by_cases hst : is_star x
        · simp [List.mem_filter, hx, hst]
        · simp [List.mem_filter, hst]
      rw [hcong]
      exact List.filter_append_perm _ P

theorem star_split_star_all (P : List Person) {p : Person}
    (h : p ∈ (star_split P true).1) : is_star p = true := by
  unfold star_split at h
  simp only [if_true] at h
  exact (List.mem_filter.mp h).2

theorem star_split_normal_none (P : List Person) {p : Person}
    (h : p ∈ (star_split P true).2) : is_star p = false := by
  unfold star_split at h
  simp only [if_true] at h
  have hnotin := (List.mem_filter.mp h).2
  have hmem := (List.mem_filter.mp h).1
  rcases Bool.eq_false_or_eq_true (is_star p) with h' | h'
  · exfalso
    have : p ∈ P.filter (fun q => is_star q) := List.mem_filter.mpr ⟨hmem, h'⟩
    simp_all
  · exact h' 

theorem star_split_false_fst (P : List Person) : (star_split P false).1 = [] := rfl

theorem star_split_false_snd (P : List Person) : (star_split P false).2 = P := by
  unfold star_split
  simp only [Bool.false_eq_true, if_false]
  exact List.filter_eq_self.mpr (fun x _ => by simp)

/-- Sum over positions instead of elements. -/
theorem sum_map_positions (f : Group → ℕ) :
    ∀ (gs : List Group), (gs.map f).sum =
      ((List.range gs.length).map (fun t => f (gs.getD t default))).sum
  | [] => rfl
  | g :: gs => by
      have ih := sum_map_positions f gs
      simp only [List.map_cons, List.sum_cons, List.length_cons, List.range_succ_eq_map,
        List.map_map, List.getD_cons_zero]
      have hmap : (List.range gs.length).map ((fun t => f ((g :: gs).getD t default)) ∘ Nat.succ) =
          (List.range gs.length).map (fun t => f (gs.getD t default)) := by
        apply List.map_congr_left
        intro t _
        simp [Function.comp]
      rw [hmap, ← ih]

theorem sum_range_const (x : ℕ) :
    ∀ (n : ℕ), ((List.range n).map (fun _ => x)).sum = n * x
  | 0 => by simp
  | n + 1 => by
      rw [List.range_succ, List.map_append, List.sum_append, sum_range_const x n]
      simp only [List.map_cons, List.map_nil, List.sum_cons, List.sum_nil]
      ring

theorem sum_range_ite (x y : ℕ) :
    ∀ (G b : ℕ), b ≤ G →
      ((List.range G).map (fun n => if n < b then x else y)).sum = b * x + (G - b) * y
  | 0, b, h => by
      simp only [Nat.le_zero] at h
      subst h
      simp
  | G + 1, b, h => by
      by_cases hbG : b ≤ G
      · have ih := sum_range_ite x y G b hbG
        rw [List.range_succ, List.map_append, List.sum_append, ih]
        have hGb : ¬ G < b := by omega
        rw [show G + 1 - b = (G - b) + 1 by omega]
        simp only [List.map_cons, List.map_nil, List.sum_cons, List.sum_nil, if_neg hGb]
        have h2 : (G - b + 1) * y = (G - b) * y + y := by ring
        omega
      · have hb : b = G + 1 := by omega
        subst hb
        have hall : ((List.range (G + 1)).map (fun n => if n < G + 1 then x else y)).sum =
            ((List.range (G + 1)).map (fun _ => x)).sum := by
          congr 1
          apply List.map_congr_left
          intro n hn
          exact if_pos (List.mem_range.mp hn)
        rw [hall, sum_range_const]
        rw [show G + 1 - (G + 1) = 0 by omega]
        simp

theorem Dsum_positions (ms : ℕ) (gs : List Group) :
    Dsum ms gs = ((List.range gs.length).map (fun t => ms - len_at gs t)).sum :=
  sum_map_positions _ gs

theorem Dsum_zero_le {ms : ℕ} {gs : List Group} (h : Dsum ms gs = 0) :
    ∀ g ∈ gs, ms ≤ g.members.length := by
  intro g hg
  by_contra hlt
  have hmem : ms - g.members.length ∈ gs.map (fun g => ms - g.members.length) :=
    List.mem_map_of_mem _ hg
  have := List.single_le_sum (fun x _ => Nat.zero_le x) _ hmem
  unfold Dsum at h
  omega

theorem sum_map_add_ite (q : ℕ) (p : Group → Prop) [DecidablePred p] :
    ∀ (gs : List Group),
      (gs.map (fun g => q + (if p g then 1 else 0))).sum =
        q * gs.length + gs.countP (fun g => decide (p g))
  | [] => by simp
  | a :: gs => by
      have ih := sum_map_add_ite q p gs
      simp only [List.map_cons, List.sum_cons, List.length_cons, List.countP_cons]
      by_cases hp : p a
      · have e1 : (if p a then (1:ℕ) else 0) = 1 := if_pos hp
        have e2 : (if decide (p a) = true then (1:ℕ) else 0) = 1 := by simp [hp]
        have e3 : q * (gs.length + 1) = q * gs.length + q := by ring
        omega
      · have e1 : (if p a then (1:ℕ) else 0) = 0 := if_neg hp
        have e2 : (if decide (p a) = true then (1:ℕ) else 0) = 0 := by simp [hp]
        have e3 : q * (gs.length + 1) = q * gs.length + q := by ring
        omega

/-- From the size profile, the exact size counts: `N % G` groups of size
`N / G + 1` and `G - N % G` groups of size `N / G`. -/
theorem counts_of_profile {N G : ℕ} (hG : 0 < G) {gs : List Group}
    (hlen : gs.length = G) (hsum : sizes_sum gs = N)
    (hbound : ∀ g ∈ gs, N / G ≤ g.members.length ∧ g.members.length ≤ N / G + 1) :
    gs.countP (fun g => g.members.length = N / G + 1) = N % G ∧
      gs.countP (fun g => g.members.length = N / G) = G - N % G := by
  have hpoint : ∀ g ∈ gs, g.members.length =
      N / G + (if g.members.length = N / G + 1 then 1 else 0) := by
    intro g hg
    have := hbound g hg
    by_cases hq : g.members.length = N / G + 1
    · rw [if_pos hq]; omega
    · rw [if_neg hq]; omega
  have hs2 : sizes_sum gs =
      (gs.map (fun g => N / G + (if g.members.length = N / G + 1 then 1 else 0))).sum := by
    unfold sizes_sum
    congr 1
    exact List.map_congr_left hpoint
  rw [sum_map_add_ite, hlen] at hs2
  have hdm : G * (N / G) + N % G = N := Nat.div_add_mod N G
  have hmul : N / G * G = G * (N / G) := by ring
  have hk : gs.countP (fun g => g.members.length = N / G + 1) = N % G := by omega
  refine ⟨hk, ?_⟩
  have hcompl2 : gs.length = gs.countP (fun g => decide (g.members.length = N / G + 1)) +
      gs.countP (fun g => decide (g.members.length = N / G)) := by
    rw [List.length_eq_countP_add_countP (fun g => decide (g.members.length = N / G + 1))]
    congr 1
    apply List.countP_congr
    intro g hg
    have hb := hbound g hg
    by_cases hq : g.members.length = N / G + 1 <;> simp [hq] <;> omega
  have hmod : N % G < G := Nat.mod_lt _ hG
  omega

theorem generate_unfold_false (P : List Person) (G : ℕ) (hG : G ≠ 0)
    (stars normals : List Person) (choice : ℕ → ℕ) :
    generate_random_state P G false stars normals choice =
      (place_normals (P.length / G) (P.length / G + 1) choice (init_groups G)
        (stars.length + normals.length) 0 normals).map recalculate_sums := by
  unfold generate_random_state
  rw [if_neg hG]
  rfl

theorem generate_unfold_true (P : List Person) (G : ℕ) (hG : G ≠ 0)
    (stars normals : List Person) (choice : ℕ → ℕ) :
    generate_random_state P G true stars normals choice =
      (place_normals (P.length / G) (P.length / G + 1) choice
        (seed_stars G (init_groups G) 0 stars)
        (stars.length + normals.length - stars.length) 0 normals).map recalculate_sums := by
  unfold generate_random_state
  rw [if_neg hG]
  rfl

/-- Full specification of `generate_random_state` for `G ≥ 1` and genuinely
shuffled inputs: it succeeds, the result is an exact partition of the
participants into `G` groups whose sizes differ by at most one (sizes all in
`{N/G, N/G+1}` summing to `N`), and in the constrained variant the advantaged
members are spread with pairwise difference at most one. -/
theorem generate_spec (P : List Person) (G : ℕ) (hG : 0 < G) (rs : Bool)
    (stars normals : List Person) (choice : ℕ → ℕ)
    (hs : stars.Perm (star_split P rs).1) (hn : normals.Perm (star_split P rs).2) :
    ∃ gs, generate_random_state P G rs stars normals choice = some gs ∧
      members_all gs = ↑P ∧
      gs.length = G ∧
      (∀ g ∈ gs, P.length / G ≤ g.members.length ∧
        g.members.length ≤ P.length / G + 1) ∧
      sizes_sum gs = P.length ∧
      (rs = true → star_profile gs) := by
  have hperm : (stars ++ normals).Perm P := ((hs.append hn).trans (star_split_perm P rs))
  have hlens : stars.length + normals.length = P.length := by
    have := hperm.length_eq
    simpa using this
  set N := P.length with hN
  set ms := N / G with hms
  have hdm : G * ms + N % G = N := Nat.div_add_mod N G
  have hmodG : N % G < G := Nat.mod_lt _ hG
  have hmulsucc : G * (ms + 1) = G * ms + G := by ring
  have hNle : N ≤ G * (ms + 1) := by omega
  have hGms : G * ms ≤ N := by omega
  have hcoe : (↑stars + ↑normals : Multiset Person) = ↑P := by
    rw [Multiset.coe_add]
    exact Multiset.coe_eq_coe.mpr hperm
  cases rs with
  | false =>
      have hsnil : stars = [] := by
        rw [star_split_false_fst] at hs
        exact hs.eq_nil
      subst hsnil
      have hDsum : Dsum ms (init_groups G) ≤ normals.length := by
        have : Dsum ms (init_groups G) = G * ms := by
          rw [Dsum_positions, init_groups_length]
          have hpt : ∀ t ∈ List.range G, ms - len_at (init_groups G) t = ms := by
            intro t _
            rw [len_at_init]
            exact Nat.sub_zero ms
          rw [List.map_congr_left hpt, sum_range_const, Nat.mul_comm]
        simp only [List.length_nil, Nat.zero_add] at hlens
        omega
      obtain ⟨gs', hrec, hmem', hlen', _, hub', hD', hsum', _⟩ :=
        place_normals_spec G N ms hG hNle choice normals (init_groups G) normals.length 0
          (init_groups_length G) (init_groups_ids_nodup G) rfl
          (by rw [sizes_sum_init]; simpa using hlens)
          (by
            intro g hg
            unfold init_groups at hg
            obtain ⟨i, _, rfl⟩ := List.mem_map.mp hg
            simp)
          hDsum
      refine ⟨recalculate_sums gs', ?_, ?_, ?_, ?_, ?_, by simp⟩
      · rw [generate_unfold_false P G (by omega) [] normals choice]
        rw [show ([] : List Person).length + normals.length = normals.length by simp]
        rw [← hN, ← hms, hrec]
        rfl
      · rw [members_all_recalc, hmem', init_groups_members]
        simpa using hcoe
      · rw [length_recalc, hlen']
      · intro g hg
        obtain ⟨g₀, hg₀, hmemeq⟩ := mem_recalc hg
        rw [hmemeq]
        exact ⟨Dsum_zero_le hD' g₀ hg₀, hub' g₀ hg₀⟩
      · rw [sizes_sum_eq_card, members_all_recalc, ← sizes_sum_eq_card, hsum']
  | true =>
      set s := stars.length with hslen
      have hstars_all : ∀ p ∈ stars, is_star p = true := by
        intro p hp
        exact star_split_star_all P ((hs.mem_iff).mp hp)
      have hnorm_none : ∀ p ∈ normals, is_star p = false := by
        intro p hp
        exact star_split_normal_none P ((hn.mem_iff).mp hp)
      set gs1 := seed_stars G (init_groups G) 0 stars with hgs1
      have hA : gs1.length = G := by
        rw [hgs1, seed_stars_length, init_groups_length]
      have hB : (gs1.map Group.id).Nodup := by
        rw [hgs1, seed_stars_ids]
        exact init_groups_ids_nodup G
      have hC : members_all gs1 = ↑stars := by
        rw [hgs1, seed_stars_members_all G hG stars _ 0 (init_groups_length G),
          init_groups_members]
        simp
      have hD : sizes_sum gs1 = s := by
        rw [sizes_sum_eq_card, hC]
        simp [hslen]
      have hsN : s ≤ N := by omega
      have hams : s / G ≤ ms := Nat.div_le_div_right hsN
      have hlen_at : ∀ n, len_at gs1 n =
          (List.range s).countP (fun t => t % G = n) := by
        intro n
        rw [hgs1, seed_stars_len_at G hG stars _ 0 n (init_groups_length G), len_at_init]
        rw [Nat.zero_add]
        apply List.countP_congr
        intro t _
        have : 0 + t = t := by omega
        simp [this]
      have hstar_at : ∀ n, star_at gs1 n =
          (List.range s).countP (fun t => t % G = n) := by
        intro n
        rw [hgs1, seed_stars_star_at G hG stars _ 0 n (init_groups_length G) hstars_all,
          star_at_init]
        rw [Nat.zero_add]
        apply List.countP_congr
        intro t _
        have : 0 + t = t := by omega
        simp [this]
      have hc_formula : ∀ n < G, len_at gs1 n = s / G + (if n < s % G then 1 else 0) := by
        intro n hn
        rw [hlen_at n]
        exact countP_mod_range G hG s n hn
      have hcstar_formula : ∀ n < G, star_at gs1 n =
          s / G + (if n < s % G then 1 else 0) := by
        intro n hn
        rw [hstar_at n]
        exact countP_mod_range G hG s n hn
      have hE : ∀ g ∈ gs1, g.members.length ≤ ms + 1 := by
        intro g hg
        obtain ⟨t, htlt, ht⟩ := mem_pos_of_mem hg
        rw [len_eq_len_at ht, hc_formula t (by omega)]
        have : (if t < s % G then (1:ℕ) else 0) ≤ 1 := by split <;> omega
        omega
      have hF : Dsum ms gs1 ≤ normals.length := by
        have hb : s % G ≤ G := by
          have := Nat.mod_lt s hG
          omega
        have hsdm : G * (s / G) + s % G = s := Nat.div_add_mod s G
        have hval : Dsum ms gs1 =
            (s % G) * (ms - (s / G + 1)) + (G - s % G) * (ms - s / G) := by
          rw [Dsum_positions, hA]
          have hpt : ∀ t ∈ List.range G, ms - len_at gs1 t =
              (if t < s % G then ms - (s / G + 1) else ms - s / G) := by
            intro t htr
            rw [hc_formula t (List.mem_range.mp htr)]
            by_cases hts : t < s % G
            · rw [if_pos hts, if_pos hts]
            · rw [if_neg hts, if_neg hts]
              omega
          rw [List.map_congr_left hpt]
          exact sum_range_ite _ _ G (s % G) hb
        by_cases hams' : s / G = ms
        · rw [hval, hams']
          simp
        · have halt : s / G < ms := by omega
          set a := s / G with ha
          set b := s % G with hbdef
          set d := ms - a - 1 with hd
          have hma : ms - a = d + 1 := by omega
          have hma1 : ms - (a + 1) = d := by omega
          have hdist1 : b * d + (G - b) * d = G * d := by
            rw [← Nat.add_mul]
            congr 1
            omega
          have hmul1 : (G - b) * (d + 1) = (G - b) * d + (G - b) := by ring
          have hmul2 : G * (d + 1) = G * d + G := by ring
          have hval2 : Dsum ms gs1 + b = G * (d + 1) := by
            rw [hval, hma, hma1]
            omega
          have hGma : G * (d + 1) + G * a = G * ms := by
            rw [← Nat.mul_add]
            congr 1
            omega
          omega
      obtain ⟨gs', hrec, hmem', hlen', _, hub', hD', hsum', hstar'⟩ :=
        place_normals_spec G N ms hG hNle choice normals gs1 normals.length 0
          hA hB rfl (by omega) hE hF
      have hstar_pres : ∀ n, star_at gs' n = star_at gs1 n := hstar' hnorm_none
      refine ⟨recalculate_sums gs', ?_, ?_, ?_, ?_, ?_, ?_⟩
      · rw [generate_unfold_true P G (by omega) stars normals choice]
        rw [show stars.length + normals.length - stars.length = normals.length by omega]
        rw [← hN, ← hms, ← hgs1, hrec]
        rfl
      · rw [members_all_recalc, hmem', hC]
        exact hcoe
      · rw [length_recalc, hlen']
      · intro g hg
        obtain ⟨g₀, hg₀, hmemeq⟩ := mem_recalc hg
        rw [hmemeq]
        exact ⟨Dsum_zero_le hD' g₀ hg₀, hub' g₀ hg₀⟩
      · rw [sizes_sum_eq_card, members_all_recalc, ← sizes_sum_eq_card, hsum']
      · intro _
        intro g hg g' hg'
        obtain ⟨g₀, hg₀, hmemeq⟩ := mem_recalc hg
        obtain ⟨g₀', hg₀', hmemeq'⟩ := mem_recalc hg'
        have hsc : star_count g = star_count g₀ := by
          unfold star_count
          rw [hmemeq]
        have hsc' : star_count g' = star_count g₀' := by
          unfold star_count
          rw [hmemeq']
        obtain ⟨t, htlt, ht⟩ := mem_pos_of_mem hg₀
        obtain ⟨t', htlt', ht'⟩ := mem_pos_of_mem hg₀'
        rw [hsc, hsc', star_count_eq_star_at ht, star_count_eq_star_at ht']
        have htG : t < G := by omega
        have htG' : t' < G := by omega
        rw [show star_at gs' t = star_at gs1 t from hstar_pres t,
          show star_at gs' t' = star_at gs1 t' from hstar_pres t',
          hcstar_formula t htG, hcstar_formula t' htG']
        have h1 : (if t < s % G then (1:ℕ) else 0) ≤ 1 := by split <;> omega
        have h2 : (0:ℕ) ≤ (if t' < s % G then (1:ℕ) else 0) := by split <;> omega
        omega

-- ### Shared-state and whole-run invariants

theorem size_profile_recalc {N G : ℕ} {gs : List Group} (h : size_profile N G gs) :
    size_profile N G (recalculate_sums gs) := by
  obtain ⟨hlen, hsum, hbound⟩ := h
  refine ⟨by rw [length_recalc]; exact hlen, ?_, ?_⟩
  · rw [sizes_sum_eq_card, members_all_recalc, ← sizes_sum_eq_card]
    exact hsum
  · intro g hg
    obtain ⟨g₀, hg₀, hmemeq⟩ := mem_recalc hg
    rw [hmemeq]
    exact hbound g₀ hg₀

theorem star_profile_recalc {gs : List Group} (h : star_profile gs) :
    star_profile (recalculate_sums gs) := by
  intro g hg g' hg'
  obtain ⟨g₀, hg₀, he⟩ := mem_recalc hg
  obtain ⟨g₀', hg₀', he'⟩ := mem_recalc hg'
  have e1 : star_count g = star_count g₀ := by unfold star_count; rw [he]
  have e2 : star_count g' = star_count g₀' := by unfold star_count; rw [he']
  rw [e1, e2]
  exact h g₀ hg₀ g₀' hg₀'

theorem sa_step_full_inv {P : Multiset Person} {N G : ℕ} {rs : Bool} {mv : MoveChoice}
    {st : SAState} (h : full_inv P N G rs st) :
    full_inv P N G rs (sa_step (N / G) (N / G + 1) rs mv st) := by
  obtain ⟨hcm, hcp, hbm, hbp, hstar⟩ := h
  obtain ⟨hshape, hbest⟩ := sa_step_shape (N / G) (N / G + 1) rfl rs mv st
  have hcm' : members_all (sa_step (N / G) (N / G + 1) rs mv st).current = P := by
    rw [step_shape_members hshape]; exact hcm
  have hcp' : size_profile N G (sa_step (N / G) (N / G + 1) rs mv st).current :=
    step_shape_size_profile hshape hcp
  have hstar_cur : rs = true → star_profile (sa_step (N / G) (N / G + 1) rs mv st).current := by
    intro hrs
    subst hrs
    exact step_shape_star_profile hshape (hstar rfl).1
  rcases hbest.2.2 with hbeq | hbcopy
  · exact ⟨hcm', hcp', by rw [hbeq]; exact hbm, by rw [hbeq]; exact hbp,
      fun hrs => ⟨hstar_cur hrs, by rw [hbeq]; exact (hstar hrs).2⟩⟩
  · refine ⟨hcm', hcp', ?_, ?_, fun hrs => ⟨hstar_cur hrs, ?_⟩⟩
    · rw [hbcopy]
      unfold deep_copy_groups
      rw [members_all_recalc]
      exact hcm'
    · rw [hbcopy]
      exact size_profile_recalc hcp'
    · rw [hbcopy]
      exact star_profile_recalc (hstar_cur hrs)

theorem update_ns_inv {P : Multiset Person} {N G : ℕ} {gs : List Group} {s : ℚ}
    {c : Bool} {ns : SharedNS} (h : ns_inv P N G ns)
    (hgs : members_all gs = P) (hprof : size_profile N G gs) :
    ns_inv P N G (update_global_state gs s c ns) := by
  obtain ⟨h1, h2, h3, h4⟩ := h
  unfold update_global_state
  by_cases hA : c = true ∧ s < ns.best_a_score
  · rw [if_pos hA]
    by_cases hB : s < ns.best_b_score
    · rw [if_pos hB]
      exact ⟨fun h => by simp at h, fun gs' hg => by
          rw [Option.some.injEq] at hg; subst hg; exact ⟨hgs, hprof⟩,
        fun h => by simp at h, fun gs' hg => by
          rw [Option.some.injEq] at hg; subst hg; exact ⟨hgs, hprof⟩⟩
    · rw [if_neg hB]
      exact ⟨fun h => by simp at h, fun gs' hg => by
          rw [Option.some.injEq] at hg; subst hg; exact ⟨hgs, hprof⟩, h3, h4⟩
  · rw [if_neg hA]
    by_cases hB : s < ns.best_b_score
    · rw [if_pos hB]
      exact ⟨h1, h2, fun h => by simp at h, fun gs' hg => by
        rw [Option.some.injEq] at hg; subst hg; exact ⟨hgs, hprof⟩⟩
    · rw [if_neg hB]
      exact ⟨h1, h2, h3, h4⟩

theorem update_keeps_a_some {gs : List Group} {s : ℚ} {c : Bool} {ns : SharedNS}
    (h : ns.best_a_groups.isSome = true) :
    (update_global_state gs s c ns).best_a_groups.isSome = true := by
  unfold update_global_state
  by_cases hA : c = true ∧ s < ns.best_a_score
  · rw [if_pos hA]
    by_cases hB : s < ns.best_b_score
    · rw [if_pos hB]; rfl
    · rw [if_neg hB]; rfl
  · rw [if_neg hA]
    by_cases hB : s < ns.best_b_score
    · rw [if_pos hB]; exact h
    · rw [if_neg hB]; exact h

theorem update_keeps_b_some {gs : List Group} {s : ℚ} {c : Bool} {ns : SharedNS}
    (h : ns.best_b_groups.isSome = true) :
    (update_global_state gs s c ns).best_b_groups.isSome = true := by
  unfold update_global_state
  by_cases hA : c = true ∧ s < ns.best_a_score
  · rw [if_pos hA]
    by_cases hB : s < ns.best_b_score
    · rw [if_pos hB]; rfl
    · rw [if_neg hB]; exact h
  · rw [if_neg hA]
    by_cases hB : s < ns.best_b_score
    · rw [if_pos hB]; rfl
    · rw [if_neg hB]; exact h

theorem update_sets_a_some {gs : List Group} {s : ℚ} {ns : SharedNS}
    (h1 : ns.best_a_groups = none → ns.best_a_score = 99999 ^ 2) (hs : s < 99999 ^ 2) :
    (update_global_state gs s true ns).best_a_groups.isSome = true := by
  unfold update_global_state
  by_cases hA : (true : Bool) = true ∧ s < ns.best_a_score
  · rw [if_pos hA]
    by_cases hB : s < ns.best_b_score
    · rw [if_pos hB]; rfl
    · rw [if_neg hB]; rfl
  · have hA' : ¬ s < ns.best_a_score := fun hc => hA ⟨rfl, hc⟩
    rw [if_neg hA]
    have hsome : ns.best_a_groups.isSome = true := by
      rcases hg : ns.best_a_groups with _ | gs0
      · have hsc := h1 hg
        rw [hsc] at hA'
        exact absurd hs hA'
      · rfl
    by_cases hB : s < ns.best_b_score
    · rw [if_pos hB]; exact hsome
    · rw [if_neg hB]; exact hsome

theorem update_sets_b_some {gs : List Group} {s : ℚ} {c : Bool} {ns : SharedNS}
    (h3 : ns.best_b_groups = none → ns.best_b_score = 99999 ^ 2) (hs : s < 99999 ^ 2) :
    (update_global_state gs s c ns).best_b_groups.isSome = true := by
  unfold update_global_state
  have hsome : ¬ s < ns.best_b_score → ns.best_b_groups.isSome = true := by
    intro hB
    rcases hg : ns.best_b_groups with _ | gs0
    · have := h3 hg
      rw [this] at hB
      exact absurd hs hB
    · rfl
  by_cases hA : c = true ∧ s < ns.best_a_score
  · rw [if_pos hA]
    by_cases hB : s < ns.best_b_score
    · rw [if_pos hB]; rfl
    · rw [if_neg hB]; exact hsome hB
  · rw [if_neg hA]
    by_cases hB : s < ns.best_b_score
    · rw [if_pos hB]; rfl
    · rw [if_neg hB]; exact hsome hB

-- ### Cross-variant score ordering (`update_global_state` arithmetic)

/-- Every publish — constrained or not — offers the result to the
unconstrained slot: the new unconstrained score is the minimum of the old one
and the published score. -/
theorem update_b_score (gs : List Group) (s : ℚ) (c : Bool) (ns : SharedNS) :
    (update_global_state gs s c ns).best_b_score = min ns.best_b_score s := by
  unfold update_global_state
  by_cases hA : c = true ∧ s < ns.best_a_score
  · rw [if_pos hA]
    by_cases hB : s < ns.best_b_score
    · rw [if_pos hB]
      exact (min_eq_right (le_of_lt hB)).symm
    · rw [if_neg hB]
      exact (min_eq_left (le_of_not_lt hB)).symm
  · rw [if_neg hA]
    by_cases hB : s < ns.best_b_score
    · rw [if_pos hB]
      exact (min_eq_right (le_of_lt hB)).symm
    · rw [if_neg hB]
      exact (min_eq_left (le_of_not_lt hB)).symm

theorem update_a_score_le (gs : List Group) (s : ℚ) (c : Bool) (ns : SharedNS) :
    ns.best_a_score ≤ (update_global_state gs s c ns).best_a_score ∨
      (update_global_state gs s c ns).best_a_score = s := by
  unfold update_global_state
  by_cases hA : c = true ∧ s < ns.best_a_score
  · rw [if_pos hA]
    by_cases hB : s < ns.best_b_score
    · rw [if_pos hB]; right; rfl
    · rw [if_neg hB]; right; rfl
  · rw [if_neg hA]
    by_cases hB : s < ns.best_b_score
    · rw [if_pos hB]; left; exact le_refl _
    · rw [if_neg hB]; left; exact le_refl _

/-- The unconstrained slot is always at least as good as the constrained one,
and one publish keeps it so. -/
theorem update_b_le_a {gs : List Group} {s : ℚ} {c : Bool} {ns : SharedNS}
    (h : ns.best_b_score ≤ ns.best_a_score) :
    (update_global_state gs s c ns).best_b_score ≤
      (update_global_state gs s c ns).best_a_score := by
  rw [update_b_score]
  rcases update_a_score_le gs s c ns with ha | ha
  · exact le_trans (min_le_left _ _) (le_trans h ha)
  · rw [ha]
    exact min_le_right _ _

theorem publish_fold_b_le_a :
    ∀ (pubs : List (List Group × ℚ × Bool)) (ns : SharedNS),
      ns.best_b_score ≤ ns.best_a_score →
      (publish_fold pubs ns).best_b_score ≤ (publish_fold pubs ns).best_a_score
  | [], ns, h => h
  | p :: pubs, ns, h =>
      publish_fold_b_le_a pubs _ (update_b_le_a h)

-- ### Whole-run fold lemmas

theorem sa_step_ns_fst (min_size max_size : ℕ) (rs : Bool) (mv : MoveChoice)
    (p : SAState × SharedNS) :
    (sa_step_ns min_size max_size rs mv p).1 = sa_step min_size max_size rs mv p.1 := by
  unfold sa_step_ns
  dsimp only
  split <;> rfl

theorem sa_step_ns_inv {P : Multiset Person} {N G : ℕ} {rs : Bool} {mv : MoveChoice}
    {p : SAState × SharedNS} (hst : full_inv P N G rs p.1) (hns : ns_inv P N G p.2) :
    full_inv P N G rs (sa_step_ns (N / G) (N / G + 1) rs mv p).1 ∧
      ns_inv P N G (sa_step_ns (N / G) (N / G + 1) rs mv p).2 ∧
      (p.2.best_a_groups.isSome = true →
        (sa_step_ns (N / G) (N / G + 1) rs mv p).2.best_a_groups.isSome = true) ∧
      (p.2.best_b_groups.isSome = true →
        (sa_step_ns (N / G) (N / G + 1) rs mv p).2.best_b_groups.isSome = true) := by
  have hst' := @sa_step_full_inv _ _ _ _ mv _ hst
  unfold sa_step_ns
  by_cases himp : (sa_step (N / G) (N / G + 1) rs mv p.1).best_sq < p.1.best_sq
  · rw [if_pos himp]
    refine ⟨hst', ?_, ?_, ?_⟩
    · exact update_ns_inv hns hst'.2.2.1 hst'.2.2.2.1
    · intro h; exact update_keeps_a_some h
    · intro h; exact update_keeps_b_some h
  · rw [if_neg himp]
    exact ⟨hst', hns, fun h => h, fun h => h⟩

theorem run_fold_inv {P : Multiset Person} {N G : ℕ} {rs : Bool} :
    ∀ (moves : List MoveChoice) (p : SAState × SharedNS),
      full_inv P N G rs p.1 → ns_inv P N G p.2 →
      full_inv P N G rs
          (moves.foldl (fun p mv => sa_step_ns (N / G) (N / G + 1) rs mv p) p).1 ∧
        ns_inv P N G
          (moves.foldl (fun p mv => sa_step_ns (N / G) (N / G + 1) rs mv p) p).2 ∧
        (p.2.best_a_groups.isSome = true →
          (moves.foldl (fun p mv => sa_step_ns (N / G) (N / G + 1) rs mv p)
            p).2.best_a_groups.isSome = true) ∧
        (p.2.best_b_groups.isSome = true →
          (moves.foldl (fun p mv => sa_step_ns (N / G) (N / G + 1) rs mv p)
            p).2.best_b_groups.isSome = true) ∧
        (moves.foldl (fun p mv => sa_step_ns (N / G) (N / G + 1) rs mv p)
            p).1.best_sq ≤ p.1.best_sq ∧
        ((moves.foldl (fun p mv => sa_step_ns (N / G) (N / G + 1) rs mv p)
            p).1.best_sq = p.1.best_sq →
          (moves.foldl (fun p mv => sa_step_ns (N / G) (N / G + 1) rs mv p)
            p).1.best = p.1.best)
  | [], p, hst, hns => ⟨hst, hns, fun h => h, fun h => h, le_refl _, fun _ => rfl⟩
  | mv :: moves, p, hst, hns => by
      obtain ⟨hst', hns', ha', hb'⟩ := @sa_step_ns_inv _ _ _ _ mv _ hst hns
      have ih := run_fold_inv moves (sa_step_ns (N / G) (N / G + 1) rs mv p) hst' hns'
      simp only [List.foldl_cons]
      have hbs := (sa_step_shape (N / G) (N / G + 1) rfl rs mv p.1).2
      have hfst := sa_step_ns_fst (N / G) (N / G + 1) rs mv p
      refine ⟨ih.1, ih.2.1, fun h => ih.2.2.1 (ha' h), fun h => ih.2.2.2.1 (hb' h), ?_, ?_⟩
      · refine le_trans ih.2.2.2.2.1 ?_
        rw [hfst]
        exact hbs.1
      · intro heq
        have hstep_le : (sa_step_ns (N / G) (N / G + 1) rs mv p).1.best_sq ≤ p.1.best_sq := by
          rw [hfst]; exact hbs.1
        have hfold_le := ih.2.2.2.2.1
        have hqe : (sa_step_ns (N / G) (N / G + 1) rs mv p).1.best_sq = p.1.best_sq :=
          le_antisymm hstep_le (by rw [← heq]; exact hfold_le)
        have hfe : (moves.foldl (fun p mv => sa_step_ns (N / G) (N / G + 1) rs mv p)
            (sa_step_ns (N / G) (N / G + 1) rs mv p)).1.best_sq =
            (sa_step_ns (N / G) (N / G + 1) rs mv p).1.best_sq := by
          rw [heq, hqe]
        rw [ih.2.2.2.2.2 hfe]
        rw [hfst] at hqe ⊢
        exact hbs.2.1 hqe

/-- Whole-run specification of one worker.  The returned best is a valid
balanced partition, the tracked best objective never regresses below the
fold and equals the seed's exactly when no move improved (in which case the
returned best IS the deep-copied seed), and — once the seed was published at
initialisation — the worker's variant slot of the shared namespace holds a
state no matter how few loop iterations later run. -/
theorem run_simulated_annealing_spec (groups : List Group) (rs : Bool) (ns : SharedNS)
    (moves : List MoveChoice) (P : Multiset Person) (N G : ℕ)
    (hmem : members_all groups = P) (hprof : size_profile N G groups)
    (hstarp : rs = true → star_profile groups) (hnsinv : ns_inv P N G ns) :
    full_inv P N G rs (run_simulated_annealing groups rs ns moves).1 ∧
      ns_inv P N G (run_simulated_annealing groups rs ns moves).2 ∧
      (run_simulated_annealing groups rs ns moves).1.best_sq ≤
        calculate_std_dev_sq (deep_copy_groups groups) ∧
      ((run_simulated_annealing groups rs ns moves).1.best_sq =
          calculate_std_dev_sq (deep_copy_groups groups) →
        (run_simulated_annealing groups rs ns moves).1.best = deep_copy_groups groups) ∧
      (calculate_std_dev_sq (deep_copy_groups groups) < 99999 ^ 2 →
        (rs = true →
          (run_simulated_annealing groups rs ns moves).2.best_a_groups.isSome = true) ∧
        (run_simulated_annealing groups rs ns moves).2.best_b_groups.isSome = true) := by
  have e : run_simulated_annealing groups rs ns moves =
      moves.foldl (fun p mv => sa_step_ns (sizes_sum groups / groups.length)
        (sizes_sum groups / groups.length + 1) rs mv p)
        (⟨deep_copy_groups groups, deep_copy_groups groups,
            calculate_std_dev_sq (deep_copy_groups groups), 1000⟩,
         update_global_state (deep_copy_groups groups)
           (calculate_std_dev_sq (deep_copy_groups groups)) rs ns) := rfl
  rw [hprof.2.1, hprof.1] at e
  have hmem0 : members_all (deep_copy_groups groups) = P := by
    unfold deep_copy_groups
    rw [members_all_recalc]
    exact hmem
  have hprof0 : size_profile N G (deep_copy_groups groups) := size_profile_recalc hprof
  have hst0 : full_inv P N G rs
      (⟨deep_copy_groups groups, deep_copy_groups groups,
        calculate_std_dev_sq (deep_copy_groups groups), 1000⟩ : SAState) := by
    refine ⟨hmem0, hprof0, hmem0, hprof0, fun hrs => ?_⟩
    have := star_profile_recalc (hstarp hrs)
    exact ⟨this, this⟩
  have hns0 : ns_inv P N G (update_global_state (deep_copy_groups groups)
      (calculate_std_dev_sq (deep_copy_groups groups)) rs ns) :=
    update_ns_inv hnsinv hmem0 hprof0
  obtain ⟨hfull, hnsf, hasome, hbsome, hle, heqb⟩ :=
    @run_fold_inv P N G rs moves
      (⟨deep_copy_groups groups, deep_copy_groups groups,
          calculate_std_dev_sq (deep_copy_groups groups), 1000⟩,
       update_global_state (deep_copy_groups groups)
         (calculate_std_dev_sq (deep_copy_groups groups)) rs ns)
      hst0 hns0
  rw [e]
  refine ⟨hfull, hnsf, hle, heqb, fun hsent => ⟨?_, ?_⟩⟩
  · intro hrs
    apply hasome
    subst hrs
    exact update_sets_a_some hnsinv.1 hsent
  · apply hbsome
    exact update_sets_b_some hnsinv.2.2.1 hsent

theorem sa_step_pc_inv {P : Multiset Person} {G : ℕ} {ms : ℕ} {rs : Bool}
    {mv : MoveChoice} {st : SAState} (h : pc_inv P G st) :
    pc_inv P G (sa_step ms (ms + 1) rs mv st) := by
  obtain ⟨hcm, hcl, hbm, hbl⟩ := h
  obtain ⟨hshape, hbest⟩ := sa_step_shape ms (ms + 1) rfl rs mv st
  have hcm' : members_all (sa_step ms (ms + 1) rs mv st).current = P := by
    rw [step_shape_members hshape]; exact hcm
  have hcl' : (sa_step ms (ms + 1) rs mv st).current.length = G := by
    rw [step_shape_length hshape]; exact hcl
  rcases hbest.2.2 with hbeq | hbcopy
  · exact ⟨hcm', hcl', by rw [hbeq]; exact hbm, by rw [hbeq]; exact hbl⟩
  · refine ⟨hcm', hcl', ?_, ?_⟩
    · rw [hbcopy]
      unfold deep_copy_groups
      rw [members_all_recalc]
      exact hcm'
    · rw [hbcopy]
      unfold deep_copy_groups
      rw [length_recalc]
      exact hcl'

theorem run_fold_pc {P : Multiset Person} {G : ℕ} (ms : ℕ) (rs : Bool) :
    ∀ (moves : List MoveChoice) (p : SAState × SharedNS), pc_inv P G p.1 →
      pc_inv P G
        ((moves.foldl (fun p mv => sa_step_ns ms (ms + 1) rs mv p) p)).1 ∧
      ((moves.foldl (fun p mv => sa_step_ns ms (ms + 1) rs mv p) p)).1.best_sq ≤
        p.1.best_sq ∧
      (((moves.foldl (fun p mv => sa_step_ns ms (ms + 1) rs mv p) p)).1.best_sq =
          p.1.best_sq →
        ((moves.foldl (fun p mv => sa_step_ns ms (ms + 1) rs mv p) p)).1.best = p.1.best)
  | [], p, h => ⟨h, le_refl _, fun _ => rfl⟩
  | mv :: moves, p, h => by
      have hfst := sa_step_ns_fst ms (ms + 1) rs mv p
      have hstep : pc_inv P G (sa_step_ns ms (ms + 1) rs mv p).1 := by
        rw [hfst]; exact sa_step_pc_inv h
      have ih := run_fold_pc ms rs moves (sa_step_ns ms (ms + 1) rs mv p) hstep
      have hbs := (sa_step_shape ms (ms + 1) rfl rs mv p.1).2
      simp only [List.foldl_cons]
      refine ⟨ih.1, ?_, ?_⟩
      · refine le_trans ih.2.1 ?_
        rw [hfst]
        exact hbs.1
      · intro heq
        have hstep_le : (sa_step_ns ms (ms + 1) rs mv p).1.best_sq ≤ p.1.best_sq := by
          rw [hfst]; exact hbs.1
        have hqe : (sa_step_ns ms (ms + 1) rs mv p).1.best_sq = p.1.best_sq :=
          le_antisymm hstep_le (by rw [← heq]; exact ih.2.1)
        have hfe : (moves.foldl (fun p mv => sa_step_ns ms (ms + 1) rs mv p)
            (sa_step_ns ms (ms + 1) rs mv p)).1.best_sq =
            (sa_step_ns ms (ms + 1) rs mv p).1.best_sq := by
          rw [heq, hqe]
        rw [ih.2.2 hfe]
        rw [hfst] at hqe ⊢
        exact hbs.2.1 hqe

/-- `run_simulated_annealing`, reduced to its fold (definitional). -/
theorem run_unfold (groups : List Group) (rs : Bool) (ns : SharedNS)
    (moves : List MoveChoice) :
    run_simulated_annealing groups rs ns moves =
      moves.foldl (fun p mv => sa_step_ns (sizes_sum groups / groups.length)
        (sizes_sum groups / groups.length + 1) rs mv p)
        (⟨deep_copy_groups groups, deep_copy_groups groups,
            calculate_std_dev_sq (deep_copy_groups groups), 1000⟩,
         update_global_state (deep_copy_groups groups)
           (calculate_std_dev_sq (deep_copy_groups groups)) rs ns) := rfl

/-- Worker-local whole-run facts needing no shared-state hypotheses: both the
final `current` and the returned `best` partition exactly the seed's members
into the seed's number of groups, the returned objective never exceeds the
seed's, and a run that never improved returns precisely the deep-copied
seed. -/
theorem run_pc_spec (groups : List Group) (rs : Bool) (ns : SharedNS)
    (moves : List MoveChoice) :
    members_all (run_simulated_annealing groups rs ns moves).1.current =
        members_all groups ∧
      (run_simulated_annealing groups rs ns moves).1.current.length = groups.length ∧
      members_all (run_simulated_annealing groups rs ns moves).1.best =
        members_all groups ∧
      (run_simulated_annealing groups rs ns moves).1.best.length = groups.length ∧
      (run_simulated_annealing groups rs ns moves).1.best_sq ≤
        calculate_std_dev_sq (deep_copy_groups groups) ∧
      ((run_simulated_annealing groups rs ns moves).1.best_sq =
          calculate_std_dev_sq (deep_copy_groups groups) →
        (run_simulated_annealing groups rs ns moves).1.best = deep_copy_groups groups) := by
  have hinit : pc_inv (members_all groups) groups.length
      (⟨deep_copy_groups groups, deep_copy_groups groups,
        calculate_std_dev_sq (deep_copy_groups groups), 1000⟩ : SAState) := by
    refine ⟨?_, ?_, ?_, ?_⟩ <;>
      simp [deep_copy_groups, members_all_recalc, length_recalc]
  obtain ⟨⟨hcm, hcl, hbm, hbl⟩, hle, heq⟩ :=
    run_fold_pc (sizes_sum groups / groups.length) rs moves
      (⟨deep_copy_groups groups, deep_copy_groups groups,
          calculate_std_dev_sq (deep_copy_groups groups), 1000⟩,
       update_global_state (deep_copy_groups groups)
         (calculate_std_dev_sq (deep_copy_groups groups)) rs ns)
      hinit
  rw [run_unfold]
  exact ⟨hcm, hcl, hbm, hbl, hle, heq⟩

theorem sa_step_sz_inv {P : Multiset Person} {N G : ℕ} {rs : Bool}
    {mv : MoveChoice} {st : SAState} (h : sz_inv P N G st) :
    sz_inv P N G (sa_step (N / G) (N / G + 1) rs mv st) := by
  obtain ⟨hcm, hcp, hbm, hbp⟩ := h
  obtain ⟨hshape, hbest⟩ := sa_step_shape (N / G) (N / G + 1) rfl rs mv st
  have hcm' : members_all (sa_step (N / G) (N / G + 1) rs mv st).current = P := by
    rw [step_shape_members hshape]; exact hcm
  have hcp' := step_shape_size_profile hshape hcp
  rcases hbest.2.2 with hbeq | hbcopy
  · exact ⟨hcm', hcp', by rw [hbeq]; exact hbm, by rw [hbeq]; exact hbp⟩
  · refine ⟨hcm', hcp', ?_, ?_⟩
    · rw [hbcopy]
      unfold deep_copy_groups
      rw [members_all_recalc]
      exact hcm'
    · rw [hbcopy]
      exact size_profile_recalc hcp'

theorem run_fold_sz {P : Multiset Person} {N G : ℕ} (rs : Bool) :
    ∀ (moves : List MoveChoice) (p : SAState × SharedNS), sz_inv P N G p.1 →
      sz_inv P N G
        ((moves.foldl (fun p mv => sa_step_ns (N / G) (N / G + 1) rs mv p) p)).1
  | [], p, h => h
  | mv :: moves, p, h => by
      have hfst := sa_step_ns_fst (N / G) (N / G + 1) rs mv p
      have hstep : sz_inv P N G (sa_step_ns (N / G) (N / G + 1) rs mv p).1 := by
        rw [hfst]; exact sa_step_sz_inv h
      simp only [List.foldl_cons]
      exact run_fold_sz rs moves (sa_step_ns (N / G) (N / G + 1) rs mv p) hstep

/-- Size balance of a whole run: with a balanced seed of `N` people in `G`
groups, the final `current` and the returned `best` keep the exact size
profile. -/
theorem run_sz_spec (groups : List Group) (rs : Bool) (ns : SharedNS)
    (moves : List MoveChoice) (N G : ℕ) (hprof : size_profile N G groups) :
    size_profile N G (run_simulated_annealing groups rs ns moves).1.current ∧
      size_profile N G (run_simulated_annealing groups rs ns moves).1.best := by
  have hinit : sz_inv (members_all groups) N G
      (⟨deep_copy_groups groups, deep_copy_groups groups,
        calculate_std_dev_sq (deep_copy_groups groups), 1000⟩ : SAState) := by
    have h1 : members_all (deep_copy_groups groups) = members_all groups := by
      unfold deep_copy_groups
      rw [members_all_recalc]
    exact ⟨h1, size_profile_recalc hprof, h1, size_profile_recalc hprof⟩
  have hfold := run_fold_sz rs moves
      (⟨deep_copy_groups groups, deep_copy_groups groups,
          calculate_std_dev_sq (deep_copy_groups groups), 1000⟩,
       update_global_state (deep_copy_groups groups)
         (calculate_std_dev_sq (deep_copy_groups groups)) rs ns)
      hinit
  rw [run_unfold]
  have hms : sizes_sum groups / groups.length = N / G := by
    rw [hprof.2.1, hprof.1]
  rw [hms]
  exact ⟨hfold.2.1, hfold.2.2.2⟩

theorem sa_step_stb_inv {ms : ℕ} {mv : MoveChoice} {st : SAState} (h : stb_inv st) :
    stb_inv (sa_step ms (ms + 1) true mv st) := by
  obtain ⟨hc, hb⟩ := h
  obtain ⟨hshape, hbest⟩ := sa_step_shape ms (ms + 1) rfl true mv st
  have hc' := step_shape_star_profile hshape hc
  rcases hbest.2.2 with hbeq | hbcopy
  · exact ⟨hc', by rw [hbeq]; exact hb⟩
  · exact ⟨hc', by rw [hbcopy]; exact star_profile_recalc hc'⟩

theorem run_fold_stb (ms : ℕ) :
    ∀ (moves : List MoveChoice) (p : SAState × SharedNS), stb_inv p.1 →
      stb_inv ((moves.foldl (fun p mv => sa_step_ns ms (ms + 1) true mv p) p)).1
  | [], p, h => h
  | mv :: moves, p, h => by
      have hfst := sa_step_ns_fst ms (ms + 1) true mv p
      have hstep : stb_inv (sa_step_ns ms (ms + 1) true mv p).1 := by
        rw [hfst]; exact sa_step_stb_inv h
      simp only [List.foldl_cons]
      exact run_fold_stb ms moves (sa_step_ns ms (ms + 1) true mv p) hstep

/-- Star balance of a whole constrained run. -/
theorem run_stb_spec (groups : List Group) (ns : SharedNS)
    (moves : List MoveChoice) (hstar : star_profile groups) :
    star_profile (run_simulated_annealing groups true ns moves).1.current ∧
      star_profile (run_simulated_annealing groups true ns moves).1.best := by
  have hinit : stb_inv
      (⟨deep_copy_groups groups, deep_copy_groups groups,
        calculate_std_dev_sq (deep_copy_groups groups), 1000⟩ : SAState) :=
    ⟨star_profile_recalc hstar, star_profile_recalc hstar⟩
  have hfold := run_fold_stb (sizes_sum groups / groups.length) moves
      (⟨deep_copy_groups groups, deep_copy_groups groups,
          calculate_std_dev_sq (deep_copy_groups groups), 1000⟩,
       update_global_state (deep_copy_groups groups)
         (calculate_std_dev_sq (deep_copy_groups groups)) true ns)
      hinit
  rw [run_unfold]
  exact hfold

-- ### Helpers for the claim-level theorems

theorem ns_inv_init (P : Multiset Person) (N G : ℕ) : ns_inv P N G init_ns :=
  ⟨fun _ => rfl, fun _ h => Option.noConfusion h, fun _ => rfl,
   fun _ h => Option.noConfusion h⟩

theorem profile_counts_pairwise {N G : ℕ} (hG : 0 < G) {gs : List Group}
    (h : size_profile N G gs) :
    gs.countP (fun g => g.members.length = N / G + 1) = N % G ∧
      gs.countP (fun g => g.members.length = N / G) = G - N % G ∧
      ∀ g ∈ gs, ∀ g' ∈ gs, g.members.length ≤ g'.members.length + 1 := by
  obtain ⟨hlen, hsum, hbound⟩ := h
  obtain ⟨h1, h2⟩ := counts_of_profile hG hlen hsum hbound
  refine ⟨h1, h2, ?_⟩
  intro g hg g' hg'
  have hb1 := hbound g hg
  have hb2 := hbound g' hg'
  omega

-- ## The claims

/-- C9: the spec says the coordinator allocates `⌈C/2⌉` execution units to the
constrained variant.  At `C = 3` the source's `max(1, 3 // 2)` gives 1, while
`⌈3/2⌉ = 2`: the constrained variant gets the floor, not the ceiling. -/
theorem C9_counterexample :
    cores_constrained 3 = 1 ∧ cores_unconstrained 3 = 2 ∧ (3 + 1) / 2 = 2 ∧
      cores_constrained 3 ≠ (3 + 1) / 2 := by decide

/-- C9 (amended): for every core count `C ≥ 2` the coordinator allocates
`⌊C/2⌋` workers to the constrained variant and the remainder
`C - ⌊C/2⌋ = ⌈C/2⌉` — so it is the UNconstrained variant that receives the
ceiling — and for every `C` both variants receive at least one worker. -/
theorem C9_core_split (C : ℕ) (hC : 2 ≤ C) :
    cores_constrained C = C / 2 ∧
      cores_unconstrained C = C - C / 2 ∧
      cores_constrained C + cores_unconstrained C = C ∧
      cores_unconstrained C = (C + 1) / 2 ∧
      1 ≤ cores_constrained C ∧ 1 ≤ cores_unconstrained C := by
  have h1 : cores_constrained C = C / 2 := by
    unfold cores_constrained
    exact Nat.max_eq_right (by omega)
  have h2 : cores_unconstrained C = C - C / 2 := by
    unfold cores_unconstrained
    rw [h1]
    exact Nat.max_eq_right (by omega)
  refine ⟨h1, h2, ?_, ?_, ?_, ?_⟩ <;> omega

theorem C9_core_split_witness :
    cores_constrained 5 = 5 / 2 ∧
      cores_unconstrained 5 = 5 - 5 / 2 ∧
      cores_constrained 5 + cores_unconstrained 5 = 5 ∧
      cores_unconstrained 5 = (5 + 1) / 2 ∧
      1 ≤ cores_constrained 5 ∧ 1 ≤ cores_unconstrained 5 :=
  C9_core_split 5 (by decide)

/-- C4: every publish — in particular every constrained-variant publish — is
also offered to the unconstrained shared best under the same
strict-improvement compare (the unconstrained score becomes the minimum of
its old value and the published score), and after any sequence of publishes
on the coordinator's fresh namespace the unconstrained best standard
deviation is at most the constrained one, so the constrained final best can
never be strictly better than the unconstrained final best. -/
theorem C4_cross_variant_promotion :
    (∀ (gs : List Group) (s : ℚ) (c : Bool) (ns : SharedNS),
      (update_global_state gs s c ns).best_b_score = min ns.best_b_score s) ∧
    (∀ pubs : List (List Group × ℚ × Bool),
      (publish_fold pubs init_ns).best_b_score ≤
          (publish_fold pubs init_ns).best_a_score ∧
        Real.sqrt ((publish_fold pubs init_ns).best_b_score : ℝ) ≤
          Real.sqrt ((publish_fold pubs init_ns).best_a_score : ℝ) ∧
        ¬ Real.sqrt ((publish_fold pubs init_ns).best_a_score : ℝ) <
            Real.sqrt ((publish_fold pubs init_ns).best_b_score : ℝ)) := by
  refine ⟨update_b_score, fun pubs => ?_⟩
  have h := publish_fold_b_le_a pubs init_ns (le_refl _)
  have hs : Real.sqrt ((publish_fold pubs init_ns).best_b_score : ℝ) ≤
      Real.sqrt ((publish_fold pubs init_ns).best_a_score : ℝ) :=
    Real.sqrt_le_sqrt (by exact_mod_cast h)
  exact ⟨h, hs, not_lt.mpr hs⟩

/-- C7: the tracked best objective of one worker never regresses — each loop
iteration can only lower `best_sq`, and leaves `best` untouched unless it
strictly improved — and the worker always returns a best state: the returned
best has the seed's group count (so it is non-empty whenever the seed is),
and equals the deep-copied seed exactly when no move ever improved. -/
theorem C7_monotone_best :
    (∀ (ms : ℕ) (rs : Bool) (mv : MoveChoice) (st : SAState),
      (sa_step ms (ms + 1) rs mv st).best_sq ≤ st.best_sq ∧
        ((sa_step ms (ms + 1) rs mv st).best_sq = st.best_sq →
          (sa_step ms (ms + 1) rs mv st).best = st.best)) ∧
    (∀ (groups : List Group) (rs : Bool) (ns : SharedNS) (moves : List MoveChoice),
      (run_simulated_annealing groups rs ns moves).1.best_sq ≤
          calculate_std_dev_sq (deep_copy_groups groups) ∧
        ((run_simulated_annealing groups rs ns moves).1.best_sq =
            calculate_std_dev_sq (deep_copy_groups groups) →
          (run_simulated_annealing groups rs ns moves).1.best =
            deep_copy_groups groups) ∧
        (run_simulated_annealing groups rs ns moves).1.best.length = groups.length ∧
        (groups ≠ [] → (run_simulated_annealing groups rs ns moves).1.best ≠ [])) := by
  constructor
  · intro ms rs mv st
    have h := (sa_step_shape ms (ms + 1) rfl rs mv st).2
    exact ⟨h.1, h.2.1⟩
  · intro groups rs ns moves
    have h := run_pc_spec groups rs ns moves
    refine ⟨h.2.2.2.2.1, h.2.2.2.2.2, h.2.2.2.1, fun hne hbe => ?_⟩
    apply hne
    have hlen := h.2.2.2.1
    rw [hbe] at hlen
    have h0 : groups.length = 0 := by simpa using hlen.symm
    exact List.length_eq_zero.mp h0

theorem C7_monotone_best_witness :
    ([⟨1, [⟨"a", 1⟩], 1, 1⟩] : List Group) ≠ [] ∧
      (run_simulated_annealing [⟨1, [⟨"a", 1⟩], 1, 1⟩] false init_ns []).1.best ≠ [] :=
  ⟨by decide,
   (C7_monotone_best.2 [⟨1, [⟨"a", 1⟩], 1, 1⟩] false init_ns []).2.2.2 (by decide)⟩

/-- C1: partition invariant.  The generator's output partitions the input
exactly — the multiset union of all groups' members equals the input list,
so each individual appears in exactly one group, with no duplicates and no
omissions; every swap/transfer iteration of the annealing loop preserves the
member multiset of the working state; and for any whole run both the final
working state and the returned best partition exactly the seed's members. -/
theorem C1_partition_invariant :
    (∀ (P : List Person) (G : ℕ) (rs : Bool) (stars normals : List Person)
        (choice : ℕ → ℕ), 0 < G →
      stars.Perm (star_split P rs).1 → normals.Perm (star_split P rs).2 →
      ∃ gs, generate_random_state P G rs stars normals choice = some gs ∧
        members_all gs = ↑P) ∧
    (∀ (ms : ℕ) (rs : Bool) (mv : MoveChoice) (st : SAState),
      members_all (sa_step ms (ms + 1) rs mv st).current = members_all st.current) ∧
    (∀ (groups : List Group) (rs : Bool) (ns : SharedNS) (moves : List MoveChoice),
      members_all (run_simulated_annealing groups rs ns moves).1.current =
          members_all groups ∧
        members_all (run_simulated_annealing groups rs ns moves).1.best =
          members_all groups) := by
  refine ⟨?_, ?_, ?_⟩
  · intro P G rs stars normals choice hG hs hn
    obtain ⟨gs, h1, h2, _⟩ := generate_spec P G hG rs stars normals choice hs hn
    exact ⟨gs, h1, h2⟩
  · intro ms rs mv st
    exact step_shape_members (sa_step_shape ms (ms + 1) rfl rs mv st).1
  · intro groups rs ns moves
    have h := run_pc_spec groups rs ns moves
    exact ⟨h.1, h.2.2.1⟩

theorem C1_partition_invariant_witness :
    ∃ gs, generate_random_state [⟨"a", 1⟩, ⟨"b", 2⟩] 2 false []
        [⟨"a", 1⟩, ⟨"b", 2⟩] (fun _ => 0) = some gs ∧
      members_all gs = ↑[(⟨"a", 1⟩ : Person), ⟨"b", 2⟩] :=
  C1_partition_invariant.1 [⟨"a", 1⟩, ⟨"b", 2⟩] 2 false [] [⟨"a", 1⟩, ⟨"b", 2⟩]
    (fun _ => 0) (by decide) (by decide) (by decide)

/-- C2: size balance.  With `N = q*G + r` (`q = N/G`, `r = N%G`, `G ≥ 1`),
the generator returns exactly `r` groups of size `q+1` and `G-r` of size `q`
with pairwise size difference at most 1; every swap/transfer iteration
preserves the size profile of the working state; and over any whole run from
a balanced seed, the returned best keeps exactly `r` groups of size `q+1`,
`G-r` of size `q`, and pairwise size difference at most 1. -/
theorem C2_size_balance :
    (∀ (P : List Person) (G : ℕ) (rs : Bool) (stars normals : List Person)
        (choice : ℕ → ℕ), 0 < G →
      stars.Perm (star_split P rs).1 → normals.Perm (star_split P rs).2 →
      ∃ gs, generate_random_state P G rs stars normals choice = some gs ∧
        gs.countP (fun g => g.members.length = P.length / G + 1) = P.length % G ∧
        gs.countP (fun g => g.members.length = P.length / G) = G - P.length % G ∧
        ∀ g ∈ gs, ∀ g' ∈ gs, g.members.length ≤ g'.members.length + 1) ∧
    (∀ (N G : ℕ) (rs : Bool) (mv : MoveChoice) (st : SAState),
      size_profile N G st.current →
      size_profile N G (sa_step (N / G) (N / G + 1) rs mv st).current) ∧
    (∀ (groups : List Group) (rs : Bool) (ns : SharedNS) (moves : List MoveChoice)
        (N G : ℕ), 0 < G → size_profile N G groups →
      (run_simulated_annealing groups rs ns moves).1.best.countP
          (fun g => g.members.length = N / G + 1) = N % G ∧
        (run_simulated_annealing groups rs ns moves).1.best.countP
          (fun g => g.members.length = N / G) = G - N % G ∧
        ∀ g ∈ (run_simulated_annealing groups rs ns moves).1.best,
          ∀ g' ∈ (run_simulated_annealing groups rs ns moves).1.best,
            g.members.length ≤ g'.members.length + 1) := by
  refine ⟨?_, ?_, ?_⟩
  · intro P G rs stars normals choice hG hs hn
    obtain ⟨gs, h1, _, hlen, hbound, hsum, _⟩ :=
      generate_spec P G hG rs stars normals choice hs hn
    exact ⟨gs, h1, profile_counts_pairwise hG ⟨hlen, hsum, hbound⟩⟩
  · intro N G rs mv st hp
    exact step_shape_size_profile (sa_step_shape (N / G) (N / G + 1) rfl rs mv st).1 hp
  · intro groups rs ns moves N G hG hp
    exact profile_counts_pairwise hG (run_sz_spec groups rs ns moves N G hp).2

theorem C2_size_balance_witness :
    ∃ gs, generate_random_state [⟨"a", 1⟩, ⟨"b", 2⟩, ⟨"c", 3⟩] 2 false []
        [⟨"a", 1⟩, ⟨"b", 2⟩, ⟨"c", 3⟩] (fun _ => 0) = some gs ∧
      gs.countP (fun g => g.members.length =
        [(⟨"a", 1⟩ : Person), ⟨"b", 2⟩, ⟨"c", 3⟩].length / 2 + 1) =
        [(⟨"a", 1⟩ : Person), ⟨"b", 2⟩, ⟨"c", 3⟩].length % 2 ∧
      gs.countP (fun g => g.members.length =
        [(⟨"a", 1⟩ : Person), ⟨"b", 2⟩, ⟨"c", 3⟩].length / 2) =
        2 - [(⟨"a", 1⟩ : Person), ⟨"b", 2⟩, ⟨"c", 3⟩].length % 2 ∧
      ∀ g ∈ gs, ∀ g' ∈ gs, g.members.length ≤ g'.members.length + 1 :=
  C2_size_balance.1 [⟨"a", 1⟩, ⟨"b", 2⟩, ⟨"c", 3⟩] 2 false []
    [⟨"a", 1⟩, ⟨"b", 2⟩, ⟨"c", 3⟩] (fun _ => 0) (by decide) (by decide) (by decide)

/-- C3: star balance of the constrained variant.  The generator's round-robin
seeding of the shuffled advantaged members yields pairwise advantaged counts
differing by at most 1; every constrained swap/transfer iteration (swaps
exchange only members of equal advantaged status, transfers of an advantaged
member into a group already holding one are blocked) preserves that balance;
and over any whole constrained run from a star-balanced seed both the final
working state and the returned best remain star-balanced. -/
theorem C3_star_balance :
    (∀ (P : List Person) (G : ℕ) (stars normals : List Person) (choice : ℕ → ℕ),
      0 < G →
      stars.Perm (star_split P true).1 → normals.Perm (star_split P true).2 →
      ∃ gs, generate_random_state P G true stars normals choice = some gs ∧
        star_profile gs) ∧
    (∀ (ms : ℕ) (mv : MoveChoice) (st : SAState),
      star_profile st.current →
      star_profile (sa_step ms (ms + 1) true mv st).current) ∧
    (∀ (groups : List Group) (ns : SharedNS) (moves : List MoveChoice),
      star_profile groups →
      star_profile (run_simulated_annealing groups true ns moves).1.current ∧
        star_profile (run_simulated_annealing groups true ns moves).1.best) := by
  refine ⟨?_, ?_, ?_⟩
  · intro P G stars normals choice hG hs hn
    obtain ⟨gs, h1, _, _, _, _, hstar⟩ := generate_spec P G hG true stars normals choice hs hn
    exact ⟨gs, h1, hstar rfl⟩
  · intro ms mv st hp
    exact step_shape_star_profile (sa_step_shape ms (ms + 1) rfl true mv st).1 hp
  · intro groups ns moves hp
    exact run_stb_spec groups ns moves hp

theorem C3_star_balance_witness :
    ∃ gs, generate_random_state [⟨"a*", 1⟩, ⟨"b", 2⟩, ⟨"c*", 3⟩] 2 true
        [⟨"a*", 1⟩, ⟨"c*", 3⟩] [⟨"b", 2⟩] (fun _ => 0) = some gs ∧
      star_profile gs :=
  C3_star_balance.1 [⟨"a*", 1⟩, ⟨"b", 2⟩, ⟨"c*", 3⟩] 2 [⟨"a*", 1⟩, ⟨"c*", 3⟩]
    [⟨"b", 2⟩] (fun _ => 0) (by decide) (by decide) (by decide)

/-- C5 counterexample: there is no `InvalidGroupCount` validation anywhere in
the engine.  With `N = 2` participants and `G = 3 > N` the generator returns
a state containing an empty group instead of failing fast. -/
theorem C5_counterexample :
    (generate_random_state [⟨"a", 1⟩, ⟨"b", 2⟩] 3 false [] [⟨"a", 1⟩, ⟨"b", 2⟩]
        (fun _ => 0)).isSome = true ∧
      (generate_random_state [⟨"a", 1⟩, ⟨"b", 2⟩] 3 false [] [⟨"a", 1⟩, ⟨"b", 2⟩]
          (fun _ => 0)).map (fun gs => gs.countP (fun g => g.members.isEmpty)) =
        some 1 := by decide

/-- C5 (amended): the engine performs no group-count validation and raises no
`InvalidGroupCount`.  A call with `G = 0` dies with an uncaught
`ZeroDivisionError` at the `total // num_groups` line (modelled by `none`)
before any worker output exists, and for every `G > N` the generator
successfully returns a degenerate state containing exactly `G - N` empty
groups. -/
theorem C5_no_validation (P : List Person) (G : ℕ) (rs : Bool)
    (stars normals : List Person) (choice : ℕ → ℕ) :
    generate_random_state P 0 rs stars normals choice = none ∧
      (0 < G → P.length < G →
        stars.Perm (star_split P rs).1 → normals.Perm (star_split P rs).2 →
        ∃ gs, generate_random_state P G rs stars normals choice = some gs ∧
          gs.countP (fun g => g.members.isEmpty) = G - P.length ∧
          0 < gs.countP (fun g => g.members.isEmpty)) := by
  constructor
  · rfl
  · intro hG hlt hs hn
    obtain ⟨gs, h1, _, hlen, hbound, hsum, _⟩ :=
      generate_spec P G hG rs stars normals choice hs hn
    obtain ⟨_, h2⟩ := counts_of_profile hG hlen hsum hbound
    have hdiv : P.length / G = 0 := Nat.div_eq_of_lt hlt
    have hmod : P.length % G = P.length := Nat.mod_eq_of_lt hlt
    rw [hdiv, hmod] at h2
    have hcong : gs.countP (fun g => g.members.isEmpty) =
        gs.countP (fun g => decide (g.members.length = 0)) := by
      apply List.countP_congr
      intro g _
      rcases hgm : g.members with _ | ⟨a, t⟩ <;> simp [hgm]
    refine ⟨gs, h1, ?_, ?_⟩
    · rw [hcong, h2]
    · rw [hcong, h2]
      omega

theorem C5_no_validation_witness :
    generate_random_state [⟨"a", 1⟩, ⟨"b", 2⟩] 0 false [] [⟨"a", 1⟩, ⟨"b", 2⟩]
        (fun _ => 0) = none ∧
      (∃ gs, generate_random_state [⟨"a", 1⟩, ⟨"b", 2⟩] 3 false [] [⟨"a", 1⟩, ⟨"b", 2⟩]
          (fun _ => 0) = some gs ∧
        gs.countP (fun g => g.members.isEmpty) =
          3 - [(⟨"a", 1⟩ : Person), ⟨"b", 2⟩].length ∧
        0 < gs.countP (fun g => g.members.isEmpty)) :=
  ⟨(C5_no_validation [⟨"a", 1⟩, ⟨"b", 2⟩] 3 false [] [⟨"a", 1⟩, ⟨"b", 2⟩]
      (fun _ => 0)).1,
   (C5_no_validation [⟨"a", 1⟩, ⟨"b", 2⟩] 3 false [] [⟨"a", 1⟩, ⟨"b", 2⟩]
      (fun _ => 0)).2 (by decide) (by decide) (by decide) (by decide)⟩

/-- C10: each worker publishes its deep-copied seed and the seed's objective
to the shared record before entering the loop; hence once any worker of a
variant completes initialisation with a seed objective below the `99999.0`
sentinel, the coordinator's final harvest of that variant's shared slot
yields a non-empty valid grouping (an exact, size-balanced partition) no
matter how few loop iterations later run — including zero, modelling
cancellation, timeout, or an exception raised mid-loop. -/
theorem C10_seed_publish_harvest (groups : List Group) (rs : Bool) (ns : SharedNS)
    (moves : List MoveChoice) (P : Multiset Person) (N G : ℕ)
    (hmem : members_all groups = P) (hprof : size_profile N G groups)
    (hstarp : rs = true → star_profile groups) (hnsinv : ns_inv P N G ns)
    (hG : 0 < G)
    (hseed : calculate_std_dev_sq (deep_copy_groups groups) < 99999 ^ 2) :
    (rs = true → ∃ gs,
      (run_simulated_annealing groups rs ns moves).2.best_a_groups = some gs ∧
        (harvest (run_simulated_annealing groups rs ns moves).2).1 = gs ∧
        gs ≠ [] ∧ members_all gs = P ∧ size_profile N G gs) ∧
    (∃ gs,
      (run_simulated_annealing groups rs ns moves).2.best_b_groups = some gs ∧
        (harvest (run_simulated_annealing groups rs ns moves).2).2.2.1 = gs ∧
        gs ≠ [] ∧ members_all gs = P ∧ size_profile N G gs) := by
  obtain ⟨_, hnsf, _, _, hsome⟩ :=
    run_simulated_annealing_spec groups rs ns moves P N G hmem hprof hstarp hnsinv
  obtain ⟨hasome, hbsome⟩ := hsome hseed
  constructor
  · intro hrs
    obtain ⟨gs, hgs⟩ := Option.isSome_iff_exists.mp (hasome hrs)
    have hvalid := hnsf.2.1 gs hgs
    refine ⟨gs, hgs, ?_, ?_, hvalid.1, hvalid.2⟩
    · simp [harvest, hgs]
    · intro hnil
      have hlen := hvalid.2.1
      rw [hnil] at hlen
      simp at hlen
      omega
  · obtain ⟨gs, hgs⟩ := Option.isSome_iff_exists.mp hbsome
    have hvalid := hnsf.2.2.2 gs hgs
    refine ⟨gs, hgs, ?_, ?_, hvalid.1, hvalid.2⟩
    · simp [harvest, hgs]
    · intro hnil
      have hlen := hvalid.2.1
      rw [hnil] at hlen
      simp at hlen
      omega

theorem C10_seed_publish_harvest_witness :
    ((false : Bool) = true → ∃ gs,
      (run_simulated_annealing [⟨1, [⟨"a", 1⟩], 1, 1⟩] false init_ns
          []).2.best_a_groups = some gs ∧
        (harvest (run_simulated_annealing [⟨1, [⟨"a", 1⟩], 1, 1⟩] false init_ns
          []).2).1 = gs ∧
        gs ≠ [] ∧ members_all gs = ↑[(⟨"a", 1⟩ : Person)] ∧ size_profile 1 1 gs) ∧
    (∃ gs,
      (run_simulated_annealing [⟨1, [⟨"a", 1⟩], 1, 1⟩] false init_ns
          []).2.best_b_groups = some gs ∧
        (harvest (run_simulated_annealing [⟨1, [⟨"a", 1⟩], 1, 1⟩] false init_ns
          []).2).2.2.1 = gs ∧
        gs ≠ [] ∧ members_all gs = ↑[(⟨"a", 1⟩ : Person)] ∧ size_profile 1 1 gs) :=
  C10_seed_publish_harvest [⟨1, [⟨"a", 1⟩], 1, 1⟩] false init_ns []
    (↑[(⟨"a", 1⟩ : Person)]) 1 1 (by decide)
    ⟨rfl, rfl, fun g hg => by rw [List.mem_singleton] at hg; subst hg; exact ⟨by decide, by decide⟩⟩
    (fun h => Bool.noConfusion h) (ns_inv_init _ 1 1) (by decide)
    (by norm_num [calculate_std_dev_sq, deep_copy_groups, recalculate_sums, recalc_one,
      group_avgs, group_sum, pop_var, rat_mean])

theorem recalc_one_congr (x y : Group) (hid : x.id = y.id) (hm : x.members = y.members) :
    recalc_one x = recalc_one y := by
  unfold recalc_one
  cases x
  cases y
  simp only at hid hm
  simp [hid, hm]

theorem set_of_getElem {α : Type} {l : List α} {i : ℕ} {a : α}
    (h : l[i]? = some a) : l.set i a = l := by
  have hilt : i < l.length := by
    by_contra hc
    rw [List.getElem?_eq_none (by omega)] at h
    exact Option.noConfusion h
  apply List.ext_getElem?
  intro n
  by_cases hn : i = n
  · subst hn
    rw [h]
    simp [List.getElem?_set, hilt, h]
  · simp [List.getElem?_set, hn]

theorem group_sum_congr (l l' : List Person)
    (h : (↑l : Multiset Person) = ↑l') : group_sum l = group_sum l' := by
  have hp : l.Perm l' := Multiset.coe_eq_coe.mp h
  unfold group_sum
  exact (hp.map Person.score).sum_eq

/-- C6 (amended): the search loop's swap attempt is a uniform random
exchange, not the spec's targeted-extremes routine.  Given the two distinct
drawn group positions and the two drawn member indices (reduced modulo the
group sizes, exactly as the source does), with both groups non-empty and the
constrained equal-status guard passed, the arm unconditionally builds the
single exchanged state; it keeps it when it strictly improves on the best
objective or the Metropolis draw accepts, and otherwise swaps the two
members back, restoring the working state exactly (given groups whose cached
sum and average are consistent).  No ordering by average, no highest/lowest
restriction, no average-gap or score-direction filter and no 1e-6
improvement threshold is involved. -/
theorem C6_uniform_swap (rs : Bool) (i j k1 k2 : ℕ) (coin : Bool) (st : SAState)
    (g1 g2 : Group) (h1 : st.current[i]? = some g1) (h2 : st.current[j]? = some g2)
    (hij : ¬ i = j) (hemp : ¬(g1.members.isEmpty ∨ g2.members.isEmpty))
    (hstat : ¬(rs = true ∧
      is_star (g1.members.getD (k1 % g1.members.length) default) ≠
        is_star (g2.members.getD (k2 % g2.members.length) default)))
    (hc1 : recalc_one g1 = g1) (hc2 : recalc_one g2 = g2) :
    ((calculate_std_dev_sq (swap_applied i j k1 k2 g1 g2 st.current) < st.best_sq ∨
        coin = true) →
      (try_swap rs i j k1 k2 coin st).current =
        swap_applied i j k1 k2 g1 g2 st.current) ∧
    (¬ calculate_std_dev_sq (swap_applied i j k1 k2 g1 g2 st.current) < st.best_sq →
      coin = false →
      (try_swap rs i j k1 k2 coin st).current = st.current) := by
  have hpos1 : 0 < g1.members.length := by
    cases hl : g1.members with
    | nil => exact absurd (Or.inl (by simp [hl])) hemp
    | cons a l => simp [hl]
  have hpos2 : 0 < g2.members.length := by
    cases hl : g2.members with
    | nil => exact absurd (Or.inr (by simp [hl])) hemp
    | cons a l => simp [hl]
  have hlen1 : k1 % g1.members.length < g1.members.length := Nat.mod_lt _ hpos1
  have hlen2 : k2 % g2.members.length < g2.members.length := Nat.mod_lt _ hpos2
  obtain ⟨_, hilt⟩ := mem_len_of_getElem? h1
  obtain ⟨_, hjlt⟩ := mem_len_of_getElem? h2
  have happ : swap_applied i j k1 k2 g1 g2 st.current = ((st.current.set i (recalc_one { g1 with members := g1.members.set (k1 % g1.members.length) (g2.members.getD (k2 % g2.members.length) default) })).set j (recalc_one { g2 with members := g2.members.set (k2 % g2.members.length) (g1.members.getD (k1 % g1.members.length) default) })) := rfl
  constructor
  · intro hk
    simp only [try_swap, h1, h2]
    rw [if_neg hij, if_neg hemp, if_neg hstat]
    rw [happ] at hk ⊢
    by_cases himp : calculate_std_dev_sq ((st.current.set i (recalc_one { g1 with members := g1.members.set (k1 % g1.members.length) (g2.members.getD (k2 % g2.members.length) default) })).set j (recalc_one { g2 with members := g2.members.set (k2 % g2.members.length) (g1.members.getD (k1 % g1.members.length) default) })) < st.best_sq
    · rw [if_pos himp]
    · rcases hk with hk | hcoin
      · exact absurd hk himp
      · rw [if_neg himp, if_pos hcoin]
  · intro hni hcf
    simp only [try_swap, h1, h2]
    rw [if_neg hij, if_neg hemp, if_neg hstat]
    rw [happ] at hni
    rw [if_neg hni]
    have hcoin : ¬ (coin = true) := by
      rw [hcf]
      exact Bool.false_ne_true
    rw [if_neg hcoin]
    have e1 : (recalc_one { g1 with members := g1.members.set (k1 % g1.members.length) (g2.members.getD (k2 % g2.members.length) default) }).members.set (k1 % g1.members.length) (g1.members.getD (k1 % g1.members.length) default) = g1.members := by
      rw [recalc_one_members]
      rw [List.set_set, set_getD_self]
    have e2 : (recalc_one { g2 with members := g2.members.set (k2 % g2.members.length) (g1.members.getD (k1 % g1.members.length) default) }).members.set (k2 % g2.members.length) (g2.members.getD (k2 % g2.members.length) default) = g2.members := by
      rw [recalc_one_members]
      rw [List.set_set, set_getD_self]
    have hg1r : (recalc_one { recalc_one { g1 with members := g1.members.set (k1 % g1.members.length) (g2.members.getD (k2 % g2.members.length) default) } with members := (recalc_one { g1 with members := g1.members.set (k1 % g1.members.length) (g2.members.getD (k2 % g2.members.length) default) }).members.set (k1 % g1.members.length) (g1.members.getD (k1 % g1.members.length) default) }) = g1 := by
      rw [recalc_one_congr _ g1 (by simp) (by rw [e1]), hc1]
    have hg2r : (recalc_one { recalc_one { g2 with members := g2.members.set (k2 % g2.members.length) (g1.members.getD (k1 % g1.members.length) default) } with members := (recalc_one { g2 with members := g2.members.set (k2 % g2.members.length) (g1.members.getD (k1 % g1.members.length) default) }).members.set (k2 % g2.members.length) (g2.members.getD (k2 % g2.members.length) default) }) = g2 := by
      rw [recalc_one_congr _ g2 (by simp) (by rw [e2]), hc2]
    rw [hg1r, hg2r]
    apply List.ext_getElem?
    intro n
    by_cases hni' : i = n <;> by_cases hnj : j = n
    · exact absurd (hni'.trans hnj.symm) hij
    · subst hni'
      rw [h1]
      simp [List.getElem?_set, hnj, hilt, h1]
    · subst hnj
      rw [h2]
      simp [List.getElem?_set, hni', hjlt, h2]
    · simp [List.getElem?_set, hni', hnj]

/-- C6 counterexample: the spec's targeted-extremes swap is not what the
loop does.  On this state (two groups of equal average 2) the spec-modelled
routine reports a no-op (`none`: every high/low pair has average gap
`0 < 0.01`), yet the source's swap arm, fed the uniform draws
`i=0, j=1, k1=k2=0` and an accepting Metropolis draw, exchanges two members
and changes the working state. -/
theorem C6_counterexample :
    targeted_swap_spec [(⟨1, [⟨"a", 1⟩, ⟨"b", 3⟩], 4, 2⟩ : Group), (⟨2, [⟨"c", 2⟩, ⟨"d", 2⟩], 4, 2⟩ : Group)] false = none ∧
      (sa_step 2 3 false (MoveChoice.swap 0 1 0 0 true) (⟨[(⟨1, [⟨"a", 1⟩, ⟨"b", 3⟩], 4, 2⟩ : Group), (⟨2, [⟨"c", 2⟩, ⟨"d", 2⟩], 4, 2⟩ : Group)], [(⟨1, [⟨"a", 1⟩, ⟨"b", 3⟩], 4, 2⟩ : Group), (⟨2, [⟨"c", 2⟩, ⟨"d", 2⟩], 4, 2⟩ : Group)], 0, 1000⟩ : SAState)).current.map
          (fun g => g.members) ≠
        ((⟨[(⟨1, [⟨"a", 1⟩, ⟨"b", 3⟩], 4, 2⟩ : Group), (⟨2, [⟨"c", 2⟩, ⟨"d", 2⟩], 4, 2⟩ : Group)], [(⟨1, [⟨"a", 1⟩, ⟨"b", 3⟩], 4, 2⟩ : Group), (⟨2, [⟨"c", 2⟩, ⟨"d", 2⟩], 4, 2⟩ : Group)], 0, 1000⟩ : SAState)).current.map (fun g => g.members) := by
  constructor
  · norm_num [targeted_swap_spec, targeted_swap_candidates, sort_desc, insert_desc,
      avg_of, group_sum]
  · have hstep : (sa_step 2 3 false (MoveChoice.swap 0 1 0 0 true) (⟨[(⟨1, [⟨"a", 1⟩, ⟨"b", 3⟩], 4, 2⟩ : Group), (⟨2, [⟨"c", 2⟩, ⟨"d", 2⟩], 4, 2⟩ : Group)], [(⟨1, [⟨"a", 1⟩, ⟨"b", 3⟩], 4, 2⟩ : Group), (⟨2, [⟨"c", 2⟩, ⟨"d", 2⟩], 4, 2⟩ : Group)], 0, 1000⟩ : SAState)).current.map
        (fun g => g.members) = [[⟨"c", 2⟩, ⟨"b", 3⟩], [⟨"a", 1⟩, ⟨"d", 2⟩]] := by
      norm_num [sa_step, try_swap, recalc_one, group_sum, calculate_std_dev_sq,
        group_avgs, pop_var, rat_mean]
    rw [hstep]
    decide

theorem C6_uniform_swap_witness :
    ((calculate_std_dev_sq (swap_applied 0 1 0 0 (⟨1, [⟨"a", 1⟩, ⟨"b", 3⟩], 4, 2⟩ : Group) (⟨2, [⟨"c", 2⟩, ⟨"d", 2⟩], 4, 2⟩ : Group) [(⟨1, [⟨"a", 1⟩, ⟨"b", 3⟩], 4, 2⟩ : Group), (⟨2, [⟨"c", 2⟩, ⟨"d", 2⟩], 4, 2⟩ : Group)]) < 0 ∨ false = true) →
      (try_swap false 0 1 0 0 false (⟨[(⟨1, [⟨"a", 1⟩, ⟨"b", 3⟩], 4, 2⟩ : Group), (⟨2, [⟨"c", 2⟩, ⟨"d", 2⟩], 4, 2⟩ : Group)], [(⟨1, [⟨"a", 1⟩, ⟨"b", 3⟩], 4, 2⟩ : Group), (⟨2, [⟨"c", 2⟩, ⟨"d", 2⟩], 4, 2⟩ : Group)], 0, 1000⟩ : SAState)).current = swap_applied 0 1 0 0 (⟨1, [⟨"a", 1⟩, ⟨"b", 3⟩], 4, 2⟩ : Group) (⟨2, [⟨"c", 2⟩, ⟨"d", 2⟩], 4, 2⟩ : Group) [(⟨1, [⟨"a", 1⟩, ⟨"b", 3⟩], 4, 2⟩ : Group), (⟨2, [⟨"c", 2⟩, ⟨"d", 2⟩], 4, 2⟩ : Group)]) ∧
    (¬ calculate_std_dev_sq (swap_applied 0 1 0 0 (⟨1, [⟨"a", 1⟩, ⟨"b", 3⟩], 4, 2⟩ : Group) (⟨2, [⟨"c", 2⟩, ⟨"d", 2⟩], 4, 2⟩ : Group) [(⟨1, [⟨"a", 1⟩, ⟨"b", 3⟩], 4, 2⟩ : Group), (⟨2, [⟨"c", 2⟩, ⟨"d", 2⟩], 4, 2⟩ : Group)]) < 0 → false = false →
      (try_swap false 0 1 0 0 false (⟨[(⟨1, [⟨"a", 1⟩, ⟨"b", 3⟩], 4, 2⟩ : Group), (⟨2, [⟨"c", 2⟩, ⟨"d", 2⟩], 4, 2⟩ : Group)], [(⟨1, [⟨"a", 1⟩, ⟨"b", 3⟩], 4, 2⟩ : Group), (⟨2, [⟨"c", 2⟩, ⟨"d", 2⟩], 4, 2⟩ : Group)], 0, 1000⟩ : SAState)).current = [(⟨1, [⟨"a", 1⟩, ⟨"b", 3⟩], 4, 2⟩ : Group), (⟨2, [⟨"c", 2⟩, ⟨"d", 2⟩], 4, 2⟩ : Group)]) :=
  C6_uniform_swap false 0 1 0 0 false (⟨[(⟨1, [⟨"a", 1⟩, ⟨"b", 3⟩], 4, 2⟩ : Group), (⟨2, [⟨"c", 2⟩, ⟨"d", 2⟩], 4, 2⟩ : Group)], [(⟨1, [⟨"a", 1⟩, ⟨"b", 3⟩], 4, 2⟩ : Group), (⟨2, [⟨"c", 2⟩, ⟨"d", 2⟩], 4, 2⟩ : Group)], 0, 1000⟩ : SAState) (⟨1, [⟨"a", 1⟩, ⟨"b", 3⟩], 4, 2⟩ : Group) (⟨2, [⟨"c", 2⟩, ⟨"d", 2⟩], 4, 2⟩ : Group) rfl rfl (by decide) (by decide)
    (by decide) (by norm_num [recalc_one, group_sum]) (by norm_num [recalc_one, group_sum])

theorem recalc_one_sum (g : Group) :
    (recalc_one g).current_sum = group_sum g.members := rfl

theorem recalc_one_avg (g : Group) :
    (recalc_one g).avg =
      if 0 < g.members.length then group_sum g.members / g.members.length else 0 := rfl

/-- C8 (amended): a transfer trial that does not improve on the best
objective is accepted exactly when the uniform draw `u` does not exceed
`exp(-Δ·100/T)` with `Δ` the new-minus-best standard deviation — and on
rejection the member is popped off the destination and appended back to the
source, which restores every group's member multiset, cached sum and cached
average to their values immediately before the move (given consistent
caches), but appends the moved member at the END of the source list: the
source group's member LIST is `eraseIdx ++ [moved]`, not its original
ordering. -/
theorem C8_metropolis_revert (ms : ℕ) (rs : Bool) (i j k : ℕ) (coin : Bool)
    (st : SAState) (g1 g2 : Group) (u : ℝ)
    (h1 : st.current[i]? = some g1) (h2 : st.current[j]? = some g2)
    (hij : ¬ i = j)
    (hsz1 : g1.members.length = ms + 1) (hsz2 : g2.members.length = ms)
    (hstar : ¬(rs = true ∧ is_star (g1.members.getD (k % g1.members.length) default) = true ∧ 0 < star_count g2))
    (hc1 : recalc_one g1 = g1) (hc2 : recalc_one g2 = g2)
    (hni : ¬ calculate_std_dev_sq (transfer_applied i j (k % g1.members.length) g1 g2 st.current) < st.best_sq)
    (hcoin : coin = true ↔ ¬ u > Real.exp (-(Real.sqrt ((calculate_std_dev_sq (transfer_applied i j (k % g1.members.length) g1 g2 st.current) : ℝ)) - Real.sqrt ((st.best_sq : ℝ))) * 100 / (st.T : ℝ))) :
    (u ≤ Real.exp (-(Real.sqrt ((calculate_std_dev_sq (transfer_applied i j (k % g1.members.length) g1 g2 st.current) : ℝ)) - Real.sqrt ((st.best_sq : ℝ))) * 100 / (st.T : ℝ)) → (try_transfer ms (ms + 1) rs i j k coin st).current = (transfer_applied i j (k % g1.members.length) g1 g2 st.current)) ∧
    (Real.exp (-(Real.sqrt ((calculate_std_dev_sq (transfer_applied i j (k % g1.members.length) g1 g2 st.current) : ℝ)) - Real.sqrt ((st.best_sq : ℝ))) * 100 / (st.T : ℝ)) < u →
      (try_transfer ms (ms + 1) rs i j k coin st).current.map (fun g => (↑g.members : Multiset Person)) =
          st.current.map (fun g => (↑g.members : Multiset Person)) ∧
        (try_transfer ms (ms + 1) rs i j k coin st).current.map Group.current_sum = st.current.map Group.current_sum ∧
        (try_transfer ms (ms + 1) rs i j k coin st).current.map Group.avg = st.current.map Group.avg ∧
        ((try_transfer ms (ms + 1) rs i j k coin st).current.getD i default).members =
          g1.members.eraseIdx (k % g1.members.length) ++ [(g1.members.getD (k % g1.members.length) default)]) := by
  have hpos1 : 0 < g1.members.length := by omega
  have hidx : k % g1.members.length < g1.members.length := Nat.mod_lt _ hpos1
  obtain ⟨_, hilt⟩ := mem_len_of_getElem? h1
  obtain ⟨_, hjlt⟩ := mem_len_of_getElem? h2
  have happ : (transfer_applied i j (k % g1.members.length) g1 g2 st.current) = ((st.current.set i (recalc_one { g1 with members := g1.members.eraseIdx (k % g1.members.length) })).set j (recalc_one { g2 with members := g2.members ++ [(g1.members.getD (k % g1.members.length) default)] })) := rfl
  have hpick : (if g1.members.length = ms + 1 ∧ g2.members.length = ms then
      some (i, g1, j, g2)
    else if g2.members.length = ms + 1 ∧ g1.members.length = ms then some (j, g2, i, g1)
    else none) = some (i, g1, j, g2) := by
    rw [if_pos ⟨hsz1, hsz2⟩]
  have hunf : (try_transfer ms (ms + 1) rs i j k coin st) =
      (if calculate_std_dev_sq ((st.current.set i (recalc_one { g1 with members := g1.members.eraseIdx (k % g1.members.length) })).set j (recalc_one { g2 with members := g2.members ++ [(g1.members.getD (k % g1.members.length) default)] })) < st.best_sq then
        { current := ((st.current.set i (recalc_one { g1 with members := g1.members.eraseIdx (k % g1.members.length) })).set j (recalc_one { g2 with members := g2.members ++ [(g1.members.getD (k % g1.members.length) default)] })), best := deep_copy_groups ((st.current.set i (recalc_one { g1 with members := g1.members.eraseIdx (k % g1.members.length) })).set j (recalc_one { g2 with members := g2.members ++ [(g1.members.getD (k % g1.members.length) default)] })),
           best_sq := calculate_std_dev_sq ((st.current.set i (recalc_one { g1 with members := g1.members.eraseIdx (k % g1.members.length) })).set j (recalc_one { g2 with members := g2.members ++ [(g1.members.getD (k % g1.members.length) default)] })), T := cool st.T }
      else if coin then { st with current := ((st.current.set i (recalc_one { g1 with members := g1.members.eraseIdx (k % g1.members.length) })).set j (recalc_one { g2 with members := g2.members ++ [(g1.members.getD (k % g1.members.length) default)] })), T := cool st.T }
      else { st with current := (((st.current.set i (recalc_one { g1 with members := g1.members.eraseIdx (k % g1.members.length) })).set j (recalc_one { g2 with members := g2.members ++ [(g1.members.getD (k % g1.members.length) default)] })).set j (recalc_one { recalc_one { g2 with members := g2.members ++ [(g1.members.getD (k % g1.members.length) default)] } with members := (recalc_one { g2 with members := g2.members ++ [(g1.members.getD (k % g1.members.length) default)] }).members.dropLast })).set i (recalc_one { recalc_one { g1 with members := g1.members.eraseIdx (k % g1.members.length) } with members := (recalc_one { g1 with members := g1.members.eraseIdx (k % g1.members.length) }).members ++ [(g1.members.getD (k % g1.members.length) default)] }), T := cool st.T }) := by
    simp only [try_transfer, h1, h2]
    rw [if_neg hij, hpick]
    dsimp only
    rw [if_neg hstar]
  constructor
  · intro hu
    have hct : coin = true := hcoin.mpr (not_lt.mpr hu)
    rw [hunf, happ]
    rw [if_neg (by rw [← happ]; exact hni), if_pos hct]
  · intro hE
    have hcf : ¬ (coin = true) := fun hc => (hcoin.mp hc) hE
    rw [hunf]
    rw [if_neg (by rw [← happ]; exact hni), if_neg hcf]
    have hdrop : (recalc_one { g2 with members := g2.members ++ [(g1.members.getD (k % g1.members.length) default)] }).members.dropLast = g2.members := by
      rw [recalc_one_members]
      exact List.dropLast_concat
    have hdstr : (recalc_one { recalc_one { g2 with members := g2.members ++ [(g1.members.getD (k % g1.members.length) default)] } with members := (recalc_one { g2 with members := g2.members ++ [(g1.members.getD (k % g1.members.length) default)] }).members.dropLast }) = g2 := by
      rw [recalc_one_congr _ g2 (by simp) (by rw [hdrop]), hc2]
    have hsrcr : (recalc_one { recalc_one { g1 with members := g1.members.eraseIdx (k % g1.members.length) } with members := (recalc_one { g1 with members := g1.members.eraseIdx (k % g1.members.length) }).members ++ [(g1.members.getD (k % g1.members.length) default)] }) = (recalc_one { g1 with members := g1.members.eraseIdx (k % g1.members.length) ++ [(g1.members.getD (k % g1.members.length) default)] }) :=
      recalc_one_congr _ _ (by simp) (by rw [recalc_one_members])
    rw [hdstr, hsrcr]
    have hfinal : (((st.current.set i (recalc_one { g1 with members := g1.members.eraseIdx (k % g1.members.length) })).set j (recalc_one { g2 with members := g2.members ++ [(g1.members.getD (k % g1.members.length) default)] })).set j g2).set i (recalc_one { g1 with members := g1.members.eraseIdx (k % g1.members.length) ++ [(g1.members.getD (k % g1.members.length) default)] }) = st.current.set i (recalc_one { g1 with members := g1.members.eraseIdx (k % g1.members.length) ++ [(g1.members.getD (k % g1.members.length) default)] }) := by
      apply List.ext_getElem?
      intro n
      by_cases hni' : i = n <;> by_cases hnj : j = n
      · exact absurd (hni'.trans hnj.symm) hij
      · subst hni'
        simp [List.getElem?_set, hnj, hilt]
      · subst hnj
        have h2' := List.getElem?_eq_getElem hjlt
        rw [h2] at h2'
        simp [List.getElem?_set, hni', hjlt, h2, Option.some.inj h2']
      · simp [List.getElem?_set, hni', hnj]
    rw [hfinal]
    have hcoe : ((g1.members.eraseIdx (k % g1.members.length) ++ [(g1.members.getD (k % g1.members.length) default)] : List Person) :
        Multiset Person) = ↑g1.members :=
      coe_erase_append _ _ _ (getD_cons_eraseIdx g1.members (k % g1.members.length) default hidx)
    have hsum1 := congrArg Group.current_sum hc1
    rw [recalc_one_sum] at hsum1
    have havg1 := congrArg Group.avg hc1
    rw [recalc_one_avg] at havg1
    have hlen_er : (g1.members.eraseIdx (k % g1.members.length) ++ [(g1.members.getD (k % g1.members.length) default)]).length =
        g1.members.length := by
      rw [List.length_append, List.length_eraseIdx]
      simp [hidx]
      omega
    have hgs : group_sum (g1.members.eraseIdx (k % g1.members.length) ++ [(g1.members.getD (k % g1.members.length) default)]) =
        group_sum g1.members := group_sum_congr _ _ hcoe
    refine ⟨?_, ?_, ?_, ?_⟩
    · rw [List.map_set]
      apply set_of_getElem
      simp only [List.getElem?_map, h1, Option.map_some']
      rw [recalc_one_members, hcoe]
    · rw [List.map_set]
      apply set_of_getElem
      simp only [List.getElem?_map, h1, Option.map_some']
      rw [recalc_one_sum, hgs, hsum1]
    · rw [List.map_set]
      apply set_of_getElem
      simp only [List.getElem?_map, h1, Option.map_some']
      rw [recalc_one_avg, hlen_er, hgs, havg1]
    · rw [getD_set_self hilt, recalc_one_members]

/-- The Metropolis acceptance threshold of the C8 scenario: the rejected
transfer raises the standard deviation from `0` to `3/2`, so the source
accepts it only when `random.random() ≤ exp(-(3/2)*100/1000) = exp(-3/20)`,
which is below `9/10` (and so below `1`): a uniform draw from `[0,1)` can
reject it. -/
theorem rej_threshold_lt : Real.exp (-(Real.sqrt (((9/4 : ℚ) : ℝ)) - Real.sqrt (((0 : ℚ) : ℝ))) * 100 / (((1000 : ℚ)) : ℝ)) < 9/10 := by
  have harg : -(Real.sqrt (((9/4 : ℚ) : ℝ)) - Real.sqrt (((0 : ℚ) : ℝ))) * 100 /
      (((1000 : ℚ)) : ℝ) = -(3/20) := by
    have h94 : (((9/4 : ℚ)) : ℝ) = (3/2)^2 := by norm_num
    rw [h94, Real.sqrt_sq (by norm_num : (0:ℝ) ≤ 3/2)]
    norm_num
  rw [harg, Real.exp_neg]
  have h1 : (23/20 : ℝ) ≤ Real.exp (3/20) := by
    have h := Real.add_one_le_exp (3/20 : ℝ)
    linarith
  have h3 : (Real.exp (3/20 : ℝ))⁻¹ ≤ (23/20 : ℝ)⁻¹ :=
    inv_le_inv_of_le (by norm_num) h1
  have h4 : ((23/20 : ℝ))⁻¹ < 9/10 := by norm_num
  linarith

/-- C8 counterexample: the revert of a rejected transfer does NOT restore
the affected groups to "their values immediately before the move": the
source group's member list comes back reordered.  Transferring "a" (score 4)
out of `["a", "b"]` raises the objective (stdDev `0 → 3/2`), so the
acceptance threshold is `exp(-3/20) < 9/10 < 1` (third conjunct) and a
uniform draw from `[0,1)` can reject it; the rejection is reverted by
`pop`/`append`, leaving the source as `["b", "a"]`, not `["a", "b"]`. -/
theorem C8_counterexample :
    (sa_step 1 2 false (MoveChoice.transfer 0 1 0 false) (⟨[(⟨1, [(⟨"a", 4⟩ : Person), (⟨"b", 0⟩ : Person)], 4, 2⟩ : Group), (⟨2, [(⟨"c", 2⟩ : Person)], 2, 2⟩ : Group)], [(⟨1, [(⟨"a", 4⟩ : Person), (⟨"b", 0⟩ : Person)], 4, 2⟩ : Group), (⟨2, [(⟨"c", 2⟩ : Person)], 2, 2⟩ : Group)], 0, 1000⟩ : SAState)).current.map
        (fun g => g.members) = [[(⟨"b", 0⟩ : Person), (⟨"a", 4⟩ : Person)], [(⟨"c", 2⟩ : Person)]] ∧
      (sa_step 1 2 false (MoveChoice.transfer 0 1 0 false) (⟨[(⟨1, [(⟨"a", 4⟩ : Person), (⟨"b", 0⟩ : Person)], 4, 2⟩ : Group), (⟨2, [(⟨"c", 2⟩ : Person)], 2, 2⟩ : Group)], [(⟨1, [(⟨"a", 4⟩ : Person), (⟨"b", 0⟩ : Person)], 4, 2⟩ : Group), (⟨2, [(⟨"c", 2⟩ : Person)], 2, 2⟩ : Group)], 0, 1000⟩ : SAState)).current.map
          (fun g => g.members) ≠
        ((⟨[(⟨1, [(⟨"a", 4⟩ : Person), (⟨"b", 0⟩ : Person)], 4, 2⟩ : Group), (⟨2, [(⟨"c", 2⟩ : Person)], 2, 2⟩ : Group)], [(⟨1, [(⟨"a", 4⟩ : Person), (⟨"b", 0⟩ : Person)], 4, 2⟩ : Group), (⟨2, [(⟨"c", 2⟩ : Person)], 2, 2⟩ : Group)], 0, 1000⟩ : SAState)).current.map (fun g => g.members) ∧
      Real.exp (-(Real.sqrt ((calculate_std_dev_sq (transfer_applied 0 1 (0 % 2) (⟨1, [(⟨"a", 4⟩ : Person), (⟨"b", 0⟩ : Person)], 4, 2⟩ : Group) (⟨2, [(⟨"c", 2⟩ : Person)], 2, 2⟩ : Group) [(⟨1, [(⟨"a", 4⟩ : Person), (⟨"b", 0⟩ : Person)], 4, 2⟩ : Group), (⟨2, [(⟨"c", 2⟩ : Person)], 2, 2⟩ : Group)]) : ℝ)) - Real.sqrt (((0 : ℚ) : ℝ))) * 100 / (((1000 : ℚ)) : ℝ)) < 1 := by
  have hstep : (sa_step 1 2 false (MoveChoice.transfer 0 1 0 false) (⟨[(⟨1, [(⟨"a", 4⟩ : Person), (⟨"b", 0⟩ : Person)], 4, 2⟩ : Group), (⟨2, [(⟨"c", 2⟩ : Person)], 2, 2⟩ : Group)], [(⟨1, [(⟨"a", 4⟩ : Person), (⟨"b", 0⟩ : Person)], 4, 2⟩ : Group), (⟨2, [(⟨"c", 2⟩ : Person)], 2, 2⟩ : Group)], 0, 1000⟩ : SAState)).current.map
      (fun g => g.members) = [[(⟨"b", 0⟩ : Person), (⟨"a", 4⟩ : Person)], [(⟨"c", 2⟩ : Person)]] := by
    norm_num [transfer_applied, sa_step, try_transfer, recalc_one, group_sum, calculate_std_dev_sq, group_avgs, pop_var, rat_mean]
  refine ⟨hstep, ?_, ?_⟩
  · rw [hstep]
    decide
  · rw [show calculate_std_dev_sq (transfer_applied 0 1 (0 % 2) (⟨1, [(⟨"a", 4⟩ : Person), (⟨"b", 0⟩ : Person)], 4, 2⟩ : Group) (⟨2, [(⟨"c", 2⟩ : Person)], 2, 2⟩ : Group) [(⟨1, [(⟨"a", 4⟩ : Person), (⟨"b", 0⟩ : Person)], 4, 2⟩ : Group), (⟨2, [(⟨"c", 2⟩ : Person)], 2, 2⟩ : Group)]) = 9/4 from by norm_num [transfer_applied, sa_step, try_transfer, recalc_one, group_sum, calculate_std_dev_sq, group_avgs, pop_var, rat_mean]]
    exact lt_trans rej_threshold_lt (by norm_num)

theorem C8_metropolis_revert_witness :
    ((9/10 : ℝ) ≤ Real.exp (-(Real.sqrt ((calculate_std_dev_sq (transfer_applied 0 1 (0 % 2) (⟨1, [(⟨"a", 4⟩ : Person), (⟨"b", 0⟩ : Person)], 4, 2⟩ : Group) (⟨2, [(⟨"c", 2⟩ : Person)], 2, 2⟩ : Group) [(⟨1, [(⟨"a", 4⟩ : Person), (⟨"b", 0⟩ : Person)], 4, 2⟩ : Group), (⟨2, [(⟨"c", 2⟩ : Person)], 2, 2⟩ : Group)]) : ℝ)) - Real.sqrt (((0 : ℚ) : ℝ))) * 100 / (((1000 : ℚ)) : ℝ)) → (try_transfer 1 (1 + 1) false 0 1 0 false (⟨[(⟨1, [(⟨"a", 4⟩ : Person), (⟨"b", 0⟩ : Person)], 4, 2⟩ : Group), (⟨2, [(⟨"c", 2⟩ : Person)], 2, 2⟩ : Group)], [(⟨1, [(⟨"a", 4⟩ : Person), (⟨"b", 0⟩ : Person)], 4, 2⟩ : Group), (⟨2, [(⟨"c", 2⟩ : Person)], 2, 2⟩ : Group)], 0, 1000⟩ : SAState)).current = (transfer_applied 0 1 (0 % 2) (⟨1, [(⟨"a", 4⟩ : Person), (⟨"b", 0⟩ : Person)], 4, 2⟩ : Group) (⟨2, [(⟨"c", 2⟩ : Person)], 2, 2⟩ : Group) [(⟨1, [(⟨"a", 4⟩ : Person), (⟨"b", 0⟩ : Person)], 4, 2⟩ : Group), (⟨2, [(⟨"c", 2⟩ : Person)], 2, 2⟩ : Group)])) ∧
    (Real.exp (-(Real.sqrt ((calculate_std_dev_sq (transfer_applied 0 1 (0 % 2) (⟨1, [(⟨"a", 4⟩ : Person), (⟨"b", 0⟩ : Person)], 4, 2⟩ : Group) (⟨2, [(⟨"c", 2⟩ : Person)], 2, 2⟩ : Group) [(⟨1, [(⟨"a", 4⟩ : Person), (⟨"b", 0⟩ : Person)], 4, 2⟩ : Group), (⟨2, [(⟨"c", 2⟩ : Person)], 2, 2⟩ : Group)]) : ℝ)) - Real.sqrt (((0 : ℚ) : ℝ))) * 100 / (((1000 : ℚ)) : ℝ)) < 9/10 →
      (try_transfer 1 (1 + 1) false 0 1 0 false (⟨[(⟨1, [(⟨"a", 4⟩ : Person), (⟨"b", 0⟩ : Person)], 4, 2⟩ : Group), (⟨2, [(⟨"c", 2⟩ : Person)], 2, 2⟩ : Group)], [(⟨1, [(⟨"a", 4⟩ : Person), (⟨"b", 0⟩ : Person)], 4, 2⟩ : Group), (⟨2, [(⟨"c", 2⟩ : Person)], 2, 2⟩ : Group)], 0, 1000⟩ : SAState)).current.map
          (fun g => (↑g.members : Multiset Person)) =
        ((⟨[(⟨1, [(⟨"a", 4⟩ : Person), (⟨"b", 0⟩ : Person)], 4, 2⟩ : Group), (⟨2, [(⟨"c", 2⟩ : Person)], 2, 2⟩ : Group)], [(⟨1, [(⟨"a", 4⟩ : Person), (⟨"b", 0⟩ : Person)], 4, 2⟩ : Group), (⟨2, [(⟨"c", 2⟩ : Person)], 2, 2⟩ : Group)], 0, 1000⟩ : SAState)).current.map (fun g => (↑g.members : Multiset Person)) ∧
        (try_transfer 1 (1 + 1) false 0 1 0 false (⟨[(⟨1, [(⟨"a", 4⟩ : Person), (⟨"b", 0⟩ : Person)], 4, 2⟩ : Group), (⟨2, [(⟨"c", 2⟩ : Person)], 2, 2⟩ : Group)], [(⟨1, [(⟨"a", 4⟩ : Person), (⟨"b", 0⟩ : Person)], 4, 2⟩ : Group), (⟨2, [(⟨"c", 2⟩ : Person)], 2, 2⟩ : Group)], 0, 1000⟩ : SAState)).current.map Group.current_sum =
          ((⟨[(⟨1, [(⟨"a", 4⟩ : Person), (⟨"b", 0⟩ : Person)], 4, 2⟩ : Group), (⟨2, [(⟨"c", 2⟩ : Person)], 2, 2⟩ : Group)], [(⟨1, [(⟨"a", 4⟩ : Person), (⟨"b", 0⟩ : Person)], 4, 2⟩ : Group), (⟨2, [(⟨"c", 2⟩ : Person)], 2, 2⟩ : Group)], 0, 1000⟩ : SAState)).current.map Group.current_sum ∧
        (try_transfer 1 (1 + 1) false 0 1 0 false (⟨[(⟨1, [(⟨"a", 4⟩ : Person), (⟨"b", 0⟩ : Person)], 4, 2⟩ : Group), (⟨2, [(⟨"c", 2⟩ : Person)], 2, 2⟩ : Group)], [(⟨1, [(⟨"a", 4⟩ : Person), (⟨"b", 0⟩ : Person)], 4, 2⟩ : Group), (⟨2, [(⟨"c", 2⟩ : Person)], 2, 2⟩ : Group)], 0, 1000⟩ : SAState)).current.map Group.avg =
          ((⟨[(⟨1, [(⟨"a", 4⟩ : Person), (⟨"b", 0⟩ : Person)], 4, 2⟩ : Group), (⟨2, [(⟨"c", 2⟩ : Person)], 2, 2⟩ : Group)], [(⟨1, [(⟨"a", 4⟩ : Person), (⟨"b", 0⟩ : Person)], 4, 2⟩ : Group), (⟨2, [(⟨"c", 2⟩ : Person)], 2, 2⟩ : Group)], 0, 1000⟩ : SAState)).current.map Group.avg ∧
        ((try_transfer 1 (1 + 1) false 0 1 0 false (⟨[(⟨1, [(⟨"a", 4⟩ : Person), (⟨"b", 0⟩ : Person)], 4, 2⟩ : Group), (⟨2, [(⟨"c", 2⟩ : Person)], 2, 2⟩ : Group)], [(⟨1, [(⟨"a", 4⟩ : Person), (⟨"b", 0⟩ : Person)], 4, 2⟩ : Group), (⟨2, [(⟨"c", 2⟩ : Person)], 2, 2⟩ : Group)], 0, 1000⟩ : SAState)).current.getD 0 default).members =
          [(⟨"a", 4⟩ : Person), (⟨"b", 0⟩ : Person)].eraseIdx (0 % 2) ++ [[(⟨"a", 4⟩ : Person), (⟨"b", 0⟩ : Person)].getD (0 % 2) default]) :=
  C8_metropolis_revert 1 false 0 1 0 false (⟨[(⟨1, [(⟨"a", 4⟩ : Person), (⟨"b", 0⟩ : Person)], 4, 2⟩ : Group), (⟨2, [(⟨"c", 2⟩ : Person)], 2, 2⟩ : Group)], [(⟨1, [(⟨"a", 4⟩ : Person), (⟨"b", 0⟩ : Person)], 4, 2⟩ : Group), (⟨2, [(⟨"c", 2⟩ : Person)], 2, 2⟩ : Group)], 0, 1000⟩ : SAState) (⟨1, [(⟨"a", 4⟩ : Person), (⟨"b", 0⟩ : Person)], 4, 2⟩ : Group) (⟨2, [(⟨"c", 2⟩ : Person)], 2, 2⟩ : Group) (9/10) rfl rfl (by decide)
    (by decide) (by decide) (by decide) (by norm_num [recalc_one, group_sum])
    (by norm_num [recalc_one, group_sum])
    (by
      show ¬ calculate_std_dev_sq (transfer_applied 0 1 (0 % 2) (⟨1, [(⟨"a", 4⟩ : Person), (⟨"b", 0⟩ : Person)], 4, 2⟩ : Group) (⟨2, [(⟨"c", 2⟩ : Person)], 2, 2⟩ : Group) [(⟨1, [(⟨"a", 4⟩ : Person), (⟨"b", 0⟩ : Person)], 4, 2⟩ : Group), (⟨2, [(⟨"c", 2⟩ : Person)], 2, 2⟩ : Group)]) < (0 : ℚ)
      rw [show calculate_std_dev_sq (transfer_applied 0 1 (0 % 2) (⟨1, [(⟨"a", 4⟩ : Person), (⟨"b", 0⟩ : Person)], 4, 2⟩ : Group) (⟨2, [(⟨"c", 2⟩ : Person)], 2, 2⟩ : Group) [(⟨1, [(⟨"a", 4⟩ : Person), (⟨"b", 0⟩ : Person)], 4, 2⟩ : Group), (⟨2, [(⟨"c", 2⟩ : Person)], 2, 2⟩ : Group)]) = 9/4 from by norm_num [transfer_applied, sa_step, try_transfer, recalc_one, group_sum, calculate_std_dev_sq, group_avgs, pop_var, rat_mean]]
      norm_num)
    (by
      show false = true ↔ ¬ (9/10 : ℝ) > Real.exp (-(Real.sqrt ((calculate_std_dev_sq (transfer_applied 0 1 (0 % 2) (⟨1, [(⟨"a", 4⟩ : Person), (⟨"b", 0⟩ : Person)], 4, 2⟩ : Group) (⟨2, [(⟨"c", 2⟩ : Person)], 2, 2⟩ : Group) [(⟨1, [(⟨"a", 4⟩ : Person), (⟨"b", 0⟩ : Person)], 4, 2⟩ : Group), (⟨2, [(⟨"c", 2⟩ : Person)], 2, 2⟩ : Group)]) : ℝ)) - Real.sqrt (((0 : ℚ) : ℝ))) * 100 / (((1000 : ℚ)) : ℝ))
      rw [show calculate_std_dev_sq (transfer_applied 0 1 (0 % 2) (⟨1, [(⟨"a", 4⟩ : Person), (⟨"b", 0⟩ : Person)], 4, 2⟩ : Group) (⟨2, [(⟨"c", 2⟩ : Person)], 2, 2⟩ : Group) [(⟨1, [(⟨"a", 4⟩ : Person), (⟨"b", 0⟩ : Person)], 4, 2⟩ : Group), (⟨2, [(⟨"c", 2⟩ : Person)], 2, 2⟩ : Group)]) = 9/4 from by norm_num [transfer_applied, sa_step, try_transfer, recalc_one, group_sum, calculate_std_dev_sq, group_avgs, pop_var, rat_mean]]
      apply iff_of_false
      · simp
      · exact not_not_intro rej_threshold_lt)
end GroupBalancer
